import Mathlib

/-!
# dent: runtime-schema data access layer

A shallow embedding of the catalog (`client.go`), the scan codec
(`client.go`, `dynamic.go`), the mutation record (`mutation.go`) and the
query builder with its eager loader (`dynamic_query.go`), followed by the
properties established about them.

Conventions of the embedding.

* A Go `map[K]V` is an association list with at most one binding per key
  that matters: `GoMap.get` reads the first binding, `GoMap.set` overwrites
  it in place (or appends), `GoMap.del` removes every binding of the key.
  Go leaves the iteration order of a map unspecified; a `range` over a map is
  a traversal of the list, so a statement quantified over all maps covers
  every iteration order.
* Pointers are replaced by values. Where the source mutates through a
  pointer, the function returns the updated value.
* `interface{}` / `ent.Value` is the type `Value`; the scan holders
  (`*sql.NullInt64`, `*[]byte`, ...) are constructors of `Value` because the
  source stores them behind `interface{}`.
* Go `int` is 64 bit wide; `int(x)` for an `int64` is the identity and `+`
  wraps (`wrapInt`).
* A Go panic is the `panic` constructor of `Outcome`, an `error` return is
  `err`.
-/

namespace Dent

set_option linter.dupNamespace false

/-! ## Go maps -/

/-- A Go map as an association list. Every map of the model is an allocated
map: the nil map, which reads as an empty map and panics on a write, has no
representation of its own. -/
abbrev GoMap (κ : Type) (ν : Type) := List (κ × ν)

namespace GoMap

variable {κ ν : Type} [DecidableEq κ]

/-- The read `v, ok := m[k]`: `none` is `ok = false`. -/
def get : GoMap κ ν → κ → Option ν
  | [], _ => none
  | (k', v) :: rest, k => if k' = k then some v else get rest k

/-- The write `m[k] = v`. -/
def set : GoMap κ ν → κ → ν → GoMap κ ν
  | [], k, v => [(k, v)]
  | (k', v') :: rest, k, v => if k' = k then (k, v) :: rest else (k', v') :: set rest k v

/-- The builtin `delete(m, k)`. -/
def del (m : GoMap κ ν) (k : κ) : GoMap κ ν :=
  m.filter (fun kv => decide (kv.1 ≠ k))

/-- The test `_, ok := m[k]`. -/
def has (m : GoMap κ ν) (k : κ) : Bool := (get m k).isSome

end GoMap

/-! ## Column types (`entgo.io/ent/schema/field`) -/

/-- The enumeration `field.Type` of the ent library. `TypeInvalid` stands for
the zero value and for every value outside the named constants. -/
inductive FieldType where
  | TypeInvalid
  | TypeBool
  | TypeTime
  | TypeJSON
  | TypeUUID
  | TypeBytes
  | TypeEnum
  | TypeString
  | TypeOther
  | TypeInt8
  | TypeInt16
  | TypeInt32
  | TypeInt
  | TypeInt64
  | TypeUint8
  | TypeUint16
  | TypeUint32
  | TypeUint
  | TypeUint64
  | TypeFloat32
  | TypeFloat64
  deriving DecidableEq, Repr

/-- The method `Type.Integer` of the ent library: numeric and not a float. -/
def FieldType.Integer : FieldType → Bool
  | .TypeInt8 | .TypeInt16 | .TypeInt32 | .TypeInt | .TypeInt64
  | .TypeUint8 | .TypeUint16 | .TypeUint32 | .TypeUint | .TypeUint64 => true
  | _ => false

/-! ## Table descriptors (`entgo.io/ent/dialect/sql/schema`) -/

/-- The part of `schema.Column` the package reads. -/
structure Column where
  Name : String
  Type_ : FieldType
  Increment : Bool := false
  Nullable : Bool := false
  deriving DecidableEq, Repr

/-- The part of `schema.Table` the package reads: the name, the ordered
column list `Columns` and the name index `columns` kept by `AddColumn`. -/
structure SchemaTable where
  Name : String
  Columns : List Column
  columns : GoMap String Column
  deriving DecidableEq, Repr

/-- The constant `FieldID` of `where.go`. -/
def FieldID : String := "id"

namespace SchemaTable

/-- The library constructor `schema.NewTable`. -/
def new (name : String) : SchemaTable :=
  { Name := name, Columns := [], columns := [] }

/-- The library method `AddColumn`. -/
def AddColumn (t : SchemaTable) (c : Column) : SchemaTable :=
  { t with columns := t.columns.set c.Name c, Columns := t.Columns ++ [c] }

/-- The library method `Column`: the name index first, then the list. -/
def Column (t : SchemaTable) (name : String) : Option Column :=
  match t.columns.get name with
  | some c => some c
  | none => t.Columns.find? (fun c => decide (c.Name = name))

/-- The library method `HasColumn`. -/
def HasColumn (t : SchemaTable) (name : String) : Bool :=
  (t.Column name).isSome

end SchemaTable

/-- The function `NewTable` of `schema.go`: a table with the primary key
column `id`. -/
def NewTable (name : String) : SchemaTable :=
  (SchemaTable.new name).AddColumn { Name := FieldID, Type_ := .TypeInt, Increment := true }

/-! ## Client and catalog (`client.go`) -/

/-- The struct `Client`: the debug flag of its config and the catalog `tmap`.
The driver handle is passed to the operations that use it. -/
structure Client where
  debug : Bool
  tmap : GoMap String SchemaTable
  deriving DecidableEq, Repr

/-- The struct `Table`: the embedded `*schema.Table`, `none` when the pointer
is nil, and the client it was taken from. -/
structure Table where
  Table : Option SchemaTable
  client : Client
  deriving DecidableEq, Repr

namespace Client

/-- The method `Client.init`: a fresh, empty catalog. -/
def init (c : Client) : Client := { c with tmap := [] }

/-- The method `Client.AddTable`. -/
def AddTable (c : Client) (table : SchemaTable) : Client :=
  { c with tmap := c.tmap.set table.Name table }

/-- The method `Client.DeleteTable`. -/
def DeleteTable (c : Client) (name : String) : Client :=
  { c with tmap := c.tmap.del name }

/-- The method `Client.Table`. -/
def Table (c : Client) (table : String) : Dent.Table :=
  { Table := c.tmap.get table, client := c }

end Client

/-! ## Values, errors, outcomes -/

/-- A Go value behind `interface{}` (`ent.Value`, `driver.Value`). The scan
holders are pointers stored behind `interface{}`; each holder constructor
carries the fields of the struct it points to. A `float64` is carried by its
bit pattern and a `time.Time` by an instant number, neither is computed with.
The content of a byte slice is written as the Go string with the same bytes,
so that the conversion `string(b)` is the identity on it. -/
inductive Value where
  | nil
  | int (i : Int)
  | int64 (i : Int)
  | bool (b : Bool)
  | string (s : String)
  | float64 (bits : Nat)
  | time (t : Int)
  | NullBool (b : Bool) (valid : Bool)
  | NullTime (t : Int) (valid : Bool)
  | NullString (s : String) (valid : Bool)
  | NullInt64 (i : Int) (valid : Bool)
  | NullFloat64 (bits : Nat) (valid : Bool)
  | bytesPtr (content : String)
  | ifacePtr (v : Value)
  deriving DecidableEq, Repr

/-- The errors of the package. `errorf` is a plain error made by `errors.New`
or `fmt.Errorf`, kept as its format string and arguments, and `wrapf` one
made by `fmt.Errorf` with the verb `%w` around another error; `driver` is an
error handed up by the driver layer and `sqlgraphNotFound` the
`*sqlgraph.NotFoundError` that the graph layer returns when no row matches. -/
inductive Err where
  | NotFoundError (label : String)
  | NotSingularError (label : String)
  | ValidationError (Name : String) (err : Err)
  | ConstraintError (msg : String) (wrap : Err)
  | errorf (format : String) (args : List Value)
  | wrapf (format : String) (wrap : Err)
  | driver (msg : String)
  | sqlgraphNotFound (table : String) (id : Value)
  deriving DecidableEq, Repr

/-- How a call ends: a normal return, a returned `error`, or a panic. -/
inductive Outcome (α : Type) where
  | ok (a : α)
  | err (e : Err)
  | panic (msg : String)
  deriving DecidableEq, Repr

/-- The runtime panic of a method call or field read through a nil pointer. -/
def nilDeref : String := "invalid memory address or nil pointer dereference"

/-- The runtime panic of a failed type assertion `v.(T)`. -/
def badAssert : String := "interface conversion"

/-- The runtime panic of an index past the end of a slice. -/
def badIndex : String := "index out of range"

/-- Two's complement wrap of a mathematical integer into the 64 bit `int`. -/
def wrapInt (x : Int) : Int := (x + 2 ^ 63) % 2 ^ 64 - 2 ^ 63

/-! ## Entities (`dynamic.go`) -/

/-- The struct `Dynamic`, with the two maps of its `Edges` field
(`DynamicEdges`) inlined. -/
inductive Dynamic where
  | mk (table : Table) (ID : Int) (Row : List (String × Value))
      (SingleMap : List (String × Dynamic)) (ListMap : List (String × List Dynamic)) : Dynamic

namespace Dynamic

/-- Field `table`. -/
def table : Dynamic → Dent.Table
  | .mk t _ _ _ _ => t

/-- Field `ID`. -/
def ID : Dynamic → Int
  | .mk _ i _ _ _ => i

/-- Field `Row`. -/
def Row : Dynamic → GoMap String Value
  | .mk _ _ r _ _ => r

/-- Field `Edges.SingleMap`. -/
def SingleMap : Dynamic → GoMap String Dynamic
  | .mk _ _ _ s _ => s

/-- Field `Edges.ListMap`. -/
def ListMap : Dynamic → GoMap String (List Dynamic)
  | .mk _ _ _ _ l => l

/-- Assignment to field `ID`. -/
def setID : Dynamic → Int → Dynamic
  | .mk t _ r s l, i => .mk t i r s l

/-- Assignment `d.Row[k] = v`. -/
def setRow : Dynamic → String → Value → Dynamic
  | .mk t i r s l, k, v => .mk t i (GoMap.set r k v) s l

/-- Assignment `d.Edges.SingleMap[k] = n`. -/
def setSingle : Dynamic → String → Dynamic → Dynamic
  | .mk t i r s l, k, n => .mk t i r (GoMap.set s k n) l

/-- Assignment `d.Edges.ListMap[k] = append(d.Edges.ListMap[k], n)`; the
read of a missing key is the nil slice. -/
def appendList : Dynamic → String → Dynamic → Dynamic
  | .mk t i r s l, k, n => .mk t i r s (GoMap.set l k (((GoMap.get l k).getD []) ++ [n]))

/-- The method `DynamicEdges.Get`: `none` is the nil pointer. -/
def edgesGet (d : Dynamic) (key : String) : Option Dynamic := d.SingleMap.get key

/-- The method `DynamicEdges.List`: the empty list is the nil slice. -/
def edgesList (d : Dynamic) (key : String) : List Dynamic := (d.ListMap.get key).getD []

end Dynamic

/-! ## The scan codec (`client.go`, `dynamic.go`) -/

/-- The loop of `Table.scanValues` over a table that is not nil. A name that
is not a column leaves the nil interface in its slot. -/
def scanValuesLoop (t : SchemaTable) : List String → Outcome (List Value)
  | [] => .ok []
  | v :: rest =>
    let slot : Outcome Value :=
      match t.Column v with
      | some val =>
        match val.Type_ with
        | .TypeBool => .ok (.NullBool false false)
        | .TypeTime => .ok (.NullTime 0 false)
        | .TypeJSON | .TypeBytes => .ok (.bytesPtr "")
        | .TypeUUID | .TypeString => .ok (.NullString "" false)
        | .TypeEnum | .TypeInt8 | .TypeInt16 | .TypeInt32 | .TypeInt | .TypeInt64
        | .TypeUint8 | .TypeUint16 | .TypeUint32 | .TypeUint | .TypeUint64 =>
          .ok (.NullInt64 0 false)
        | .TypeFloat32 | .TypeFloat64 => .ok (.NullFloat64 0 false)
        | .TypeOther => .ok (.ifacePtr .nil)
        | .TypeInvalid => .err (.errorf "unexpected column %q for type Dynamic" [.string v])
      | none => .ok .nil
    match slot with
    | .ok h =>
      match scanValuesLoop t rest with
      | .ok hs => .ok (h :: hs)
      | .err e => .err e
      | .panic msg => .panic msg
    | .err e => .err e
    | .panic msg => .panic msg

/-- The method `Table.scanValues`. On a table whose descriptor is nil the
first `c.Column(v)` dereferences nil. -/
def Table.scanValues (c : Dent.Table) (columns : List String) : Outcome (List Value) :=
  match c.Table with
  | some t => scanValuesLoop t columns
  | none =>
    match columns with
    | [] => .ok []
    | _ :: _ => .panic nilDeref

/-- The method `Dynamic.scanValues`. -/
def Dynamic.scanValues (d : Dynamic) (columns : List String) : Outcome (List Value) :=
  d.table.scanValues columns

/-- One iteration of the loop of `Dynamic.assignValues`: the type switch on
the holder `value` for the column name `v`. -/
def assignStep (d : Dynamic) (v : String) (value : Value) : Dynamic :=
  match value with
  | .NullInt64 i _ => if v = FieldID then d.setID i else d.setRow v (.int64 i)
  | .NullBool b _ => d.setRow v (.bool b)
  | .NullString s _ => d.setRow v (.string s)
  | .NullFloat64 f _ => d.setRow v (.float64 f)
  | .NullTime t _ => d.setRow v (.time t)
  | .bytesPtr b => d.setRow v (.string b)
  | other => d.setRow v other

/-- The loop of `Dynamic.assignValues`: `values[i]` for the i-th column. -/
def assignLoop : Dynamic → List String → List Value → Dynamic × Outcome Unit
  | d, [], _ => (d, .ok ())
  | d, _ :: _, [] => (d, .panic badIndex)
  | d, v :: columns, value :: values => assignLoop (assignStep d v value) columns values

/-- The method `Dynamic.assignValues`: the entity afterwards and the result. -/
def Dynamic.assignValues (d : Dynamic) (columns : List String) (values : List Value) :
    Dynamic × Outcome Unit :=
  if values.length < columns.length then
    (d, .err (.errorf "mismatch number of scan values: %d != %d"
      [.int values.length, .int columns.length]))
  else assignLoop d columns values

/-! ## Predicates (`where.go`, over the selector of the ent SQL builder) -/

/-- The predicate expressions of the ent SQL builder that the package
builds, as the expression they render. A column is written as the builder
argument it was made from. The leaf `nil` is a nil `*Predicate` that was
handed to the builder as a part of an expression. -/
inductive SqlPredicate where
  | EQ (col : String) (arg : Value)
  | In (col : String) (args : List Value)
  | InValues (col : String) (args : List Value)
  | And (a b : SqlPredicate)
  | Or (a b : SqlPredicate)
  | Not (a : SqlPredicate)
  | nil
  deriving DecidableEq, Repr

/-- The part of `sql.Selector` that predicates and `sqlQuery` act on: the
table of the FROM clause, the WHERE expression built so far, and the pending
`or` and `not` flags; then the selected columns, the DISTINCT flag, limit and
offset, and the GROUP BY columns, all empty in a fresh selector. -/
structure Selector where
  table : String
  where_ : Option SqlPredicate
  or : Bool
  not : Bool
  columns : List String := []
  distinct : Bool := false
  limit : Option Int := none
  offset : Option Int := none
  group : List String := []
  deriving DecidableEq, Repr

namespace Selector

/-- The library method `Selector.C`: the column name qualified by the table
(quoting left out). -/
def C (s : Selector) (column : String) : String := s.table ++ "." ++ column

/-- The library method `Selector.Where`: a pending `not` negates the
predicate, which is then joined to the current expression by OR when `or` is
pending and by AND otherwise. -/
def Where (s : Selector) (p : SqlPredicate) : Selector :=
  let p1 := if s.not then SqlPredicate.Not p else p
  let s1 : Selector := if s.not then { s with not := false } else s
  match s1.where_ with
  | none => { s1 with where_ := some p1 }
  | some w =>
    if s1.or then { s1 with where_ := some (.Or w p1), or := false }
    else { s1 with where_ := some (.And w p1) }

end Selector

/-- The type `PredicateDynamic`: a function that edits a selector. -/
abbrev PredicateDynamic := Selector → Selector

/-- The type `OrderFunc`: a function that edits a selector. -/
abbrev OrderFunc := Selector → Selector

/-- The predicate `ID` of `where.go`. -/
def ID (id : Int) : PredicateDynamic :=
  fun s => s.Where (.EQ (s.C FieldID) (.int id))

/-- The predicate `IDIn` of `where.go`. -/
def IDIn (ids : List Int) : PredicateDynamic :=
  fun s => s.Where (.In (s.C FieldID) (ids.map Value.int))

/-- The predicate `IntEQ` of `where.go`. -/
def IntEQ (fleld : String) (val : Int) : PredicateDynamic :=
  fun s => s.Where (.EQ (s.C fleld) (.int val))

/-! ## The mutation record (`mutation.go`) -/

/-- The operation kinds `ent.Op`. Each is a single bit in the library, so
`op.Is(o)` is equality. -/
inductive Op where
  | OpCreate
  | OpUpdate
  | OpUpdateOne
  | OpDelete
  | OpDeleteOne
  deriving DecidableEq, Repr

/-- The method `Op.Is` of the ent library. -/
def Op.Is (o p : Op) : Bool := decide (o = p)

/-- The closure stored in the field `oldValue`. `byID` is the closure of
`withID` with the cell of its `sync.Once`: `none` before the first call, then
the entity and error the first call produced. `entity` is the closure of
`withEntity`, which returns its node. -/
inductive OldValueLoader where
  | byID (id : Int) (once : Option (Option Dynamic × Option Err))
  | entity (node : Dynamic)

/-- The struct `DynamicMutation`. The set `clearedFields` is a map to the
empty struct. -/
structure DynamicMutation where
  table : Table
  op : Op
  typ : String
  id : Option Int
  data : GoMap String Value
  clearedFields : GoMap String Unit
  done : Bool
  oldValue : Option OldValueLoader
  predicates : List PredicateDynamic

/-- The constant `TypeDynamic`. -/
def TypeDynamic : String := "Dynamic"

/-- The function `newDynamicMutation`, before its options are applied. -/
def newDynamicMutation (t : Table) (op : Op) : DynamicMutation :=
  { table := t, op := op, typ := TypeDynamic, id := none, data := [], clearedFields := [],
    done := false, oldValue := none, predicates := [] }

/-- The option `withField`: every column but `id` gets a fresh holder of its
scan type in `data`, the nil interface for a type outside the switch. -/
def withField (fields : List Column) (m : DynamicMutation) : DynamicMutation :=
  fields.foldl (fun m c =>
    if c.Name = FieldID then m
    else
      let v : Value :=
        match c.Type_ with
        | .TypeBool => .NullBool false false
        | .TypeTime => .NullTime 0 false
        | .TypeJSON | .TypeBytes => .bytesPtr ""
        | .TypeUUID | .TypeString => .NullString "" false
        | .TypeEnum | .TypeInt8 | .TypeInt16 | .TypeInt32 | .TypeInt | .TypeInt64
        | .TypeUint8 | .TypeUint16 | .TypeUint32 | .TypeUint | .TypeUint64 => .NullInt64 0 false
        | .TypeFloat32 | .TypeFloat64 => .NullFloat64 0 false
        | .TypeOther => .ifacePtr .nil
        | .TypeInvalid => .nil
      { m with data := m.data.set c.Name v }) m

namespace DynamicMutation

/-- The method `SetID`. -/
def SetID (m : DynamicMutation) (id : Int) : DynamicMutation := { m with id := some id }

/-- The method `ID`: `none` is `exists = false`. -/
def ID (m : DynamicMutation) : Option Int := m.id

/-- The method `SetValue`: the mutation afterwards and how the call ended.
The stored value is the pointer `&val`. The write `m.data[field] = &val` is
the write to an allocated map; when `data` is the nil map, as it is for the
mutation that `withEntity` builds from an entity written without `Row`, the
source panics on this write, a case that lies outside the model. -/
def SetValue (m : DynamicMutation) (field : String) (val : Value) :
    DynamicMutation × Outcome Unit :=
  match m.table.Table with
  | none => (m, .panic nilDeref)
  | some t =>
    if t.HasColumn field then ({ m with data := m.data.set field (.ifacePtr val) }, .ok ())
    else (m, .ok ())

/-- The method `Value`: `none` is `exists = false`. -/
def Value (m : DynamicMutation) (field : String) : Option Dent.Value :=
  m.data.get field

/-- The method `ClearValue`. -/
def ClearValue (m : DynamicMutation) (field : String) : DynamicMutation :=
  { m with data := m.data.del field, clearedFields := m.clearedFields.set field () }

/-- The method `ResetValue`. -/
def ResetValue (m : DynamicMutation) (field : String) : DynamicMutation :=
  { m with data := m.data.del field }

/-- The method `AddValue`: the mutation afterwards and how the call ended.
The read `v, ok := m.data[name]` gives the nil interface for a missing key;
the type assertion `v.(int)` panics on anything but a Go `int`. -/
def AddValue (m : DynamicMutation) (name : String) (i : Int) :
    DynamicMutation × Outcome Unit :=
  match m.table.Table with
  | none => (m, .panic nilDeref)
  | some t =>
    match t.Column name with
    | some col =>
      if col.Type_.Integer then
        let v : Dent.Value := (m.data.get name).getD .nil
        let ok : Bool := (m.data.get name).isSome
        let m1 : DynamicMutation :=
          if !ok then { m with data := m.data.set name (.int i) } else m
        match v with
        | .int e => ({ m1 with data := m1.data.set name (.int (wrapInt (e + i))) }, .ok ())
        | _ => (m1, .panic badAssert)
      else (m, .ok ())
    | none => (m, .ok ())

/-- The method `AddField`. -/
def AddField (m : DynamicMutation) (name : String) (value : Dent.Value) :
    DynamicMutation × Outcome Unit :=
  match value with
  | .int v => m.AddValue name v
  | _ => (m, .err (.errorf "unexpected type %T for field %s" [value, .string name]))

/-- The method `Where`. -/
def Where (m : DynamicMutation) (ps : List PredicateDynamic) : DynamicMutation :=
  { m with predicates := m.predicates ++ ps }

end DynamicMutation

/-! ## The query builder (`dynamic_query.go`) -/

mutual

/-- The struct `DynamicQuery`. The field `path` is the closure of an
intermediate query, kept as the result it returns when called. -/
inductive DynamicQuery where
  | mk (limit : Option Int) (offset : Option Int) (unique : Option Bool)
      (order : List OrderFunc) (fields : List String) (predicates : List PredicateDynamic)
      (sql : Option Selector) (path : Option (Outcome Selector))
      (withData : WithDataMap) (table : Table) : DynamicQuery

/-- The struct `WithQuery`. -/
inductive WithQuery where
  | mk (fromkey : String) (single : Bool) (query : DynamicQuery) : WithQuery

/-- The map `withData` from store key to `*WithQuery`. -/
inductive WithDataMap where
  | nil : WithDataMap
  | cons (key : String) (w : WithQuery) (rest : WithDataMap) : WithDataMap

end

namespace WithQuery

/-- Field `fromkey`. -/
def fromkey : WithQuery → String
  | .mk f _ _ => f

/-- Field `single`. -/
def single : WithQuery → Bool
  | .mk _ s _ => s

/-- Field `query`. -/
def query : WithQuery → DynamicQuery
  | .mk _ _ q => q

end WithQuery

namespace WithDataMap

/-- The read `m[key]`. -/
def get : WithDataMap → String → Option WithQuery
  | .nil, _ => none
  | .cons k w rest, key => if k = key then some w else get rest key

/-- The write `m[key] = w`. -/
def set : WithDataMap → String → WithQuery → WithDataMap
  | .nil, key, w => .cons key w .nil
  | .cons k w0 rest, key, w => if k = key then .cons key w rest else .cons k w0 (set rest key w)

/-- The keys in traversal order. -/
def keys : WithDataMap → List String
  | .nil => []
  | .cons k _ rest => k :: keys rest

end WithDataMap

namespace DynamicQuery

/-- Field `limit`. -/
def limit : DynamicQuery → Option Int
  | .mk l _ _ _ _ _ _ _ _ _ => l

/-- Field `offset`. -/
def offset : DynamicQuery → Option Int
  | .mk _ o _ _ _ _ _ _ _ _ => o

/-- Field `unique`. -/
def unique : DynamicQuery → Option Bool
  | .mk _ _ u _ _ _ _ _ _ _ => u

/-- Field `order`. -/
def order : DynamicQuery → List OrderFunc
  | .mk _ _ _ o _ _ _ _ _ _ => o

/-- Field `fields`. -/
def fields : DynamicQuery → List String
  | .mk _ _ _ _ f _ _ _ _ _ => f

/-- Field `predicates`. -/
def predicates : DynamicQuery → List PredicateDynamic
  | .mk _ _ _ _ _ p _ _ _ _ => p

/-- Field `sql`. -/
def sql : DynamicQuery → Option Selector
  | .mk _ _ _ _ _ _ s _ _ _ => s

/-- Field `path`. -/
def path : DynamicQuery → Option (Outcome Selector)
  | .mk _ _ _ _ _ _ _ p _ _ => p

/-- Field `withData`. -/
def withData : DynamicQuery → WithDataMap
  | .mk _ _ _ _ _ _ _ _ w _ => w

/-- Field `table`. -/
def table : DynamicQuery → Dent.Table
  | .mk _ _ _ _ _ _ _ _ _ t => t

/-- Assignment to the field `sql`. -/
def setSql : DynamicQuery → Option Selector → DynamicQuery
  | .mk l o u ord f p _ pa w t, s => .mk l o u ord f p s pa w t

/-- Assignment to the field `withData`: the sub-queries after a run. -/
def setWithData : DynamicQuery → WithDataMap → DynamicQuery
  | .mk l o u ord f p s pa _ t, w => .mk l o u ord f p s pa w t

/-- The method `Where`. -/
def Where : DynamicQuery → List PredicateDynamic → DynamicQuery
  | .mk l o u ord f p s pa w t, ps => .mk l o u ord f (p ++ ps) s pa w t

/-- The method `Limit`. -/
def Limit : DynamicQuery → Int → DynamicQuery
  | .mk _ o u ord f p s pa w t, limit => .mk (some limit) o u ord f p s pa w t

/-- The method `Offset`. -/
def Offset : DynamicQuery → Int → DynamicQuery
  | .mk l _ u ord f p s pa w t, offset => .mk l (some offset) u ord f p s pa w t

/-- The method `Unique`. -/
def Unique : DynamicQuery → Bool → DynamicQuery
  | .mk l o _ ord f p s pa w t, unique => .mk l o (some unique) ord f p s pa w t

/-- The method `Order`. -/
def Order : DynamicQuery → List OrderFunc → DynamicQuery
  | .mk l o u ord f p s pa w t, os => .mk l o u (ord ++ os) f p s pa w t

end DynamicQuery

/-- The method `Table.Query`. -/
def Table.Query (c : Dent.Table) : DynamicQuery :=
  .mk none none none [] [] [] none none .nil c

/-- The method `Table.GetColumns` on a table that is not nil. -/
def GetColumns (t : SchemaTable) : List String := t.Columns.map (fun c2 => c2.Name)

/-! ### The driver layer (`sqlgraph.QueryNodes`) -/

/-- The struct `sqlgraph.QuerySpec` as `querySpec` fills it: the node table,
its columns and id field, and the query modifiers. The closures `ScanValues`
and `Assign` that `sqlAll` installs are applied in `QueryNodes`. -/
structure QuerySpec where
  Table : String
  Columns : List String
  IDType : FieldType
  IDColumn : String
  From : Option Selector
  Unique : Bool
  Predicate : Option (Selector → Selector)
  Limit : Int
  Offset : Int
  Order : Option (Selector → Selector)

/-- What the database returns for a query: the column names of the result
set and, for each row, the holders as `rows.Scan` leaves them. -/
structure Rows where
  columns : List String
  rows : List (List Value)
  deriving DecidableEq, Repr

/-- The driver with its database, as seen by a query: the rows or the error
it answers a query specification with. -/
abbrev Driver := QuerySpec → Except Err Rows

/-- A builder after a call, the query specifications the call dispatched to
the driver, in order, and how the call ended. -/
structure Run (σ : Type) (α : Type) where
  state : σ
  log : List QuerySpec
  out : Outcome α

/-- The loop of `sqlgraph.QueryNodes` with the closures of `sqlAll`: for each
row, `ScanValues` allocates the holders, the scan fills them, and `Assign`
appends a fresh node and assigns the values to it. -/
def assignRows (table : Dent.Table) (columns : List String) :
    List (List Value) → List Dynamic → Outcome (List Dynamic)
  | [], nodes => .ok nodes
  | values :: rows, nodes =>
    match table.scanValues columns with
    | .err e => .err e
    | .panic msg => .panic msg
    | .ok _ =>
      let node : Dynamic := .mk table 0 [] [] []
      match (node.assignValues columns values).2 with
      | .err e => .err e
      | .panic msg => .panic msg
      | .ok () => assignRows table columns rows (nodes ++ [(node.assignValues columns values).1])

/-- The library function `sqlgraph.QueryNodes` with the closures of `sqlAll`. -/
def QueryNodes (drv : Driver) (spec : QuerySpec) (table : Dent.Table) : Outcome (List Dynamic) :=
  match drv spec with
  | .error e => .err e
  | .ok rows => assignRows table rows.columns rows.rows []

namespace DynamicQuery

/-- The loop of `prepareQuery` over the selected fields. -/
def prepareFields (table : Dent.Table) : List String → Outcome Unit
  | [] => .ok ()
  | f :: rest =>
    match table.Table with
    | none => .panic nilDeref
    | some t =>
      if !t.HasColumn f then
        .err (.ValidationError f (.errorf "ent: invalid field %q for query" [.string f]))
      else prepareFields table rest

/-- The method `prepareQuery`: the builder afterwards and the result. -/
def prepareQuery (dq : DynamicQuery) : DynamicQuery × Outcome Unit :=
  match prepareFields dq.table dq.fields with
  | .err e => (dq, .err e)
  | .panic msg => (dq, .panic msg)
  | .ok () =>
    match dq.path with
    | none => (dq, .ok ())
    | some (.ok prev) => (dq.setSql (some prev), .ok ())
    | some (.err e) => (dq, .err e)
    | some (.panic msg) => (dq, .panic msg)

/-- The method `querySpec`. Reading `dq.table.Name` panics on a table whose
descriptor is nil. -/
def querySpec (dq : DynamicQuery) : Outcome QuerySpec :=
  match dq.table.Table with
  | none => .panic nilDeref
  | some t =>
    let spec : QuerySpec :=
      { Table := t.Name, Columns := GetColumns t, IDType := .TypeInt, IDColumn := FieldID,
        From := dq.sql, Unique := true, Predicate := none, Limit := 0, Offset := 0,
        Order := none }
    let spec : QuerySpec :=
      match dq.unique with
      | some unique => { spec with Unique := unique }
      | none => spec
    let spec : QuerySpec :=
      if dq.fields.length > 0 then
        { spec with Columns := FieldID :: dq.fields.filter (fun f => decide (f ≠ FieldID)) }
      else spec
    let spec : QuerySpec :=
      if dq.predicates.length > 0 then
        { spec with Predicate := some (fun selector => dq.predicates.foldl (fun s p => p s) selector) }
      else spec
    let spec : QuerySpec :=
      match dq.limit with
      | some limit => { spec with Limit := limit }
      | none => spec
    let spec : QuerySpec :=
      match dq.offset with
      | some offset => { spec with Offset := offset }
      | none => spec
    let spec : QuerySpec :=
      if dq.order.length > 0 then
        { spec with Order := some (fun selector => dq.order.foldl (fun s p => p s) selector) }
      else spec
    .ok spec

end DynamicQuery

/-! ### The eager loader (`sqlAll`) -/

/-- The write through the pointer `nodes[i]`: the i-th node is replaced by
its update. A pointer into the slice of nodes is its index. -/
def updateAt : List Dynamic → Nat → (Dynamic → Dynamic) → List Dynamic
  | [], _, _ => []
  | n :: rest, 0, f => f n :: rest
  | n :: rest, i + 1, f => n :: updateAt rest i f

/-- The first loop of the single branch, from index `i` on: the distinct
foreign keys `ids` in order of first occurrence and the map `nodeids` from a
foreign key to the nodes that carry it. The type assertion `.(int64)` panics
on a missing key and on any other value. -/
def singleKeys (fromkey : String) :
    List Dynamic → Nat → List Int → GoMap Int (List Nat) →
      Outcome (List Int × GoMap Int (List Nat))
  | [], _, ids, nodeids => .ok (ids, nodeids)
  | n :: rest, i, ids, nodeids =>
    match n.Row.get fromkey with
    | some (.int64 fk) =>
      let ids1 := if nodeids.has fk then ids else ids ++ [fk]
      singleKeys fromkey rest (i + 1) ids1 (nodeids.set fk (((nodeids.get fk).getD []) ++ [i]))
    | _ => .panic badAssert

/-- The second loop of the single branch: every neighbor is stored under
`key` in each node that carries its id as foreign key. -/
def attachSingle (key : String) (nodeids : GoMap Int (List Nat)) :
    List Dynamic → List Dynamic → Outcome (List Dynamic)
  | [], nodes => .ok nodes
  | n :: neighbors, nodes =>
    match nodeids.get n.ID with
    | none => .err (.errorf "unexpected foreign-key \"editor_id\" returned %v" [.int n.ID])
    | some idxs =>
      attachSingle key nodeids neighbors
        (idxs.foldl (fun ns i => updateAt ns i (fun p => p.setSingle key n)) nodes)

/-- The first loop of the list branch, from index `i` on: the map `nodeids`
from an id to the node that carries it. -/
def listKeys : List Dynamic → Nat → GoMap Int Nat → GoMap Int Nat
  | [], _, nodeids => nodeids
  | n :: rest, i, nodeids => listKeys rest (i + 1) (nodeids.set n.ID i)

/-- The second loop of the list branch: every neighbor is appended under
`key` to the node whose id is the neighbor's foreign key. -/
def attachList (key fromkey : String) (nodeids : GoMap Int Nat) :
    List Dynamic → List Dynamic → Outcome (List Dynamic)
  | [], nodes => .ok nodes
  | n :: neighbors, nodes =>
    match n.Row.get fromkey with
    | some (.int64 fk) =>
      match nodeids.get fk with
      | none =>
        .err (.errorf "unexpected foreign-key \"d_id\" returned %v for node %v" [.int fk, .int n.ID])
      | some i => attachList key fromkey nodeids neighbors (updateAt nodes i (fun p => p.appendList key n))
    | _ => .panic badAssert

/-- The key filter the list branch adds to its sub-query. -/
def listPredicate (fromkey : String) (nodes : List Dynamic) : PredicateDynamic :=
  fun s => s.Where (.InValues fromkey (nodes.map (fun n => Value.int n.ID)))

/-- The body of the loop of `sqlAll` for one entry `key -> (fromkey, single,
query)` of `withData`. The call `query.All(ctx)` is the parameter `run`. The
result carries the sub-query after the call. -/
def loadEntry (run : DynamicQuery → Run DynamicQuery (List Dynamic))
    (key fromkey : String) (single : Bool) (query : DynamicQuery) (nodes : List Dynamic) :
    Run DynamicQuery (List Dynamic) :=
  if single then
    match singleKeys fromkey nodes 0 [] [] with
    | .ok (ids, nodeids) =>
      let r := run (query.Where [IDIn ids])
      match r.out with
      | .ok neighbors =>
        { state := r.state, log := r.log, out := attachSingle key nodeids neighbors nodes }
      | .err e => { state := r.state, log := r.log, out := .err e }
      | .panic msg => { state := r.state, log := r.log, out := .panic msg }
    | .err e => { state := query, log := [], out := .err e }
    | .panic msg => { state := query, log := [], out := .panic msg }
  else
    let nodeids := listKeys nodes 0 []
    let r := run (query.Where [listPredicate fromkey nodes])
    match r.out with
    | .ok neighbors =>
      { state := r.state, log := r.log, out := attachList key fromkey nodeids neighbors nodes }
    | .err e => { state := r.state, log := r.log, out := .err e }
    | .panic msg => { state := r.state, log := r.log, out := .panic msg }

namespace DynamicQuery

/-- The method `sqlAll` with its loop over `withData` as the parameter
`load`. -/
def sqlAllWith (drv : Driver) (dq : DynamicQuery)
    (load : List Dynamic → Run WithDataMap (List Dynamic)) : Run DynamicQuery (List Dynamic) :=
  match dq.querySpec with
  | .err e => { state := dq, log := [], out := .err e }
  | .panic msg => { state := dq, log := [], out := .panic msg }
  | .ok spec =>
    match QueryNodes drv spec dq.table with
    | .err e => { state := dq, log := [spec], out := .err e }
    | .panic msg => { state := dq, log := [spec], out := .panic msg }
    | .ok nodes =>
      if nodes.length = 0 then { state := dq, log := [spec], out := .ok nodes }
      else
        let r := load nodes
        { state := dq.setWithData r.state, log := spec :: r.log, out := r.out }

/-- The method `All` with the loop of `sqlAll` as the parameter `load`. -/
def AllWith (drv : Driver) (dq : DynamicQuery)
    (load : List Dynamic → Run WithDataMap (List Dynamic)) : Run DynamicQuery (List Dynamic) :=
  match dq.prepareQuery with
  | (dq1, .ok ()) => dq1.sqlAllWith drv load
  | (dq1, .err e) => { state := dq1, log := [], out := .err e }
  | (dq1, .panic msg) => { state := dq1, log := [], out := .panic msg }

end DynamicQuery

/-- The loop `for key, dq2 := range dq.withData` of `sqlAll`. Each entry
runs `All` on its sub-query, whose own loop is over the sub-query's
`withData`; an error or panic of an entry ends the loop. -/
def loadEdges (drv : Driver) : WithDataMap → List Dynamic → Run WithDataMap (List Dynamic)
  | .nil, nodes => { state := .nil, log := [], out := .ok nodes }
  | .cons key (.mk fromkey single (.mk l o u ord f p s pa wd t)) rest, nodes =>
    let r := loadEntry (fun q => q.AllWith drv (loadEdges drv wd)) key fromkey single
      (.mk l o u ord f p s pa wd t) nodes
    match r.out with
    | .ok nodes1 =>
      let r2 := loadEdges drv rest nodes1
      { state := .cons key (.mk fromkey single r.state) r2.state, log := r.log ++ r2.log,
        out := r2.out }
    | .err e =>
      { state := .cons key (.mk fromkey single r.state) rest, log := r.log, out := .err e }
    | .panic msg =>
      { state := .cons key (.mk fromkey single r.state) rest, log := r.log, out := .panic msg }

namespace DynamicQuery

/-- The method `sqlAll`. -/
def sqlAll (drv : Driver) (dq : DynamicQuery) : Run DynamicQuery (List Dynamic) :=
  dq.sqlAllWith drv (loadEdges drv dq.withData)

/-- The method `All`. -/
def All (drv : Driver) (dq : DynamicQuery) : Run DynamicQuery (List Dynamic) :=
  match dq.prepareQuery with
  | (dq1, .ok ()) => dq1.sqlAll drv
  | (dq1, .err e) => { state := dq1, log := [], out := .err e }
  | (dq1, .panic msg) => { state := dq1, log := [], out := .panic msg }

/-- The method `First`. -/
def First (drv : Driver) (dq : DynamicQuery) : Run DynamicQuery Dynamic :=
  let r := (dq.Limit 1).All drv
  match r.out with
  | .err e => { state := r.state, log := r.log, out := .err e }
  | .panic msg => { state := r.state, log := r.log, out := .panic msg }
  | .ok [] =>
    match r.state.table.Table with
    | none => { state := r.state, log := r.log, out := .panic nilDeref }
    | some t => { state := r.state, log := r.log, out := .err (.NotFoundError t.Name) }
  | .ok (n :: _) => { state := r.state, log := r.log, out := .ok n }

/-- The method `Only`. -/
def Only (drv : Driver) (dq : DynamicQuery) : Run DynamicQuery Dynamic :=
  let r := (dq.Limit 2).All drv
  match r.out with
  | .err e => { state := r.state, log := r.log, out := .err e }
  | .panic msg => { state := r.state, log := r.log, out := .panic msg }
  | .ok nodes =>
    match nodes with
    | [n] => { state := r.state, log := r.log, out := .ok n }
    | [] =>
      match r.state.table.Table with
      | none => { state := r.state, log := r.log, out := .panic nilDeref }
      | some t => { state := r.state, log := r.log, out := .err (.NotFoundError t.Name) }
    | _ =>
      match r.state.table.Table with
      | none => { state := r.state, log := r.log, out := .panic nilDeref }
      | some t => { state := r.state, log := r.log, out := .err (.NotSingularError t.Name) }

end DynamicQuery

/-! ## Old values of a mutation (`mutation.go`) -/

/-- The option `withID`: the loader closure with an unused `sync.Once`, and
the id. -/
def withID (id : Int) (m : DynamicMutation) : DynamicMutation :=
  { m with oldValue := some (.byID id none), id := some id }

/-- The option `withEntity`. The assignment `m.data = node.Row` makes `data`
the very map of the node, not a copy: from then on every write to `data` is a
write to the row of the node (see `DynamicMutation.entity`). It replaces the
map that `newDynamicMutation` allocated; the entities of the model carry an
allocated row, so the nil map of an entity written without `Row` is not
among its results. -/
def withEntity (node : Dynamic) (m : DynamicMutation) : DynamicMutation :=
  { m with oldValue := some (.entity node), id := some node.ID, data := node.Row }

/-- Assignment of a whole map to the field `Row`. -/
def Dynamic.withRow : Dynamic → GoMap String Value → Dynamic
  | .mk t i _ s l, r => .mk t i r s l

/-- The node that `withEntity` was given, as it is now: its `Row` is the map
that the mutation holds in `data`. -/
def DynamicMutation.entity (m : DynamicMutation) : Option Dynamic :=
  match m.oldValue with
  | some (.entity node) => some (node.withRow m.data)
  | _ => none

/-- The method `DynamicMutation.Client`: a client over the config of the
table, with the fresh empty catalog of `init`. -/
def DynamicMutation.Client (m : DynamicMutation) : Dent.Client :=
  ({ debug := m.table.client.debug, tmap := [] } : Dent.Client).init

/-- The method `Table.Get`. -/
def Table.Get (drv : Driver) (c : Dent.Table) (id : Int) : Run DynamicQuery Dynamic :=
  (c.Query.Where [ID id]).Only drv

/-- A call of `OldValue`: the mutation afterwards, how many times the call
started the database load `Get` of the loader, the query specifications it
dispatched, and how it ended. -/
structure OldValueRun where
  state : DynamicMutation
  loads : Nat
  log : List QuerySpec
  out : Outcome Value

/-- What `OldValue` makes of the pair `value, err` its loader returned: the
wrapped error, or `oldValue.Row[field]`, which dereferences nil when the
loader returned no entity. -/
def oldValueResult (field : String) (value : Option Dynamic) (err : Option Err) : Outcome Value :=
  match err with
  | some e => .err (.wrapf "querying old value for OldCreatorID: %w" e)
  | none =>
    match value with
    | none => .panic nilDeref
    | some n => .ok ((n.Row.get field).getD .nil)

/-- The method `OldValue`. The loader of `withID` runs its body inside
`sync.Once`: the first call stores what the body produced (nothing, when the
body panicked) and every later call returns the stored pair. The loader of
`withEntity` returns its node, whose row is `data`. -/
def DynamicMutation.OldValue (drv : Driver) (m : DynamicMutation) (field : String) :
    OldValueRun :=
  if !m.op.Is .OpUpdateOne then
    { state := m, loads := 0, log := [],
      out := .err (.errorf "OldCreatorID is only allowed on UpdateOne operations" []) }
  else if !(m.data.has field) || m.oldValue.isNone then
    { state := m, loads := 0, log := [],
      out := .err (.errorf "OldCreatorID requires an ID field in the mutation" []) }
  else
    match m.oldValue with
    | none => { state := m, loads := 0, log := [], out := .panic nilDeref }
    | some (.entity node) =>
      { state := m, loads := 0, log := [],
        out := oldValueResult field (some (node.withRow m.data)) none }
    | some (.byID _ (some (value, err))) =>
      { state := m, loads := 0, log := [], out := oldValueResult field value err }
    | some (.byID id none) =>
      if m.done then
        let e : Err := .errorf "querying old values post mutation is not allowed" []
        { state := { m with oldValue := some (.byID id (some (none, some e))) }, loads := 0,
          log := [], out := oldValueResult field none (some e) }
      else
        match m.table.Table with
        | none =>
          { state := { m with oldValue := some (.byID id (some (none, none))) }, loads := 0,
            log := [], out := .panic nilDeref }
        | some t =>
          let r := (m.Client.Table t.Name).Get drv id
          match r.out with
          | .ok n =>
            { state := { m with oldValue := some (.byID id (some (some n, none))) }, loads := 1,
              log := r.log, out := oldValueResult field (some n) none }
          | .err e =>
            { state := { m with oldValue := some (.byID id (some (none, some e))) }, loads := 1,
              log := r.log, out := oldValueResult field none (some e) }
          | .panic msg =>
            { state := { m with oldValue := some (.byID id (some (none, none))) }, loads := 1,
              log := r.log, out := .panic msg }

/-- A sequence of `OldValue` calls on one mutation, each on the mutation the
call before left (a panic of a call is recovered by the caller): the mutation
after the last call and the number of database loads started in all. -/
def DynamicMutation.OldValues (drv : Driver) :
    DynamicMutation → List String → DynamicMutation × Nat
  | m, [] => (m, 0)
  | m, field :: rest =>
    let r := m.OldValue drv field
    let r2 := DynamicMutation.OldValues drv r.state rest
    (r2.1, r.loads + r2.2)

/-! ## The mutation builders (`client.go`, `create.go`, `update.go`, `delete.go`) -/

/-- The struct `sqlgraph.FieldSpec` of a field to write. -/
structure FieldSpec where
  Type_ : FieldType
  Value : Dent.Value
  Column : String
  deriving DecidableEq, Repr

/-- The struct `sqlgraph.CreateSpec` as `createSpec` fills it. `IDValue` is
`ID.Value`, the nil interface as long as nothing is stored in it. -/
structure CreateSpec where
  Table : String
  IDType : FieldType
  IDColumn : String
  IDValue : Dent.Value
  Fields : List FieldSpec
  deriving DecidableEq, Repr

/-- The struct `sqlgraph.UpdateSpec` as the `sqlSave` of the update builders
fills it; `FieldsSet`, `FieldsAdd` and `FieldsClear` are `Fields.Set`,
`Fields.Add` and `Fields.Clear`, the last two left empty by both builders.
The closures `ScanValues` and `Assign`
that `DynamicUpdateOne.sqlSave` installs are applied there. -/
structure UpdateSpec where
  Table : String
  Columns : List String
  IDType : FieldType
  IDColumn : String
  IDValue : Dent.Value
  Predicate : Option (Selector → Selector)
  FieldsSet : List FieldSpec
  FieldsAdd : List FieldSpec := []
  FieldsClear : List FieldSpec := []

/-- The struct `sqlgraph.DeleteSpec` as `sqlExec` fills it. -/
structure DeleteSpec where
  Table : String
  IDType : FieldType
  IDColumn : String
  Predicate : Option (Selector → Selector)

/-- A statement handed to the graph layer by a mutation builder. -/
inductive Statement where
  | CreateNode (spec : CreateSpec)
  | BatchCreate (specs : List CreateSpec)
  | UpdateNodes (spec : UpdateSpec)
  | UpdateNode (spec : UpdateSpec)
  | DeleteNodes (spec : DeleteSpec)

/-- The graph layer `sqlgraph` over the driver and its database, as seen by a
mutation builder. `CreateNode` answers with an error or with the value it
leaves in `ID.Value` of the spec; `BatchCreate` with an error or with the
values it leaves in `ID.Value` of the specs, in order (a spec past the end of
the answer keeps its value); `UpdateNodes` and `DeleteNodes` with an error or
the number of affected rows; `UpdateNode` with an error or the columns and
scanned holders of the updated row. `IsConstraintError` is the classifier of
the layer and `Error` the method `Error` of an error value. -/
structure GraphDriver where
  CreateNode : CreateSpec → Except Err Value
  BatchCreate : List CreateSpec → Except Err (List Value)
  UpdateNodes : UpdateSpec → Except Err Int
  UpdateNode : UpdateSpec → Except Err (List String × List Value)
  DeleteNodes : DeleteSpec → Except Err Int
  IsConstraintError : Err → Bool
  Error : Err → String

/-- A builder after a call, the statements the call handed to the graph
layer, in order, and how the call ended. -/
structure Executed (σ : Type) (α : Type) where
  state : σ
  log : List Statement
  out : Outcome α

/-- How a call of an `X` method ends: a normal return, `panic(err)` with the
error of the method it wraps, or a runtime panic. -/
inductive OutcomeX (α : Type) where
  | ok (a : α)
  | panicErr (e : Err)
  | panic (msg : String)
  deriving DecidableEq, Repr

/-- The translation of the builders: an error that `sqlgraph.IsConstraintError`
accepts becomes a `ConstraintError` with `msg: err.Error()` and `wrap: err`. -/
def GraphDriver.constraint (g : GraphDriver) (e : Err) : Err :=
  if g.IsConstraintError e then .ConstraintError (g.Error e) e else e

/-- The translation of the update builders: a `*sqlgraph.NotFoundError`
becomes the `NotFoundError` of the package with the name of the table, any
other error goes through the constraint translation. -/
def GraphDriver.translate (g : GraphDriver) (table : String) (e : Err) : Err :=
  match e with
  | .sqlgraphNotFound _ _ => .NotFoundError table
  | _ => g.constraint e

/-- The struct `DynamicCreate` (`DCreate`). -/
structure DynamicCreate where
  mutation : DynamicMutation

/-- The struct `DynamicCreateBulk` (`DCreateBulk`); the driver of its config
is passed to `Save`. -/
structure DynamicCreateBulk where
  builders : List DynamicCreate

/-- The struct `DynamicUpdate` (`DUpdate`). -/
structure DynamicUpdate where
  mutation : DynamicMutation

/-- The struct `DynamicUpdateOne` (`DUpdateOne`). -/
structure DynamicUpdateOne where
  fields : List String
  mutation : DynamicMutation

/-- The struct `DynamicDelete` (`DDelete`). -/
structure DynamicDelete where
  mutation : DynamicMutation

/-- The struct `DynamicDeleteOne` (`DDeleteOne`). -/
structure DynamicDeleteOne where
  dd : DynamicDelete

/-- The method `Table.Clone`: the copy that `copier.Copy` makes, a table
with the same descriptor and client. The library call panics on a table
whose descriptor is nil; the model has no such panic, so the builders of
`Update`, `UpdateOne` and `UpdateOneID` on a table without descriptor exist
in the model only. -/
def Table.Clone (c : Dent.Table) : Dent.Table := c

/-- The method `Table.Create`. Reading `c.Columns` panics on a table whose
descriptor is nil. -/
def Table.Create (c : Dent.Table) : Outcome DynamicCreate :=
  match c.Table with
  | none => .panic nilDeref
  | some t => .ok { mutation := withField t.Columns (newDynamicMutation c.Clone .OpCreate) }

/-- The method `Table.CreateBulk`. -/
def Table.CreateBulk (_c : Dent.Table) (builders : List DynamicCreate) : DynamicCreateBulk :=
  { builders := builders }

/-- The method `Table.Update`. -/
def Table.Update (c : Dent.Table) : DynamicUpdate :=
  { mutation := newDynamicMutation c.Clone .OpUpdate }

/-- The method `Table.UpdateOne`. -/
def Table.UpdateOne (c : Dent.Table) (d : Dynamic) : DynamicUpdateOne :=
  { fields := [], mutation := withEntity d (newDynamicMutation c.Clone .OpUpdateOne) }

/-- The method `Table.UpdateOneID`. -/
def Table.UpdateOneID (c : Dent.Table) (id : Int) : DynamicUpdateOne :=
  { fields := [], mutation := withID id (newDynamicMutation c.Clone .OpUpdateOne) }

/-- The method `Table.Delete`. Reading `c.Columns` panics on a table whose
descriptor is nil. -/
def Table.Delete (c : Dent.Table) : Outcome DynamicDelete :=
  match c.Table with
  | none => .panic nilDeref
  | some t => .ok { mutation := withField t.Columns (newDynamicMutation c.Clone .OpDelete) }

/-- The method `DynamicDelete.Where`. -/
def DynamicDelete.Where (dd : DynamicDelete) (ps : List PredicateDynamic) : DynamicDelete :=
  { mutation := dd.mutation.Where ps }

/-- The method `Table.DeleteOneID`. -/
def Table.DeleteOneID (c : Dent.Table) (id : Int) : Outcome DynamicDeleteOne :=
  match c.Delete with
  | .err e => .err e
  | .panic msg => .panic msg
  | .ok dd =>
    let builder := dd.Where [ID id]
    .ok { dd := { mutation := { builder.mutation with id := some id, op := .OpDeleteOne } } }

/-- The method `Dynamic.Update`. -/
def Dynamic.Update (d : Dynamic) : DynamicUpdateOne := d.table.UpdateOne d

/-- The method `Dynamic.Delete`. -/
def Dynamic.Delete (d : Dynamic) : Outcome DynamicDeleteOne := d.table.DeleteOneID d.ID

/-- The methods `SetValue`, `AddValue` and `ClearValue` of the update-one
builder: each is the method of its mutation. -/
def DynamicUpdateOne.SetValue (duo : DynamicUpdateOne) (name : String) (val : Value) :
    DynamicUpdateOne × Outcome Unit :=
  ({ duo with mutation := (duo.mutation.SetValue name val).1 }, (duo.mutation.SetValue name val).2)

/-- The method `DynamicUpdateOne.AddValue`. -/
def DynamicUpdateOne.AddValue (duo : DynamicUpdateOne) (name : String) (i : Int) :
    DynamicUpdateOne × Outcome Unit :=
  ({ duo with mutation := (duo.mutation.AddValue name i).1 }, (duo.mutation.AddValue name i).2)

/-- The method `DynamicUpdateOne.ClearValue`. -/
def DynamicUpdateOne.ClearValue (duo : DynamicUpdateOne) (name : String) : DynamicUpdateOne :=
  { duo with mutation := duo.mutation.ClearValue name }

/-- The method `DynamicUpdateOne.Select`. -/
def DynamicUpdateOne.Select (duo : DynamicUpdateOne) (field : String) (fields : List String) :
    DynamicUpdateOne :=
  { duo with fields := field :: fields }

/-- The loop of `createSpec` and of the two `sqlSave` of the update builders
over `data`: one field spec per entry, in the order of the entries (Go leaves
the order of a map range open). The lookup `col, _ := table.Column(k)` gives
a nil column for a key that is not a column, and reading `col.Type` through
it panics. -/
def fieldSpecs (t : SchemaTable) : GoMap String Value → Outcome (List FieldSpec)
  | [] => .ok []
  | (k, v) :: rest =>
    match t.Column k with
    | none => .panic nilDeref
    | some col =>
      match fieldSpecs t rest with
      | .ok fs => .ok ({ Type_ := col.Type_, Value := v, Column := k } :: fs)
      | .err e => .err e
      | .panic msg => .panic msg

/-- The composition of the predicates of a mutation that the builders store
in `_spec.Predicate`, nil when there is no predicate. -/
def specPredicate (ps : List PredicateDynamic) : Option (Selector → Selector) :=
  if ps.length > 0 then some (fun selector => ps.foldl (fun s p => p s) selector) else none

/-- The method `createSpec`: the new node and the spec of the insert. Reading
`table.Name` panics on a table whose descriptor is nil. -/
def DynamicCreate.createSpec (dc : DynamicCreate) : Outcome (Dynamic × CreateSpec) :=
  match dc.mutation.table.Table with
  | none => .panic nilDeref
  | some t =>
    let _node : Dynamic := .mk dc.mutation.table 0 [] [] []
    let _spec : CreateSpec :=
      { Table := t.Name, IDType := .TypeInt, IDColumn := FieldID, IDValue := .nil, Fields := [] }
    let (_node, _spec) : Dynamic × CreateSpec :=
      match dc.mutation.ID with
      | some id => (_node.setID id, { _spec with IDValue := .int id })
      | none => (_node, _spec)
    match fieldSpecs t dc.mutation.data with
    | .err e => .err e
    | .panic msg => .panic msg
    | .ok fs => .ok (_node.withRow dc.mutation.data, { _spec with Fields := fs })

/-- The method `DynamicCreate.sqlSave`. The comparison `_spec.ID.Value !=
_node.ID` is between an interface and an `int`: it is false only when the
interface holds a Go `int` equal to the id. -/
def DynamicCreate.sqlSave (g : GraphDriver) (dc : DynamicCreate) :
    Executed DynamicCreate Dynamic :=
  match dc.createSpec with
  | .err e => { state := dc, log := [], out := .err e }
  | .panic msg => { state := dc, log := [], out := .panic msg }
  | .ok (_node, _spec) =>
    match g.CreateNode _spec with
    | .error e => { state := dc, log := [.CreateNode _spec], out := .err (g.constraint e) }
    | .ok idValue =>
      if idValue ≠ .int _node.ID then
        match idValue with
        | .int64 id => { state := dc, log := [.CreateNode _spec], out := .ok (_node.setID id) }
        | _ => { state := dc, log := [.CreateNode _spec], out := .panic badAssert }
      else { state := dc, log := [.CreateNode _spec], out := .ok _node }

/-- The method `DynamicCreate.Save`; `defaults` and `check` return nil. -/
def DynamicCreate.Save (g : GraphDriver) (dc : DynamicCreate) : Executed DynamicCreate Dynamic :=
  dc.sqlSave g

/-- The spec that `DynamicUpdate.sqlSave` builds. -/
def DynamicUpdate.updateSpec (du : DynamicUpdate) : Outcome UpdateSpec :=
  match du.mutation.table.Table with
  | none => .panic nilDeref
  | some t =>
    match fieldSpecs t du.mutation.data with
    | .err e => .err e
    | .panic msg => .panic msg
    | .ok fs =>
      .ok { Table := t.Name, Columns := GetColumns t, IDType := .TypeInt, IDColumn := FieldID,
            IDValue := .nil, Predicate := specPredicate du.mutation.predicates, FieldsSet := fs }

/-- The method `DynamicUpdate.sqlSave`. -/
def DynamicUpdate.sqlSave (g : GraphDriver) (du : DynamicUpdate) : Executed DynamicUpdate Int :=
  match du.updateSpec with
  | .err e => { state := du, log := [], out := .err e }
  | .panic msg => { state := du, log := [], out := .panic msg }
  | .ok _spec =>
    match g.UpdateNodes _spec with
    | .error e =>
      { state := du, log := [.UpdateNodes _spec], out := .err (g.translate _spec.Table e) }
    | .ok n => { state := du, log := [.UpdateNodes _spec], out := .ok n }

/-- The method `DynamicUpdate.Save`; `defaults` returns nil. -/
def DynamicUpdate.Save (g : GraphDriver) (du : DynamicUpdate) : Executed DynamicUpdate Int :=
  du.sqlSave g

/-- The loop of `DynamicUpdateOne.sqlSave` over the selected fields: the
columns to append after `id`, or the validation error of the first field
that is not a column. -/
def selectColumns (t : SchemaTable) : List String → Except Err (List String)
  | [] => .ok []
  | f :: rest =>
    if !t.HasColumn f then
      .error (.ValidationError f (.errorf "ent: invalid field %q for query" [.string f]))
    else
      match selectColumns t rest with
      | .error e => .error e
      | .ok cs => .ok (if f ≠ FieldID then f :: cs else cs)

/-- The node and the spec that `DynamicUpdateOne.sqlSave` builds before it
hands the statement to the graph layer, or the error it returns before. -/
def DynamicUpdateOne.updateSpec (duo : DynamicUpdateOne) : Outcome (Dynamic × UpdateSpec) :=
  match duo.mutation.table.Table with
  | none => .panic nilDeref
  | some t =>
    match duo.mutation.ID with
    | none => .err (.ValidationError FieldID (.errorf "ent: missing \"Dynamic.id\" for update" []))
    | some id =>
      let columns : Except Err (List String) :=
        if duo.fields.length > 0 then
          match selectColumns t duo.fields with
          | .error e => .error e
          | .ok cs => .ok (FieldID :: cs)
        else .ok (GetColumns t)
      match columns with
      | .error e => .err e
      | .ok columns =>
        match fieldSpecs t duo.mutation.data with
        | .err e => .err e
        | .panic msg => .panic msg
        | .ok fs =>
          .ok (.mk duo.mutation.table id duo.mutation.data [] [],
            { Table := t.Name, Columns := columns, IDType := .TypeInt, IDColumn := FieldID,
              IDValue := .int id, Predicate := specPredicate duo.mutation.predicates,
              FieldsSet := fs })

/-- The method `DynamicUpdateOne.sqlSave`. On success the graph layer calls
`ScanValues` and `Assign` of the spec on the updated row, an error of either
is the error of the statement. The row of the node is the map `data` of the
mutation, so what `Assign` writes is written to `data`. -/
def DynamicUpdateOne.sqlSave (g : GraphDriver) (duo : DynamicUpdateOne) :
    Executed DynamicUpdateOne Dynamic :=
  match duo.updateSpec with
  | .err e => { state := duo, log := [], out := .err e }
  | .panic msg => { state := duo, log := [], out := .panic msg }
  | .ok (_node, _spec) =>
    match g.UpdateNode _spec with
    | .error e =>
      { state := duo, log := [.UpdateNode _spec], out := .err (g.translate _spec.Table e) }
    | .ok (columns, values) =>
      match _node.scanValues columns with
      | .err e =>
        { state := duo, log := [.UpdateNode _spec], out := .err (g.translate _spec.Table e) }
      | .panic msg => { state := duo, log := [.UpdateNode _spec], out := .panic msg }
      | .ok _ =>
        let r := _node.assignValues columns values
        let duo1 : DynamicUpdateOne := { duo with mutation := { duo.mutation with data := r.1.Row } }
        match r.2 with
        | .err e =>
          { state := duo1, log := [.UpdateNode _spec], out := .err (g.translate _spec.Table e) }
        | .panic msg => { state := duo1, log := [.UpdateNode _spec], out := .panic msg }
        | .ok () => { state := duo1, log := [.UpdateNode _spec], out := .ok r.1 }

/-- The method `DynamicUpdateOne.Save`; `defaults` returns nil. -/
def DynamicUpdateOne.Save (g : GraphDriver) (duo : DynamicUpdateOne) :
    Executed DynamicUpdateOne Dynamic :=
  duo.sqlSave g

/-- The spec that `DynamicDelete.sqlExec` builds. -/
def DynamicDelete.deleteSpec (dd : DynamicDelete) : Outcome DeleteSpec :=
  match dd.mutation.table.Table with
  | none => .panic nilDeref
  | some t =>
    .ok { Table := t.Name, IDType := .TypeInt, IDColumn := FieldID,
          Predicate := specPredicate dd.mutation.predicates }

/-- The method `DynamicDelete.sqlExec`. -/
def DynamicDelete.sqlExec (g : GraphDriver) (dd : DynamicDelete) : Executed DynamicDelete Int :=
  match dd.deleteSpec with
  | .err e => { state := dd, log := [], out := .err e }
  | .panic msg => { state := dd, log := [], out := .panic msg }
  | .ok _spec =>
    match g.DeleteNodes _spec with
    | .error e => { state := dd, log := [.DeleteNodes _spec], out := .err (g.constraint e) }
    | .ok affected => { state := dd, log := [.DeleteNodes _spec], out := .ok affected }

/-- The method `DynamicDelete.Exec`. -/
def DynamicDelete.Exec (g : GraphDriver) (dd : DynamicDelete) : Executed DynamicDelete Int :=
  dd.sqlExec g

/-- The method `DynamicDelete.ExecX`: the statements handed to the graph
layer and how the call ended. -/
def DynamicDelete.ExecX (g : GraphDriver) (dd : DynamicDelete) : List Statement × OutcomeX Int :=
  match (dd.Exec g).out with
  | .err e => ((dd.Exec g).log, .panicErr e)
  | .panic msg => ((dd.Exec g).log, .panic msg)
  | .ok n => ((dd.Exec g).log, .ok n)

/-- The method `DynamicDeleteOne.Exec`. -/
def DynamicDeleteOne.Exec (g : GraphDriver) (ddo : DynamicDeleteOne) :
    Executed DynamicDeleteOne Unit :=
  let r := ddo.dd.Exec g
  match r.out with
  | .err e => { state := ddo, log := r.log, out := .err e }
  | .panic msg => { state := ddo, log := r.log, out := .panic msg }
  | .ok n =>
    if n = 0 then
      match ddo.dd.mutation.table.Table with
      | none => { state := ddo, log := r.log, out := .panic nilDeref }
      | some t => { state := ddo, log := r.log, out := .err (.NotFoundError t.Name) }
    else { state := ddo, log := r.log, out := .ok () }

/-- The method `DynamicDeleteOne.ExecX`: the call `ddo.dd.ExecX(ctx)`, whose
result is dropped. -/
def DynamicDeleteOne.ExecX (g : GraphDriver) (ddo : DynamicDeleteOne) :
    List Statement × OutcomeX Unit :=
  match (ddo.dd.ExecX g).2 with
  | .panicErr e => ((ddo.dd.ExecX g).1, .panicErr e)
  | .panic msg => ((ddo.dd.ExecX g).1, .panic msg)
  | .ok _ => ((ddo.dd.ExecX g).1, .ok ())

/-! ### The bulk create (`DynamicCreateBulk.Save`) -/

/-- The builders after a call of a mutator of the bulk chain (from the
builder of the mutator on), the indices of the mutators invoked, in order,
the statements handed to the graph layer, the values the batch left in
`ID.Value` of the specs, and how the call ended. -/
structure BulkRun where
  builders : List DynamicCreate
  calls : List Nat
  log : List Statement
  ids : List Value
  out : Outcome (List Dynamic)

/-- The tail of a mutator of the bulk chain, after the next mutator or the
batch returned without error: the pointer to the id of the node is stored in
the mutation, the id is read back from the spec when the node has none, and
the mutation is marked done. The type assertion panics on a value that is not
an `int64`. -/
def bulkFinish (builder : DynamicCreate) (node : Dynamic) (idValue : Value) :
    DynamicCreate × Outcome Dynamic :=
  if idValue ≠ .nil ∧ node.ID = 0 then
    match idValue with
    | .int64 id =>
      ({ mutation := { builder.mutation with id := some id, done := true } }, .ok (node.setID id))
    | _ => ({ mutation := { builder.mutation with id := some node.ID } }, .panic badAssert)
  else ({ mutation := { builder.mutation with id := some node.ID, done := true } }, .ok node)

/-- The mutator of the builder at index `i` of the bulk chain, called with
the builders from index `i` on and the specs built by the mutators before it.
It builds node and spec of its builder, then calls the mutator of the next
builder or, when it is the last, hands the batch of all specs to the graph
layer; on an error it returns the error, otherwise it finishes its builder.
The result carries the nodes from index `i` on. -/
def bulkMutate (g : GraphDriver) : Nat → List DynamicCreate → List CreateSpec → BulkRun
  | _, [], _ => { builders := [], calls := [], log := [], ids := [], out := .ok [] }
  | i, builder :: rest, specs =>
    match builder.createSpec with
    | .err e => { builders := builder :: rest, calls := [i], log := [], ids := [], out := .err e }
    | .panic msg =>
      { builders := builder :: rest, calls := [i], log := [], ids := [], out := .panic msg }
    | .ok (node, spec) =>
      let r : BulkRun :=
        if rest.length > 0 then bulkMutate g (i + 1) rest (specs ++ [spec])
        else
          match g.BatchCreate (specs ++ [spec]) with
          | .error e =>
            { builders := [], calls := [], log := [.BatchCreate (specs ++ [spec])], ids := [],
              out := .err (g.constraint e) }
          | .ok ids =>
            { builders := [], calls := [], log := [.BatchCreate (specs ++ [spec])], ids := ids,
              out := .ok [] }
      match r.out with
      | .err e =>
        { builders := builder :: r.builders, calls := i :: r.calls, log := r.log, ids := r.ids,
          out := .err e }
      | .panic msg =>
        { builders := builder :: r.builders, calls := i :: r.calls, log := r.log, ids := r.ids,
          out := .panic msg }
      | .ok nodes =>
        let f := bulkFinish builder node (r.ids.getD i spec.IDValue)
        match f.2 with
        | .err e =>
          { builders := f.1 :: r.builders, calls := i :: r.calls, log := r.log, ids := r.ids,
            out := .err e }
        | .panic msg =>
          { builders := f.1 :: r.builders, calls := i :: r.calls, log := r.log, ids := r.ids,
            out := .panic msg }
        | .ok n =>
          { builders := f.1 :: r.builders, calls := i :: r.calls, log := r.log, ids := r.ids,
            out := .ok (n :: nodes) }

/-- The method `DynamicCreateBulk.Save`: with at least one builder it calls
the first mutator and returns its error or the filled slice `nodes`; with
none it returns the empty slice. -/
def DynamicCreateBulk.Save (g : GraphDriver) (dcb : DynamicCreateBulk) : BulkRun :=
  if dcb.builders.length > 0 then bulkMutate g 0 dcb.builders []
  else { builders := dcb.builders, calls := [], log := [], ids := [], out := .ok [] }

/-! ### Clone (`dynamic_query.go`) -/

mutual

/-- The method `DynamicQuery.Clone`. The struct literal it returns names
`limit`, `offset`, `order`, `predicates`, `sql`, `withData`, `path`, `unique`
and `table`; the field `fields` keeps its zero value. -/
def DynamicQuery.Clone : DynamicQuery → DynamicQuery
  | .mk l o u ord _ p s pa w t => .mk l o u ord [] p s pa (WithDataMap.Clone w) t

/-- The loop of `Clone` over `withData`. The struct literal of each new entry
names `fromkey` and `query`; the field `single` keeps its zero value. -/
def WithDataMap.Clone : WithDataMap → WithDataMap
  | .nil => .nil
  | .cons k (.mk fk _ q) rest => .cons k (.mk fk false (DynamicQuery.Clone q)) (WithDataMap.Clone rest)

end

/-! ## The predicate combinators (`where.go`) and the derived clients -/

namespace Selector

/-- The library method `Selector.Not`: the next predicate is negated. -/
def Not (s : Selector) : Selector := { s with not := true }

/-- The library method `Selector.Or`: the next predicate is joined by OR. -/
def Or (s : Selector) : Selector := { s with or := true }

/-- The library method `Selector.P`: the WHERE expression, nil (`none`) when
there is none. -/
def P (s : Selector) : Option SqlPredicate := s.where_

/-- The library method `Selector.SetP`: it sets the WHERE expression and
clears the pending flags. -/
def SetP (s : Selector) (p : Option SqlPredicate) : Selector :=
  { s with where_ := p, or := false, not := false }

/-- The library method `Selector.Clone`: a copy of the selector. -/
def Clone (s : Selector) : Selector := s

/-- The library method `Selector.Where` called with a pointer that may be
nil. With nothing pending and no WHERE expression the nil pointer is stored,
which leaves the selector as it is; otherwise the nil pointer becomes a part
of the expression (`SqlPredicate.nil`). -/
def WhereP (s : Selector) (p : Option SqlPredicate) : Selector :=
  match p with
  | some q => s.Where q
  | none => if s.not = false ∧ s.where_ = none then s else s.Where .nil

end Selector

/-- The predicate `Not` of `where.go`. -/
protected def Not (p : PredicateDynamic) : PredicateDynamic :=
  fun s => p s.Not

/-- The predicate `And` of `where.go`. -/
protected def And (predicates : List PredicateDynamic) : PredicateDynamic :=
  fun s =>
    let s1 := predicates.foldl (fun s1 p => p s1) (s.Clone.SetP none)
    s.WhereP s1.P

/-- The loop of `Or` from index `i` on. -/
def orLoop : List PredicateDynamic → Nat → Selector → Selector
  | [], _, s1 => s1
  | p :: rest, i, s1 => orLoop rest (i + 1) (p (if i > 0 then s1.Or else s1))

/-- The predicate `Or` of `where.go`. -/
protected def Or (predicates : List PredicateDynamic) : PredicateDynamic :=
  fun s =>
    let s1 := orLoop predicates 0 (s.Clone.SetP none)
    s.WhereP s1.P

/-- The method `Client.Debug`. The copy of the config keeps the flag `debug`
as it is; the new client gets the fresh empty catalog of `init`. -/
def Client.Debug (c : Client) : Client :=
  if c.debug then c else ({ debug := c.debug, tmap := [] } : Client).init

/-! ## The other terminal operations (`dynamic_query.go`) -/

namespace DynamicQuery

/-- Assignment to the field `fields`. -/
def setFields : DynamicQuery → List String → DynamicQuery
  | .mk l o u ord _ p s pa w t, f => .mk l o u ord f p s pa w t

/-- The method `WithData`. -/
def WithData (dq : DynamicQuery) (table storeKey fromKey : String)
    (opts : List (DynamicQuery → DynamicQuery)) : DynamicQuery :=
  let query := opts.foldl (fun q opt => opt q)
    (DynamicQuery.mk none none none [] [] [] none none .nil (dq.table.client.Table table))
  dq.setWithData (dq.withData.set storeKey (.mk fromKey true query))

/-- The method `WithListData`. -/
def WithListData (dq : DynamicQuery) (table storeKey fromKey : String)
    (opts : List (DynamicQuery → DynamicQuery)) : DynamicQuery :=
  let query := opts.foldl (fun q opt => opt q)
    (DynamicQuery.mk none none none [] [] [] none none .nil (dq.table.client.Table table))
  dq.setWithData (dq.withData.set storeKey (.mk fromKey false query))

end DynamicQuery

/-- The struct `DynamicSelect`: the embedded query and the field `sql`. -/
structure DynamicSelect where
  query : DynamicQuery
  sql : Option Selector

/-- The type `AggregateFunc`: a function on the selector that returns the
aggregation expression, with the selector as it leaves it. -/
abbrev AggregateFunc := Selector → String × Selector

/-- The struct `DynamicGroupBy`. The closure `path` is kept as the query it
captures. -/
structure DynamicGroupBy where
  fields : List String
  fns : List AggregateFunc
  sql : Option Selector
  path : DynamicQuery
  table : Dent.Table

/-- A call of the driver by a terminal operation other than `All`: the count
of a query specification or a select statement. -/
inductive Call where
  | CountNodes (spec : QuerySpec)
  | Query (selector : Selector)

/-- The driver with its database, as seen by the count and scan operations:
`CountNodes` answers a query specification with a count or an error,
`ScanInts` is the query of a selector scanned by `sql.ScanSlice` into a slice
of `int`, `ScanRows` the same into any other destination, kept as the values
of the rows. -/
structure QueryDriver where
  CountNodes : QuerySpec → Except Err Int
  ScanInts : Selector → Except Err (List Int)
  ScanRows : Selector → Except Err (List (List Value))

/-- A builder after a call, the calls of the driver, in order, and how the
call ended. -/
structure RunQ (σ : Type) (α : Type) where
  state : σ
  calls : List Call
  out : Outcome α

namespace DynamicQuery

/-- The method `Select`. -/
def Select (dq : DynamicQuery) (fields : List String) : DynamicSelect :=
  { query := dq.setFields (dq.fields ++ fields), sql := none }

/-- The method `sqlQuery`. With an intermediate selector in `dq.sql` that
selector is the one built on. -/
def sqlQuery (dq : DynamicQuery) : Outcome Selector :=
  match dq.table.Table with
  | none => .panic nilDeref
  | some t =>
    let t1 : Selector := { table := t.Name, where_ := none, or := false, not := false }
    let columns := if dq.fields.length = 0 then GetColumns t else dq.fields
    let selector : Selector := { t1 with columns := columns.map t1.C }
    let selector : Selector :=
      match dq.sql with
      | some prev => { prev with columns := columns.map prev.C }
      | none => selector
    let selector : Selector :=
      if dq.unique = some true then { selector with distinct := true } else selector
    let selector := dq.predicates.foldl (fun s p => p s) selector
    let selector := dq.order.foldl (fun s p => p s) selector
    let selector : Selector :=
      match dq.offset with
      | some offset => { selector with offset := some offset, limit := some 2147483647 }
      | none => selector
    let selector : Selector :=
      match dq.limit with
      | some limit => { selector with limit := some limit }
      | none => selector
    .ok selector

/-- The method `sqlCount`. -/
def sqlCount (q : QueryDriver) (dq : DynamicQuery) : RunQ DynamicQuery Int :=
  match dq.querySpec with
  | .err e => { state := dq, calls := [], out := .err e }
  | .panic msg => { state := dq, calls := [], out := .panic msg }
  | .ok _spec =>
    let _spec : QuerySpec := { _spec with Columns := dq.fields }
    let _spec : QuerySpec :=
      if dq.fields.length > 0 then { _spec with Unique := decide (dq.unique = some true) }
      else _spec
    match q.CountNodes _spec with
    | .error e => { state := dq, calls := [.CountNodes _spec], out := .err e }
    | .ok n => { state := dq, calls := [.CountNodes _spec], out := .ok n }

/-- The method `Count`. -/
def Count (q : QueryDriver) (dq : DynamicQuery) : RunQ DynamicQuery Int :=
  match dq.prepareQuery with
  | (dq1, .ok ()) => dq1.sqlCount q
  | (dq1, .err e) => { state := dq1, calls := [], out := .err e }
  | (dq1, .panic msg) => { state := dq1, calls := [], out := .panic msg }

/-- The method `sqlExist`. -/
def sqlExist (q : QueryDriver) (dq : DynamicQuery) : RunQ DynamicQuery Bool :=
  match (dq.sqlCount q).out with
  | .err e =>
    { state := (dq.sqlCount q).state, calls := (dq.sqlCount q).calls,
      out := .err (.wrapf "ent: check existence: %w" e) }
  | .panic msg =>
    { state := (dq.sqlCount q).state, calls := (dq.sqlCount q).calls, out := .panic msg }
  | .ok n =>
    { state := (dq.sqlCount q).state, calls := (dq.sqlCount q).calls, out := .ok (decide (n > 0)) }

/-- The method `Exist`. -/
def Exist (q : QueryDriver) (dq : DynamicQuery) : RunQ DynamicQuery Bool :=
  match dq.prepareQuery with
  | (dq1, .ok ()) => dq1.sqlExist q
  | (dq1, .err e) => { state := dq1, calls := [], out := .err e }
  | (dq1, .panic msg) => { state := dq1, calls := [], out := .panic msg }

end DynamicQuery

/-- The methods `DynamicSelect.Scan` and `sqlScan`, with the query of the
driver and the scan into the destination as the parameter `exec`. -/
def DynamicSelect.ScanWith {α : Type} (exec : Selector → Except Err α) (ds : DynamicSelect) :
    RunQ DynamicSelect α :=
  match ds.query.prepareQuery with
  | (dq1, .err e) => { state := { ds with query := dq1 }, calls := [], out := .err e }
  | (dq1, .panic msg) => { state := { ds with query := dq1 }, calls := [], out := .panic msg }
  | (dq1, .ok ()) =>
    match dq1.sqlQuery with
    | .err e => { state := { ds with query := dq1 }, calls := [], out := .err e }
    | .panic msg => { state := { ds with query := dq1 }, calls := [], out := .panic msg }
    | .ok selector =>
      let dq2 : DynamicQuery :=
        match dq1.sql with
        | some _ => dq1.setSql (some selector)
        | none => dq1
      match exec selector with
      | .error e =>
        { state := { query := dq2, sql := some selector }, calls := [.Query selector],
          out := .err e }
      | .ok v =>
        { state := { query := dq2, sql := some selector }, calls := [.Query selector],
          out := .ok v }

/-- The method `DynamicSelect.Scan` into a destination other than a slice of
`int`. -/
def DynamicSelect.Scan (q : QueryDriver) (ds : DynamicSelect) :
    RunQ DynamicSelect (List (List Value)) :=
  ds.ScanWith q.ScanRows

namespace DynamicQuery

/-- The method `IDs`: the builder afterwards is the query behind the select
builder. -/
def IDs (q : QueryDriver) (dq : DynamicQuery) : RunQ DynamicQuery (List Int) :=
  let r := (dq.Select [FieldID]).ScanWith q.ScanInts
  { state := r.state.query, calls := r.calls, out := r.out }

/-- The method `FirstID`. -/
def FirstID (q : QueryDriver) (dq : DynamicQuery) : RunQ DynamicQuery Int :=
  let r := (dq.Limit 1).IDs q
  match r.out with
  | .err e => { state := r.state, calls := r.calls, out := .err e }
  | .panic msg => { state := r.state, calls := r.calls, out := .panic msg }
  | .ok [] =>
    match r.state.table.Table with
    | none => { state := r.state, calls := r.calls, out := .panic nilDeref }
    | some t => { state := r.state, calls := r.calls, out := .err (.NotFoundError t.Name) }
  | .ok (id :: _) => { state := r.state, calls := r.calls, out := .ok id }

/-- The method `OnlyID`. -/
def OnlyID (q : QueryDriver) (dq : DynamicQuery) : RunQ DynamicQuery Int :=
  let r := (dq.Limit 2).IDs q
  match r.out with
  | .err e => { state := r.state, calls := r.calls, out := .err e }
  | .panic msg => { state := r.state, calls := r.calls, out := .panic msg }
  | .ok ids =>
    match ids with
    | [id] => { state := r.state, calls := r.calls, out := .ok id }
    | [] =>
      match r.state.table.Table with
      | none => { state := r.state, calls := r.calls, out := .panic nilDeref }
      | some t => { state := r.state, calls := r.calls, out := .err (.NotFoundError t.Name) }
    | _ =>
      match r.state.table.Table with
      | none => { state := r.state, calls := r.calls, out := .panic nilDeref }
      | some t => { state := r.state, calls := r.calls, out := .err (.NotSingularError t.Name) }

/-- The method `GroupBy`. Reading `dq.table.Name` for the label panics on a
table whose descriptor is nil. -/
def GroupBy (dq : DynamicQuery) (field : String) (fields : List String) :
    Outcome DynamicGroupBy :=
  match dq.table.Table with
  | none => .panic nilDeref
  | some _ => .ok { fields := field :: fields, fns := [], sql := none, path := dq,
                    table := dq.table }

end DynamicQuery

namespace DynamicGroupBy

/-- The method `Aggregate`. -/
def Aggregate (dgb : DynamicGroupBy) (fns : List AggregateFunc) : DynamicGroupBy :=
  { dgb with fns := dgb.fns ++ fns }

/-- The loop of `sqlQuery` over the aggregation functions. -/
def aggregate : List AggregateFunc → Selector → List String × Selector
  | [], selector => ([], selector)
  | fn :: rest, selector =>
    ((fn selector).1 :: (aggregate rest (fn selector).2).1, (aggregate rest (fn selector).2).2)

/-- The method `DynamicGroupBy.sqlQuery`. -/
def sqlQuery (dgb : DynamicGroupBy) : Outcome Selector :=
  match dgb.sql with
  | none => .panic nilDeref
  | some sql =>
    let selector : Selector := { sql with columns := [] }
    let (aggregation, selector) := aggregate dgb.fns selector
    let selector : Selector :=
      if selector.columns.length = 0 then
        { selector with columns := dgb.fields.map selector.C ++ aggregation }
      else selector
    .ok { selector with group := selector.group ++ dgb.fields.map selector.C }

/-- The loop of `sqlScan` over the group-by fields. -/
def checkFields (table : Dent.Table) : List String → Outcome Unit
  | [] => .ok ()
  | f :: rest =>
    match table.Table with
    | none => .panic nilDeref
    | some t =>
      if !t.HasColumn f then
        .err (.ValidationError f (.errorf "invalid field %q for group-by" [.string f]))
      else checkFields table rest

/-- The methods `DynamicGroupBy.Scan` and `sqlScan`. The closure `path` runs
`prepareQuery` and `sqlQuery` on the query it captured. The result carries
that query afterwards next to the group-by builder. -/
def Scan (q : QueryDriver) (dgb : DynamicGroupBy) :
    RunQ (DynamicGroupBy × DynamicQuery) (List (List Value)) :=
  match dgb.path.prepareQuery with
  | (dq1, .err e) => { state := (dgb, dq1), calls := [], out := .err e }
  | (dq1, .panic msg) => { state := (dgb, dq1), calls := [], out := .panic msg }
  | (dq1, .ok ()) =>
    match dq1.sqlQuery with
    | .err e => { state := (dgb, dq1), calls := [], out := .err e }
    | .panic msg => { state := (dgb, dq1), calls := [], out := .panic msg }
    | .ok query =>
      let dgb1 : DynamicGroupBy := { dgb with sql := some query, path := dq1 }
      match checkFields dgb1.table dgb1.fields with
      | .err e => { state := (dgb1, dq1), calls := [], out := .err e }
      | .panic msg => { state := (dgb1, dq1), calls := [], out := .panic msg }
      | .ok () =>
        match dgb1.sqlQuery with
        | .err e => { state := (dgb1, dq1), calls := [], out := .err e }
        | .panic msg => { state := (dgb1, dq1), calls := [], out := .panic msg }
        | .ok selector =>
          match q.ScanRows selector with
          | .error e => { state := (dgb1, dq1), calls := [.Query selector], out := .err e }
          | .ok rows => { state := (dgb1, dq1), calls := [.Query selector], out := .ok rows }

end DynamicGroupBy

/-- The method `DynamicUpdate.SetValue`. -/
def DynamicUpdate.SetValue (du : DynamicUpdate) (name : String) (val : Value) :
    DynamicUpdate × Outcome Unit :=
  ({ mutation := (du.mutation.SetValue name val).1 }, (du.mutation.SetValue name val).2)

/-- The method `DynamicUpdate.AddValue`. -/
def DynamicUpdate.AddValue (du : DynamicUpdate) (name : String) (i : Int) :
    DynamicUpdate × Outcome Unit :=
  ({ mutation := (du.mutation.AddValue name i).1 }, (du.mutation.AddValue name i).2)

/-- The method `DynamicUpdate.ClearValue`. -/
def DynamicUpdate.ClearValue (du : DynamicUpdate) (name : String) : DynamicUpdate :=
  { mutation := du.mutation.ClearValue name }

/-! ## The tables and scenarios of `client_test.go` -/

/-- The table `test_aaa` of the test: `id`, `field1`, `field2`. -/
def tableTestAAA : SchemaTable :=
  ((NewTable "test_aaa").AddColumn { Name := "field1", Type_ := .TypeInt }).AddColumn
    { Name := "field2", Type_ := .TypeInt }

/-- The table `user` of the test: `id`, `username`, `creator_id`. -/
def tableUser : SchemaTable :=
  ((NewTable "user").AddColumn { Name := "username", Type_ := .TypeString }).AddColumn
    { Name := "creator_id", Type_ := .TypeInt }

/-- The client of the test after both `AddTable` calls. -/
def testClient : Client :=
  (({ debug := false, tmap := [] } : Client).AddTable tableTestAAA).AddTable tableUser

/-- A row of `test_aaa` as scanned: the holders of `id`, `field1`, `field2`. -/
def rowAAA (id field1 field2 : Int) : List Value :=
  [.NullInt64 id true, .NullInt64 field1 true, .NullInt64 field2 true]

/-- A database that answers every query on `test_aaa` with the two rows whose
`field1` is 1 (scenario S4), and any other query with no rows. -/
def driverTwoRows : Driver := fun spec =>
  if spec.Table = "test_aaa" then
    .ok { columns := ["id", "field1", "field2"], rows := [rowAAA 2 1 2, rowAAA 3 1 5] }
  else .ok { columns := spec.Columns, rows := [] }

/-- A database that rejects every query the way MySQL rejects an unknown
column in the WHERE clause. -/
def driverUnknownColumn : Driver := fun _ =>
  .error (.driver "Error 1054: Unknown column 'nonexistent' in 'where clause'")

/-- An empty selector on a table, to read off what a predicate adds. -/
def blankSelector (table : String) : Selector :=
  { table := table, where_ := none, or := false, not := false }

/-! ## Notions used to state the eager loader's properties -/

/-- The foreign key the loader reads from a node: the integer behind
`n.Row[fromkey].(int64)`, `none` where that type assertion panics. -/
def fkOf (fromkey : String) (p : Dynamic) : Option Int :=
  match p.Row.get fromkey with
  | some (.int64 x) => some x
  | _ => none

/-- The primary result of `All`: the nodes that `sqlgraph.QueryNodes` hands
to `sqlAll` after `prepareQuery` and `querySpec`, before the loop over
`withData`. -/
def DynamicQuery.primary (drv : Driver) (dq : DynamicQuery) : Outcome (List Dynamic) :=
  match dq.prepareQuery with
  | (dq1, .ok ()) =>
    match dq1.querySpec with
    | .ok spec => QueryNodes drv spec dq1.table
    | .err e => .err e
    | .panic msg => .panic msg
  | (_, .err e) => .err e
  | (_, .panic msg) => .panic msg

/-- The last element of `children` that satisfies `P`, or `init` when none
does: what a loop that overwrites a slot on every match leaves in it. -/
def lastMatch (P : Dynamic → Prop) [DecidablePred P] (children : List Dynamic)
    (init : Option Dynamic) : Option Dynamic :=
  children.foldl (fun acc c => if P c then some c else acc) init

/-- The nodes `nodes'` are the nodes `nodes` with the same ids and rows,
position by position: what the loop over `withData` preserves. -/
def SameNodes (nodes nodes' : List Dynamic) : Prop :=
  nodes'.length = nodes.length ∧
  ∀ (j : Nat) (p : Dynamic), nodes[j]? = some p →
    ∃ p', nodes'[j]? = some p' ∧ p'.ID = p.ID ∧ p'.Row = p.Row

/-- A row of `user` as scanned: the holders of `id`, `username` and
`creator_id`; `none` is a `creator_id` that is NULL in the database, which
the scan leaves as the zero integer with `Valid = false`. -/
def rowUser (id : Int) (username : String) (creator : Option Int) : List Value :=
  [.NullInt64 id true, .NullString username true,
    match creator with
    | some c => .NullInt64 c true
    | none => .NullInt64 0 false]

/-- A database with the users 1 `ann` (creator 2), 2 `bob` (creator 2) and
3 `cy` (creator NULL). It answers a query on `user` without a predicate with
all three rows and a query on `user` with a predicate (the follow-up query of
the eager loader, `id IN (2, 0)`) with user 2, the only row that matches. -/
def driverUsers : Driver := fun spec =>
  if spec.Table = "user" then
    match spec.Predicate with
    | none =>
      .ok { columns := ["id", "username", "creator_id"],
            rows := [rowUser 1 "ann" (some 2), rowUser 2 "bob" (some 2), rowUser 3 "cy" none] }
    | some _ =>
      .ok { columns := ["id", "username", "creator_id"], rows := [rowUser 2 "bob" (some 2)] }
  else .ok { columns := spec.Columns, rows := [] }

/-- The query `Table("user").Query().WithData("user", "creator", "creator_id")`. -/
def queryUsersWithCreator : DynamicQuery :=
  .mk none none none [] [] [] none none
    (.cons "creator" (.mk "creator_id" true (testClient.Table "user").Query) .nil)
    (testClient.Table "user")

/-- A database for scenario S3: user 1, and the `test_aaa` rows 1, 2 (with
`field1 = 1`) and 3 (with `field1 = 7`). It answers a query on `user` with the
user and a query on `test_aaa` with a predicate (the follow-up query
`field1 IN (1)`) with the rows 1 and 2. -/
def driverS3 : Driver := fun spec =>
  if spec.Table = "user" then
    .ok { columns := ["id", "username", "creator_id"], rows := [rowUser 1 "ann" (some 1)] }
  else if spec.Table = "test_aaa" then
    match spec.Predicate with
    | none =>
      .ok { columns := ["id", "field1", "field2"],
            rows := [rowAAA 1 1 2, rowAAA 2 1 3, rowAAA 3 7 4] }
    | some _ =>
      .ok { columns := ["id", "field1", "field2"], rows := [rowAAA 1 1 2, rowAAA 2 1 3] }
  else .ok { columns := spec.Columns, rows := [] }

/-- The query `Table("user").Query().WithListData("test_aaa", "test_list", "field1")`. -/
def queryUserWithList : DynamicQuery :=
  .mk none none none [] [] [] none none
    (.cons "test_list" (.mk "field1" false (testClient.Table "test_aaa").Query) .nil)
    (testClient.Table "user")

/-- The entity of a `user` row as the query loop builds it, before any edge
is loaded. -/
def userNode (id : Int) (username : String) (creator : Int) : Dynamic :=
  .mk (testClient.Table "user") id [("username", .string username), ("creator_id", .int64 creator)]
    [] []

/-- The entity of a `test_aaa` row as the query loop builds it. -/
def aaaNode (id field1 field2 : Int) : Dynamic :=
  .mk (testClient.Table "test_aaa") id [("field1", .int64 field1), ("field2", .int64 field2)] [] []

/-- The loader of a mutation has not run yet: the `sync.Once` of the closure
of `withID` is unused. -/
def DynamicMutation.unloaded (m : DynamicMutation) : Prop :=
  ∃ id, m.oldValue = some (.byID id none)

/-- The builder `Table("test_aaa").DeleteOneID(7)`. -/
def deleteOneAAA : DynamicDeleteOne :=
  { dd := { mutation :=
      { (withField tableTestAAA.Columns
          (newDynamicMutation (testClient.Table "test_aaa") .OpDelete)).Where [ID 7] with
        id := some 7, op := .OpDeleteOne } } }

/-- A graph layer over a database without rows: an insert gets id 1, an
update of many and a delete affect 0 rows, an update of one finds no row; no
error is a constraint error. -/
def graphNoRows : GraphDriver :=
  { CreateNode := fun _ => .ok (.int64 1),
    BatchCreate := fun specs => .ok ((List.range specs.length).map (fun i => .int64 (i + 1))),
    UpdateNodes := fun _ => .ok 0,
    UpdateNode := fun spec => .error (.sqlgraphNotFound spec.Table spec.IDValue),
    DeleteNodes := fun _ => .ok 0,
    IsConstraintError := fun _ => false,
    Error := fun _ => "" }

/-- A graph layer over a database that rejects every statement with a
duplicate-key error, which the layer classifies as a constraint error. -/
def graphDuplicate : GraphDriver :=
  { CreateNode := fun _ => .error (.driver "Error 1062: Duplicate entry"),
    BatchCreate := fun _ => .error (.driver "Error 1062: Duplicate entry"),
    UpdateNodes := fun _ => .error (.driver "Error 1062: Duplicate entry"),
    UpdateNode := fun _ => .error (.driver "Error 1062: Duplicate entry"),
    DeleteNodes := fun _ => .error (.driver "Error 1062: Duplicate entry"),
    IsConstraintError := fun e => decide (e = .driver "Error 1062: Duplicate entry"),
    Error := fun e =>
      match e with
      | .driver msg => msg
      | _ => "" }

/-- The spec of the statement of `Table("test_aaa").UpdateOneID(1).Save`. -/
def updateOneAAASpec : UpdateSpec :=
  { Table := "test_aaa", Columns := ["id", "field1", "field2"], IDType := .TypeInt,
    IDColumn := "id", IDValue := .int 1, Predicate := none, FieldsSet := [] }

/-- Whether a row satisfies a predicate expression, read with two truth
values for a row in which the compared columns have a value. The nil leaf
stands for no condition that could be rendered and is read as false. -/
def SqlPredicate.holds (row : GoMap String Value) : SqlPredicate → Bool
  | .EQ col arg => decide (row.get col = some arg)
  | .In col args =>
    match row.get col with
    | some v => args.contains v
    | none => false
  | .InValues col args =>
    match row.get col with
    | some v => args.contains v
    | none => false
  | .And a b => a.holds row && b.holds row
  | .Or a b => a.holds row || b.holds row
  | .Not a => !(a.holds row)
  | .nil => false

/-- Whether the user row `r` (id, name, creator) passes the WHERE expression
`w` of a query on `user`: the expression is read on the row with the id under
`user.id` and the creator, when it is not NULL, under `creator_id`, the two
names the key filters of the eager loader use. -/
def keepUser (w : Option SqlPredicate) (r : Int × String × Option Int) : Bool :=
  match w with
  | none => true
  | some e =>
    e.holds (("user.id", Value.int r.1) ::
      (match r.2.2 with
      | some c => [("creator_id", Value.int c)]
      | none => []))

/-- A database with the users 1 `ann` (creator 2), 2 `bob` (creator 2) and
3 `cy` (creator NULL) that evaluates the key filter of a follow-up query on
`user` with `keepUser`. -/
def driverUsersDB : Driver := fun spec =>
  if spec.Table = "user" then
    let w : Option SqlPredicate :=
      match spec.Predicate with
      | some p => (p (blankSelector "user")).where_
      | none => none
    .ok { columns := ["id", "username", "creator_id"],
          rows := ([(1, "ann", some 2), (2, "bob", some 2), (3, "cy", none)].filter
            (keepUser w)).map (fun r => rowUser r.1 r.2.1 r.2.2) }
  else .ok { columns := spec.Columns, rows := [] }

/-- For each entity of a result its id, the id of its single edge under
`key` and the ids of its list edge under `key`. -/
def edgeSummary (key : String) (o : Outcome (List Dynamic)) :
    List (Int × Option Int × List Int) :=
  match o with
  | .ok nodes =>
    nodes.map (fun (n : Dynamic) =>
      (n.ID, (n.edgesGet key).map (fun (c : Dynamic) => c.ID),
        (n.edgesList key).map (fun (c : Dynamic) => c.ID)))
  | _ => []

/-- What the mutator at index `i` of the bulk chain calls after it built its
spec, with `specs` the specs built so far: the mutator of the next builder
when there is one, the batch otherwise. -/
def bulkNext (g : GraphDriver) (i : Nat) (rest : List DynamicCreate) (specs : List CreateSpec) :
    BulkRun :=
  if rest.length > 0 then bulkMutate g (i + 1) rest specs
  else
    match g.BatchCreate specs with
    | .error e =>
      { builders := [], calls := [], log := [.BatchCreate specs], ids := [],
        out := .err (g.constraint e) }
    | .ok ids =>
      { builders := [], calls := [], log := [.BatchCreate specs], ids := ids, out := .ok [] }

/-- The builders are ready for a bulk insert: `createSpec` of each returns,
the i-th gives the i-th pair of node and spec. -/
def BulkReady (builders : List DynamicCreate) (pairs : List (Dynamic × CreateSpec)) : Prop :=
  List.Forall₂ (fun (b : DynamicCreate) (p : Dynamic × CreateSpec) => b.createSpec = .ok p)
    builders pairs

/-- The batch answers with an `int64` in `ID.Value` of each spec from index
`i` on, as the graph layer does for a numeric id column. -/
def BulkInt64 (ids : List Value) (i : Nat) (pairs : List (Dynamic × CreateSpec)) : Prop :=
  ∀ (j : Nat) (p : Dynamic × CreateSpec), pairs[j]? = some p →
    ∃ v, ids.getD (i + j) p.2.IDValue = .int64 v

/-- The create builder `Table("test_aaa").Create().SetValue("field1", a)`. -/
def createAAA (a : Int) : DynamicCreate :=
  { mutation := ((withField tableTestAAA.Columns
      (newDynamicMutation (testClient.Table "test_aaa") .OpCreate)).SetValue "field1" (.int a)).1 }

/-- The spec of the statement of
`Table("test_aaa").Update().SetValue("field1", 4).Save`. -/
def updateAAASpec : UpdateSpec :=
  { Table := "test_aaa", Columns := ["id", "field1", "field2"], IDType := .TypeInt,
    IDColumn := "id", IDValue := .nil, Predicate := none,
    FieldsSet := [{ Type_ := .TypeInt, Value := .ifacePtr (.int 4), Column := "field1" }] }

/-- A driver for the count and scan operations over a database in which
every query matches two rows, with the ids 1 and 2. -/
def queryDriverTwo : QueryDriver :=
  { CountNodes := fun _ => .ok 2,
    ScanInts := fun _ => .ok [1, 2],
    ScanRows := fun _ => .ok [[.int64 1], [.int64 2]] }

/-- The predicate or order function leaves the DISTINCT flag of the selector
as it is, as every predicate of `where.go` does. -/
def KeepsDistinct (p : Selector → Selector) : Prop := ∀ s, (p s).distinct = s.distinct

/-- The driver returns at most as many rows as the limit of the query asks
for, when it asks for one. -/
def HonoursLimit (drv : Driver) : Prop :=
  ∀ (spec : QuerySpec) (rows : Rows), drv spec = .ok rows → 0 < spec.Limit →
    (rows.rows.length : Int) ≤ spec.Limit

/-- The query `Table("test_aaa").Query()` after `Select("field1")`. -/
def queryAAAField1 : DynamicQuery :=
  ((testClient.Table "test_aaa").Query.Select ["field1"]).query

/-- The selector of `Table("test_aaa").Query().IDs`. -/
def idsSelectorAAA : Selector :=
  { table := "test_aaa", where_ := none, or := false, not := false,
    columns := ["test_aaa.id"] }

/-- The aggregation function leaves the DISTINCT flag of the selector as it
is. -/
def AggregateKeepsDistinct (fn : AggregateFunc) : Prop := ∀ s, (fn s).2.distinct = s.distinct

/-- The predicate adds exactly one condition through `Selector.Where`, and
the condition depends on the selector through the table name only: the shape
of every field predicate of `where.go`. -/
def AddsOne (p : PredicateDynamic) : Prop :=
  ∃ c : String → SqlPredicate, ∀ s : Selector, p s = s.Where (c s.table)

/-- The builder after `k` runs of `All`, each on the builder the run before
left. -/
def allTimes (drv : Driver) : Nat → DynamicQuery → DynamicQuery
  | 0, dq => dq
  | k + 1, dq => allTimes drv k (dq.All drv).state

/-- Each of `k` consecutive runs of `All` on the builder returns at least one
entity. -/
def AllReturns (drv : Driver) : Nat → DynamicQuery → Prop
  | 0, _ => True
  | k + 1, dq =>
    (∃ nodes, (dq.All drv).out = .ok nodes ∧ nodes ≠ []) ∧ AllReturns drv k (dq.All drv).state

/-- The predicate is the key filter that the loop of `sqlAll` adds to the
sub-query of an entry with the given from key and flag for the parents
`nodes`: `ID IN` the distinct foreign keys of the parents for a single edge,
`fromkey IN` the ids of the parents for a list edge. -/
def KeyFilter (fromkey : String) (single : Bool) (nodes : List Dynamic)
    (filter : PredicateDynamic) : Prop :=
  (single = true → ∃ ids : List Int, filter = IDIn ids ∧ ids.Nodup ∧
    ∀ x, x ∈ ids ↔ ∃ p ∈ nodes, fkOf fromkey p = some x) ∧
  (single = false → filter = listPredicate fromkey nodes)

/-- Every sub-query of the map has no entries of its own. -/
def WithDataMap.Leaves : WithDataMap → Prop
  | .nil => True
  | .cons _ w rest => w.query.withData = .nil ∧ rest.Leaves

/-- The sub-query that the option of `queryUsersNested` builds:
`q.WithListData("user", "created", "creator_id")` on a fresh query of `user`. -/
def queryUsersCreated : DynamicQuery :=
  (testClient.Table "user").Query.WithListData "user" "created" "creator_id" []

/-- The query `Table("user").Query().WithData("user", "creator", "creator_id",
func(q) \x7b q.WithListData("user", "created", "creator_id") \x7d)`: every user
with its creator, and every creator with the users it created. -/
def queryUsersNested : DynamicQuery :=
  (testClient.Table "user").Query.WithData "user" "creator" "creator_id"
    [fun q => q.WithListData "user" "created" "creator_id" []]

/-! ## The holder table of the specification (section 4.4) -/

/-- The scan holder the specification lists for a column type, freshly
allocated; `none` for a type outside the list. Written from the table of the
specification, to be compared with `Table.scanValues`. -/
def holderOfType : FieldType → Option Value
  | .TypeBool => some (.NullBool false false)
  | .TypeTime => some (.NullTime 0 false)
  | .TypeJSON => some (.bytesPtr "")
  | .TypeBytes => some (.bytesPtr "")
  | .TypeUUID => some (.NullString "" false)
  | .TypeString => some (.NullString "" false)
  | .TypeEnum => some (.NullInt64 0 false)
  | .TypeInt8 => some (.NullInt64 0 false)
  | .TypeInt16 => some (.NullInt64 0 false)
  | .TypeInt32 => some (.NullInt64 0 false)
  | .TypeInt => some (.NullInt64 0 false)
  | .TypeInt64 => some (.NullInt64 0 false)
  | .TypeUint8 => some (.NullInt64 0 false)
  | .TypeUint16 => some (.NullInt64 0 false)
  | .TypeUint32 => some (.NullInt64 0 false)
  | .TypeUint => some (.NullInt64 0 false)
  | .TypeUint64 => some (.NullInt64 0 false)
  | .TypeFloat32 => some (.NullFloat64 0 false)
  | .TypeFloat64 => some (.NullFloat64 0 false)
  | .TypeOther => some (.ifacePtr .nil)
  | .TypeInvalid => none

/-- Two values are holders of the same kind: the same pointer type, whatever
the payload that a scan has written into them. -/
def sameKind : Value → Value → Bool
  | .nil, .nil => true
  | .NullBool _ _, .NullBool _ _ => true
  | .NullTime _ _, .NullTime _ _ => true
  | .NullString _ _, .NullString _ _ => true
  | .NullInt64 _ _, .NullInt64 _ _ => true
  | .NullFloat64 _ _, .NullFloat64 _ _ => true
  | .bytesPtr _, .bytesPtr _ => true
  | .ifacePtr _, .ifacePtr _ => true
  | _, _ => false

/-- The row value the specification lists for a column type and the holder a
scan has filled: `none` when the holder is not of the kind listed for the
type. Written from the table of the specification, to be compared with
`Dynamic.assignValues`. -/
def rowValueOf : FieldType → Value → Option Value
  | .TypeBool, .NullBool b _ => some (.bool b)
  | .TypeTime, .NullTime t _ => some (.time t)
  | .TypeJSON, .bytesPtr b => some (.string b)
  | .TypeBytes, .bytesPtr b => some (.string b)
  | .TypeUUID, .NullString s _ => some (.string s)
  | .TypeString, .NullString s _ => some (.string s)
  | .TypeEnum, .NullInt64 i _ => some (.int64 i)
  | .TypeInt8, .NullInt64 i _ => some (.int64 i)
  | .TypeInt16, .NullInt64 i _ => some (.int64 i)
  | .TypeInt32, .NullInt64 i _ => some (.int64 i)
  | .TypeInt, .NullInt64 i _ => some (.int64 i)
  | .TypeInt64, .NullInt64 i _ => some (.int64 i)
  | .TypeUint8, .NullInt64 i _ => some (.int64 i)
  | .TypeUint16, .NullInt64 i _ => some (.int64 i)
  | .TypeUint32, .NullInt64 i _ => some (.int64 i)
  | .TypeUint, .NullInt64 i _ => some (.int64 i)
  | .TypeUint64, .NullInt64 i _ => some (.int64 i)
  | .TypeFloat32, .NullFloat64 f _ => some (.float64 f)
  | .TypeFloat64, .NullFloat64 f _ => some (.float64 f)
  | .TypeOther, .ifacePtr v => some (.ifacePtr v)
  | _, _ => none

/-- The slot `Table.scanValues` fills for one column name when it succeeds:
the holder of the column type, or the nil interface for a name that is not a
column. -/
def slotOf (t : SchemaTable) (name : String) : Value :=
  match t.Column name with
  | some col => (holderOfType col.Type_).getD .nil
  | none => .nil

/-- The value the type switch of `assignValues` stores in the row for a
holder, outside the `id` case. -/
def convOf : Value → Value
  | .NullInt64 i _ => .int64 i
  | .NullBool b _ => .bool b
  | .NullString s _ => .string s
  | .NullFloat64 f _ => .float64 f
  | .NullTime t _ => .time t
  | .bytesPtr b => .string b
  | other => other

/-- The holder list `values` covers the column list and each holder has the
kind `scanValues` allocates for its column. -/
def Filled (t : SchemaTable) : List String → List Value → Prop
  | [], _ => True
  | _ :: _, [] => False
  | c :: cs, v :: vs => sameKind (slotOf t c) v = true ∧ Filled t cs vs

/-! ## Properties of Go maps -/

section GoMapLemmas

variable {κ ν : Type} [DecidableEq κ]

theorem GoMap.get_set_self (m : GoMap κ ν) (k : κ) (v : ν) :
    (m.set k v).get k = some v := by
  induction m with
  | nil => simp [GoMap.set, GoMap.get]
  | cons kv rest ih =>
    obtain ⟨k', v'⟩ := kv
    by_cases h : k' = k
    · simp [GoMap.set, GoMap.get, h]
    · simp [GoMap.set, GoMap.get, h, ih]

theorem GoMap.get_set_other (m : GoMap κ ν) (k k' : κ) (v : ν) (h : k' ≠ k) :
    (m.set k v).get k' = m.get k' := by
  induction m with
  | nil =>
    have h2 : ¬ k = k' := fun e => h e.symm
    simp [GoMap.set, GoMap.get, h2]
  | cons kv rest ih =>
    obtain ⟨k1, v1⟩ := kv
    by_cases h1 : k1 = k
    · subst h1
      have h2 : ¬ k1 = k' := fun e => h e.symm
      simp [GoMap.set, GoMap.get, h2]
    · by_cases h3 : k1 = k'
      · subst h3
        simp [GoMap.set, GoMap.get, h1]
      · simp [GoMap.set, GoMap.get, h1, h3, ih]

theorem GoMap.get_del_self (m : GoMap κ ν) (k : κ) :
    (m.del k).get k = none := by
  induction m with
  | nil => simp [GoMap.del, GoMap.get]
  | cons kv rest ih =>
    obtain ⟨k1, v1⟩ := kv
    by_cases h1 : k1 = k
    · have : GoMap.del ((k1, v1) :: rest) k = GoMap.del rest k := by
        simp [GoMap.del, List.filter, h1]
      rw [this]; exact ih
    · have : GoMap.del ((k1, v1) :: rest) k = (k1, v1) :: GoMap.del rest k := by
        simp [GoMap.del, List.filter, h1]
      rw [this]; simp [GoMap.get, h1, ih]

theorem GoMap.get_del_other (m : GoMap κ ν) (k k' : κ) (h : k' ≠ k) :
    (m.del k).get k' = m.get k' := by
  induction m with
  | nil => simp [GoMap.del, GoMap.get]
  | cons kv rest ih =>
    obtain ⟨k1, v1⟩ := kv
    by_cases h1 : k1 = k
    · have e : GoMap.del ((k1, v1) :: rest) k = GoMap.del rest k := by
        simp [GoMap.del, List.filter, h1]
      have h2 : ¬ k1 = k' := fun e => h (e.symm.trans h1)
      rw [e, ih]; simp [GoMap.get, h2]
    · have e : GoMap.del ((k1, v1) :: rest) k = (k1, v1) :: GoMap.del rest k := by
        simp [GoMap.del, List.filter, h1]
      rw [e]
      by_cases h3 : k1 = k'
      · simp [GoMap.get, h3]
      · simp [GoMap.get, h3, ih]

end GoMapLemmas

/-! ## The catalog -/

/-- C1. Catalog round trip: after `AddTable D` the lookup of `D.Name` carries
exactly `D`, whatever the catalog held before; after a following
`DeleteTable D.Name` it carries no descriptor; and the lookup of every other
name is unchanged by both operations. -/
theorem catalog_round_trip (c : Client) (D : SchemaTable) :
    ((c.AddTable D).Table D.Name).Table = some D ∧
    (((c.AddTable D).DeleteTable D.Name).Table D.Name).Table = none ∧
    (∀ n : String, n ≠ D.Name →
      ((c.AddTable D).Table n).Table = (c.Table n).Table ∧
      (((c.AddTable D).DeleteTable D.Name).Table n).Table = (c.Table n).Table) := by
  refine ⟨?_, ?_, ?_⟩
  · simp [Client.Table, Client.AddTable, GoMap.get_set_self]
  · simp [Client.Table, Client.AddTable, Client.DeleteTable, GoMap.get_del_self]
  · intro n hn
    simp [Client.Table, Client.AddTable, Client.DeleteTable,
      GoMap.get_del_other _ _ _ hn, GoMap.get_set_other _ _ _ _ hn]

/-- Witness for C1: registering `test_aaa` over an older descriptor of that
name, next to a registered `user` table. -/
theorem catalog_round_trip_witness :
    let c : Client := { debug := false, tmap := [("test_aaa", SchemaTable.new "test_aaa"), ("user", NewTable "user")] }
    ((c.AddTable (NewTable "test_aaa")).Table "test_aaa").Table = some (NewTable "test_aaa") ∧
    (((c.AddTable (NewTable "test_aaa")).DeleteTable "test_aaa").Table "test_aaa").Table = none ∧
    ((c.AddTable (NewTable "test_aaa")).Table "user").Table = some (NewTable "user") ∧
    (((c.AddTable (NewTable "test_aaa")).DeleteTable "test_aaa").Table "user").Table
      = some (NewTable "user") := by
  intro c
  have h := catalog_round_trip c (NewTable "test_aaa")
  have hn : ("user" : String) ≠ (NewTable "test_aaa").Name := by decide
  refine ⟨h.1, h.2.1, ?_, ?_⟩
  · exact (h.2.2 "user" hn).1.trans rfl
  · exact (h.2.2 "user" hn).2.trans rfl

/-! ## The scan codec -/

theorem scanValuesLoop_cons (t : SchemaTable) (v : String) (rest : List String) :
    scanValuesLoop t (v :: rest) =
      match t.Column v with
      | some val =>
        match holderOfType val.Type_ with
        | some h =>
          match scanValuesLoop t rest with
          | .ok hs => .ok (h :: hs)
          | .err e => .err e
          | .panic msg => .panic msg
        | none => .err (.errorf "unexpected column %q for type Dynamic" [.string v])
      | none =>
        match scanValuesLoop t rest with
        | .ok hs => .ok (.nil :: hs)
        | .err e => .err e
        | .panic msg => .panic msg := by
  rw [scanValuesLoop]
  cases hc : t.Column v with
  | none => rfl
  | some val => cases hty : val.Type_ <;> simp [holderOfType, hty]

theorem scanValuesLoop_char (t : SchemaTable) (columns : List String) :
    (scanValuesLoop t columns = .ok (columns.map (slotOf t)) ∧
      ∀ name ∈ columns, ∀ col, t.Column name = some col → holderOfType col.Type_ ≠ none) ∨
    ((∃ e, scanValuesLoop t columns = .err e) ∧
      ∃ name ∈ columns, ∃ col, t.Column name = some col ∧ holderOfType col.Type_ = none) := by
  induction columns with
  | nil => left; simp [scanValuesLoop]
  | cons v rest ih =>
    rw [scanValuesLoop_cons]
    cases hc : t.Column v with
    | none =>
      rcases ih with ⟨hok, hall⟩ | ⟨⟨e, he⟩, name, hmem, col, hcol, hbad⟩
      · left
        refine ⟨by simp [hok, slotOf, hc], ?_⟩
        intro name hmem col hcol
        rcases List.mem_cons.mp hmem with h | h
        · subst h; rw [hc] at hcol; cases hcol
        · exact hall name h col hcol
      · right
        exact ⟨⟨e, by simp [he]⟩, name, List.mem_cons_of_mem _ hmem, col, hcol, hbad⟩
    | some val =>
      cases hh : holderOfType val.Type_ with
      | none =>
        right
        simp only [hh]
        exact ⟨⟨_, rfl⟩, v, List.mem_cons_self _ _, val, hc, hh⟩
      | some h =>
        simp only [hh]
        rcases ih with ⟨hok, hall⟩ | ⟨⟨e, he⟩, name, hmem, col, hcol, hbad⟩
        · left
          refine ⟨by simp [hok, slotOf, hc, hh], ?_⟩
          intro name hmem col hcol
          rcases List.mem_cons.mp hmem with h1 | h1
          · subst h1; rw [hc] at hcol; cases hcol; simp [hh]
          · exact hall name h1 col hcol
        · right
          exact ⟨⟨e, by simp [he]⟩, name, List.mem_cons_of_mem _ hmem, col, hcol, hbad⟩

/-- C7. The holder table of `scanValues` on a table with a descriptor: a
successful call returns one holder per column name, and the holder of a name
that is a column of the table is the one the specification lists for the
column type (nullable bool for Bool, nullable time for Time, byte sequence for
JSON and Bytes, nullable string for UUID and String, nullable int64 for Enum
and every integer width, nullable float64 for the floats, an opaque holder
for Other); the call returns an error exactly when some name is a column of
the table whose type is outside the list, and it never panics. -/
theorem scanValues_holder_table (c : Dent.Table) (t : SchemaTable) (columns : List String)
    (ht : c.Table = some t) :
    (∀ hs, c.scanValues columns = .ok hs →
      hs.length = columns.length ∧
      ∀ (i : Nat) (name : String) (col : Column),
        columns[i]? = some name → t.Column name = some col →
          hs[i]? = holderOfType col.Type_) ∧
    ((∃ e, c.scanValues columns = .err e) ↔
      ∃ name ∈ columns, ∃ col, t.Column name = some col ∧ holderOfType col.Type_ = none) ∧
    (∀ msg, c.scanValues columns ≠ .panic msg) := by
  have hsv : c.scanValues columns = scanValuesLoop t columns := by
    simp [Table.scanValues, ht]
  rw [hsv]
  rcases scanValuesLoop_char t columns with ⟨hok, hall⟩ | ⟨⟨e, he⟩, hbad⟩
  · refine ⟨?_, ?_, ?_⟩
    · intro hs hhs
      rw [hok] at hhs
      cases hhs
      refine ⟨by simp, ?_⟩
      intro i name col hi hcol
      have hmem : name ∈ columns := List.getElem?_mem hi
      have hne := hall name hmem col hcol
      rw [List.getElem?_map, hi]
      cases hh : holderOfType col.Type_ with
      | none => exact absurd hh hne
      | some h => simp [slotOf, hcol, hh]
    · constructor
      · rintro ⟨e, he⟩
        rw [hok] at he
        cases he
      · rintro ⟨name, hmem, col, hcol, hbad⟩
        exact absurd hbad (hall name hmem col hcol)
    · intro msg hm
      rw [hok] at hm
      cases hm
  · refine ⟨?_, ?_, ?_⟩
    · intro hs hhs
      rw [he] at hhs
      cases hhs
    · exact ⟨fun _ => hbad, fun _ => ⟨e, he⟩⟩
    · intro msg hm
      rw [he] at hm
      cases hm

/-- Witness for C7: the table `user(id, username, creator_id)` scanned for
its three columns and one unknown name. -/
theorem scanValues_holder_table_witness :
    let t : SchemaTable := ((NewTable "user").AddColumn { Name := "username", Type_ := .TypeString }).AddColumn
      { Name := "creator_id", Type_ := .TypeInt }
    let c : Dent.Table := { Table := some t, client := { debug := false, tmap := [] } }
    c.scanValues ["id", "username", "creator_id", "nope"]
        = .ok [.NullInt64 0 false, .NullString "" false, .NullInt64 0 false, .nil] ∧
    (∀ hs, c.scanValues ["id", "username", "creator_id", "nope"] = .ok hs → hs.length = 4) := by
  intro t c
  refine ⟨by decide, ?_⟩
  intro hs hhs
  exact ((scanValues_holder_table c t ["id", "username", "creator_id", "nope"] rfl).1 hs hhs).1

@[simp]
theorem Dynamic.Row_setRow (d : Dynamic) (k : String) (v : Value) :
    (d.setRow k v).Row = d.Row.set k v := by
  cases d; rfl

@[simp]
theorem Dynamic.ID_setRow (d : Dynamic) (k : String) (v : Value) :
    (d.setRow k v).ID = d.ID := by
  cases d; rfl

@[simp]
theorem Dynamic.Row_setID (d : Dynamic) (i : Int) : (d.setID i).Row = d.Row := by
  cases d; rfl

@[simp]
theorem Dynamic.ID_setID (d : Dynamic) (i : Int) : (d.setID i).ID = i := by
  cases d; rfl

theorem assignStep_of_ne (d : Dynamic) (v : String) (value : Value) (h : v ≠ FieldID) :
    assignStep d v value = d.setRow v (convOf value) := by
  cases value <;> simp [assignStep, convOf, h]

theorem rowValueOf_convOf (ty : FieldType) (h value : Value)
    (hh : holderOfType ty = some h) (hk : sameKind h value = true) :
    rowValueOf ty value = some (convOf value) := by
  cases ty <;> simp [holderOfType] at hh <;> subst hh <;>
    cases value <;> simp [sameKind] at hk <;> simp [rowValueOf, convOf]

theorem filled_of_scan (t : SchemaTable) (columns : List String) (values : List Value)
    (hk : ∀ (i : Nat) (h : Value), (columns.map (slotOf t))[i]? = some h →
      ∃ v, values[i]? = some v ∧ sameKind h v = true) :
    Filled t columns values := by
  induction columns generalizing values with
  | nil => simp [Filled]
  | cons c cs ih =>
    cases values with
    | nil =>
      obtain ⟨v, hv, _⟩ := hk 0 (slotOf t c) (by simp)
      simp at hv
    | cons v vs =>
      refine ⟨?_, ih vs ?_⟩
      · obtain ⟨v', hv', hs⟩ := hk 0 (slotOf t c) (by simp)
        simp at hv'
        subst hv'
        exact hs
      · intro i h hi
        have := hk (i + 1) h (by simpa using hi)
        simpa using this

theorem assignLoop_spec (t : SchemaTable) (idcol : Column)
    (hid : t.Column FieldID = some idcol) (hint : idcol.Type_.Integer = true)
    (columns : List String) :
    ∀ (d : Dynamic) (values : List Value), Filled t columns values →
      (∀ name ∈ columns, ∀ col, t.Column name = some col → holderOfType col.Type_ ≠ none) →
      (assignLoop d columns values).2 = .ok () ∧
      (assignLoop d columns values).1.Row.get FieldID = d.Row.get FieldID ∧
      (FieldID ∉ columns → (assignLoop d columns values).1.ID = d.ID) ∧
      (∀ name, name ∉ columns → (assignLoop d columns values).1.Row.get name = d.Row.get name) ∧
      (∀ i : Nat, columns[i]? = some FieldID → (∀ j, i < j → columns[j]? ≠ some FieldID) →
        ∃ n valid, values[i]? = some (.NullInt64 n valid) ∧
          (assignLoop d columns values).1.ID = n) ∧
      (∀ (i : Nat) (name : String) (col : Column), columns[i]? = some name → name ≠ FieldID →
        (∀ j, i < j → columns[j]? ≠ some name) → t.Column name = some col →
        ∃ v, values[i]? = some v ∧ rowValueOf col.Type_ v = some (convOf v) ∧
          (assignLoop d columns values).1.Row.get name = some (convOf v)) := by
  have hslotid : slotOf t FieldID = .NullInt64 0 false := by
    have : holderOfType idcol.Type_ = some (.NullInt64 0 false) := by
      cases hty : idcol.Type_ <;> simp [hty, FieldType.Integer] at hint <;> simp [holderOfType]
    simp [slotOf, hid, this]
  induction columns with
  | nil =>
    intro d values _ _
    simp [assignLoop]
  | cons c cs ih =>
    intro d values hf hgood
    cases values with
    | nil => simp [Filled] at hf
    | cons v vs =>
      obtain ⟨hkind, hf'⟩ := hf
      have hgood' : ∀ name ∈ cs, ∀ col, t.Column name = some col → holderOfType col.Type_ ≠ none :=
        fun name hm col hc => hgood name (List.mem_cons_of_mem _ hm) col hc
      obtain ⟨h1, h2, h3, h4, h5, h6⟩ := ih (assignStep d c v) vs hf' hgood'
      have hloop : assignLoop d (c :: cs) (v :: vs) = assignLoop (assignStep d c v) cs vs := rfl
      rw [hloop]
      have notin_of_last : ∀ name : String, (∀ j, 0 < j → (c :: cs)[j]? ≠ some name) → name ∉ cs := by
        intro name hl hm
        obtain ⟨n, hn⟩ := List.getElem?_of_mem hm
        exact hl (n + 1) (Nat.succ_pos n) (by simpa using hn)
      by_cases hc : c = FieldID
      · -- the id column: the holder is a nullable int64 and goes to the ID field
        subst hc
        rw [hslotid] at hkind
        obtain ⟨n, valid, hv⟩ : ∃ n valid, v = Value.NullInt64 n valid := by
          cases v <;> simp [sameKind] at hkind
          exact ⟨_, _, rfl⟩
        subst hv
        have hstep : assignStep d FieldID (.NullInt64 n valid) = d.setID n := by
          simp [assignStep]
        rw [hstep] at h1 h2 h3 h4 h5 h6 ⊢
        refine ⟨h1, by simpa using h2, ?_, ?_, ?_, ?_⟩
        · intro hn; exact absurd (List.mem_cons_self _ _) hn
        · intro name hn
          have := h4 name (fun hm => hn (List.mem_cons_of_mem _ hm))
          simpa using this
        · intro i hi hl
          cases i with
          | zero =>
            refine ⟨n, valid, by simp, ?_⟩
            have := h3 (notin_of_last FieldID hl)
            simpa using this
          | succ k =>
            have hi' : cs[k]? = some FieldID := by simpa using hi
            have hl' : ∀ j, k < j → cs[j]? ≠ some FieldID := by
              intro j hj
              have := hl (j + 1) (Nat.succ_lt_succ hj)
              simpa using this
            obtain ⟨n', valid', hv', hID⟩ := h5 k hi' hl'
            exact ⟨n', valid', by simpa using hv', hID⟩
        · intro i name col hi hne hl hcol
          cases i with
          | zero =>
            simp at hi
            exact absurd hi.symm hne
          | succ k =>
            have hi' : cs[k]? = some name := by simpa using hi
            have hl' : ∀ j, k < j → cs[j]? ≠ some name := by
              intro j hj
              have := hl (j + 1) (Nat.succ_lt_succ hj)
              simpa using this
            obtain ⟨v', hv', hr, hrow⟩ := h6 k name col hi' hne hl' hcol
            exact ⟨v', by simpa using hv', hr, hrow⟩
      · -- any other column: the converted payload goes to the row
        have hstep := assignStep_of_ne d c v hc
        rw [hstep] at h1 h2 h3 h4 h5 h6 ⊢
        refine ⟨h1, ?_, ?_, ?_, ?_, ?_⟩
        · rw [h2]
          simp only [Dynamic.Row_setRow]
          exact GoMap.get_set_other _ _ _ _ (fun e => hc e.symm)
        · intro hn
          have := h3 (fun hm => hn (List.mem_cons_of_mem _ hm))
          simpa using this
        · intro name hn
          have hne : name ≠ c := fun e => hn (e ▸ List.mem_cons_self _ _)
          rw [h4 name (fun hm => hn (List.mem_cons_of_mem _ hm))]
          simp only [Dynamic.Row_setRow]
          exact GoMap.get_set_other _ _ _ _ hne
        · intro i hi hl
          cases i with
          | zero =>
            simp at hi
            exact absurd hi hc
          | succ k =>
            have hi' : cs[k]? = some FieldID := by simpa using hi
            have hl' : ∀ j, k < j → cs[j]? ≠ some FieldID := by
              intro j hj
              have := hl (j + 1) (Nat.succ_lt_succ hj)
              simpa using this
            obtain ⟨n', valid', hv', hID⟩ := h5 k hi' hl'
            exact ⟨n', valid', by simpa using hv', hID⟩
        · intro i name col hi hne hl hcol
          cases i with
          | zero =>
            have hcn : c = name := by simpa using hi
            subst hcn
            refine ⟨v, by simp, ?_, ?_⟩
            · have hg := hgood c (List.mem_cons_self _ _) col hcol
              cases hh : holderOfType col.Type_ with
              | none => exact absurd hh hg
              | some h =>
                have hs : slotOf t c = h := by simp [slotOf, hcol, hh]
                rw [hs] at hkind
                exact rowValueOf_convOf _ _ _ hh hkind
            · rw [h4 c (notin_of_last c hl)]
              simp only [Dynamic.Row_setRow]
              exact GoMap.get_set_self _ _ _
          | succ k =>
            have hi' : cs[k]? = some name := by simpa using hi
            have hl' : ∀ j, k < j → cs[j]? ≠ some name := by
              intro j hj
              have := hl (j + 1) (Nat.succ_lt_succ hj)
              simpa using this
            obtain ⟨v', hv', hr, hrow⟩ := h6 k name col hi' hne hl' hcol
            exact ⟨v', by simpa using hv', hr, hrow⟩

theorem filled_length (t : SchemaTable) (columns : List String) :
    ∀ values : List Value, Filled t columns values → columns.length ≤ values.length := by
  induction columns with
  | nil => intro values _; simp
  | cons c cs ih =>
    intro values hf
    cases values with
    | nil => simp [Filled] at hf
    | cons v vs => simpa using ih vs hf.2

/-- C8. `assignValues` on holders that `scanValues` allocated for a table whose
`id` column is integer typed (the list `values` may be longer than the column
list, and a scan may have written any payload): the call succeeds, the ID of
the entity is the integer of the holder of the last `id` column, the key `id`
of the row is not written (so it is absent afterwards when it was absent
before), and for every other name that is a column of the table the row maps
it to the payload of its last holder, converted as the specification lists
for the column type. With fewer holders than columns the call returns an
error and the entity is unchanged. -/
theorem assignValues_spec (d : Dynamic) (c : Dent.Table) (t : SchemaTable) (idcol : Column)
    (columns : List String) (values hs : List Value)
    (ht : c.Table = some t) (hid : t.Column FieldID = some idcol)
    (hint : idcol.Type_.Integer = true) :
    (c.scanValues columns = .ok hs →
      (∀ (i : Nat) (h : Value), hs[i]? = some h →
        ∃ v, values[i]? = some v ∧ sameKind h v = true) →
      (d.assignValues columns values).2 = .ok () ∧
      (d.assignValues columns values).1.Row.get FieldID = d.Row.get FieldID ∧
      (d.Row.has FieldID = false → (d.assignValues columns values).1.Row.has FieldID = false) ∧
      (∀ i : Nat, columns[i]? = some FieldID → (∀ j, i < j → columns[j]? ≠ some FieldID) →
        ∃ n valid, values[i]? = some (.NullInt64 n valid) ∧
          (d.assignValues columns values).1.ID = n) ∧
      (∀ (i : Nat) (name : String) (col : Column), columns[i]? = some name → name ≠ FieldID →
        (∀ j, i < j → columns[j]? ≠ some name) → t.Column name = some col →
        ∃ v, values[i]? = some v ∧ (rowValueOf col.Type_ v).isSome = true ∧
          (d.assignValues columns values).1.Row.get name = rowValueOf col.Type_ v)) ∧
    (values.length < columns.length →
      (∃ e, (d.assignValues columns values).2 = .err e) ∧
        (d.assignValues columns values).1 = d) := by
  constructor
  · intro hscan hkind
    have hsv : c.scanValues columns = scanValuesLoop t columns := by
      simp [Table.scanValues, ht]
    rw [hsv] at hscan
    rcases scanValuesLoop_char t columns with ⟨hok, hall⟩ | ⟨⟨e, he⟩, _⟩
    · rw [hok] at hscan
      cases hscan
      have hf : Filled t columns values := filled_of_scan t columns values hkind
      have hlen := filled_length t columns values hf
      have hav : d.assignValues columns values = assignLoop d columns values := by
        simp [Dynamic.assignValues, Nat.not_lt.mpr hlen]
      rw [hav]
      obtain ⟨h1, h2, _, _, h5, h6⟩ := assignLoop_spec t idcol hid hint columns d values hf hall
      refine ⟨h1, h2, ?_, h5, ?_⟩
      · intro hno
        simp only [GoMap.has] at hno ⊢
        rw [h2]; exact hno
      · intro i name col hi hne hl hcol
        obtain ⟨v, hv, hr, hrow⟩ := h6 i name col hi hne hl hcol
        exact ⟨v, hv, by simp [hr], by rw [hrow, hr]⟩
    · rw [he] at hscan
      cases hscan
  · intro hlt
    simp [Dynamic.assignValues, hlt]

/-- Witness for C8: a row of `user(id, username, creator_id)` scanned into the
fresh entity of the query loop. -/
theorem assignValues_spec_witness :
    let t : SchemaTable := ((NewTable "user").AddColumn { Name := "username", Type_ := .TypeString }).AddColumn
      { Name := "creator_id", Type_ := .TypeInt }
    let c : Dent.Table := { Table := some t, client := { debug := false, tmap := [] } }
    let d : Dynamic := .mk c 0 [] [] []
    let columns := ["id", "username", "creator_id"]
    let values : List Value := [.NullInt64 7 true, .NullString "ann" true, .NullInt64 0 false]
    (d.assignValues columns values).2 = .ok () ∧
    (d.assignValues columns values).1.Row.has FieldID = false ∧
    (d.assignValues columns values).1 = .mk c 7 [("username", .string "ann"), ("creator_id", .int64 0)] [] [] ∧
    (d.assignValues columns [.NullInt64 7 true]).1 = d := by
  intro t c d columns values
  have h := assignValues_spec d c t { Name := FieldID, Type_ := .TypeInt, Increment := true }
    columns values [.NullInt64 0 false, .NullString "" false, .NullInt64 0 false] rfl
    (by decide) (by decide)
  have h1 := h.1 (by decide) (by
    intro i hh hi
    match i, hi with
    | 0, hi => simp at hi; subst hi; exact ⟨_, rfl, rfl⟩
    | 1, hi => simp at hi; subst hi; exact ⟨_, rfl, rfl⟩
    | 2, hi => simp at hi; subst hi; exact ⟨_, rfl, rfl⟩
    | n + 3, hi => simp at hi)
  have h2 := (assignValues_spec d c t { Name := FieldID, Type_ := .TypeInt, Increment := true }
    columns [.NullInt64 7 true] [] rfl (by decide) (by decide)).2 (by decide)
  exact ⟨h1.1, h1.2.2.1 rfl, rfl, h2.2⟩

/-! ## The mutation record -/

/-- `SetValue` on a mutation whose table has a descriptor and whose `data` is
an allocated map, as every map of the model is: for a name that is not a
column the mutation is returned unchanged and the call ends normally; for a
column the call ends normally, `Value` then reports the field as present
holding (a pointer to) the value, no other key of `data` changes and every
other field of the mutation is unchanged. -/
theorem SetValue_spec (m : DynamicMutation) (t : SchemaTable) (c : String) (v : Value)
    (ht : m.table.Table = some t) :
    (t.HasColumn c = false → m.SetValue c v = (m, .ok ())) ∧
    (t.HasColumn c = true →
      (m.SetValue c v).2 = .ok () ∧
      (m.SetValue c v).1.Value c = some (.ifacePtr v) ∧
      (∀ k, k ≠ c → (m.SetValue c v).1.data.get k = m.data.get k) ∧
      (m.SetValue c v).1 = { m with data := (m.SetValue c v).1.data }) := by
  constructor
  · intro h
    simp [DynamicMutation.SetValue, ht, h]
  · intro h
    have e : m.SetValue c v = ({ m with data := m.data.set c (.ifacePtr v) }, .ok ()) := by
      simp [DynamicMutation.SetValue, ht, h]
    rw [e]
    refine ⟨rfl, GoMap.get_set_self _ _ _, ?_, rfl⟩
    intro k hk
    exact GoMap.get_set_other _ _ _ _ hk

/-- The update mutation of `test_aaa(id, field1)`, whose `data` is the map
that `newDynamicMutation` allocated: `SetValue` with a column name and with a
name that is not a column. -/
theorem SetValue_spec_witness :
    let t : SchemaTable := (NewTable "test_aaa").AddColumn { Name := "field1", Type_ := .TypeInt }
    let m : DynamicMutation :=
      newDynamicMutation { Table := some t, client := { debug := false, tmap := [] } } .OpUpdate
    m.SetValue "nope" (.int 1) = (m, .ok ()) ∧
    (m.SetValue "field1" (.int 4)).1.Value "field1" = some (.ifacePtr (.int 4)) := by
  intro t m
  have h := SetValue_spec m t
  exact ⟨(h "nope" (.int 1) rfl).1 (by decide), ((h "field1" (.int 4) rfl).2 (by decide)).2.1⟩

theorem AddValue_on_int_entry (m : DynamicMutation) (t : SchemaTable) (col : Column)
    (c : String) (e d : Int) (ht : m.table.Table = some t) (hc : t.Column c = some col)
    (hi : col.Type_.Integer = true) (hd : m.data.get c = some (.int e)) :
    m.AddValue c d = ({ m with data := m.data.set c (.int (wrapInt (e + d))) }, .ok ()) := by
  simp [DynamicMutation.AddValue, ht, hc, hi, hd]

theorem AddValue_other_column_noop (m : DynamicMutation) (t : SchemaTable) (c : String) (d : Int)
    (ht : m.table.Table = some t)
    (hc : ∀ col, t.Column c = some col → col.Type_.Integer = false) :
    m.AddValue c d = (m, .ok ()) := by
  cases hcol : t.Column c with
  | none => simp [DynamicMutation.AddValue, ht, hcol]
  | some col => simp [DynamicMutation.AddValue, ht, hcol, hc col hcol]

/-- C10. `AddValue` on an integer column that has no entry in `data` (the case
the claim gives the result `0 + d`): the method stores the delta and then
panics in the type assertion on the missing value, so no call returns. -/
theorem AddValue_missing_entry_panics (m : DynamicMutation) (t : SchemaTable) (col : Column)
    (c : String) (d : Int) (ht : m.table.Table = some t) (hc : t.Column c = some col)
    (hi : col.Type_.Integer = true) (hd : m.data.get c = none) :
    (m.AddValue c d).2 = .panic badAssert ∧
    (m.AddValue c d).1.data.get c = some (.int d) := by
  simp [DynamicMutation.AddValue, ht, hc, hi, hd, GoMap.get_set_self]

/-- Witness for C10: `Update().AddValue("field1", 5)` on `test_aaa(id, field1)`. -/
theorem AddValue_missing_entry_panics_witness :
    let t : SchemaTable := (NewTable "test_aaa").AddColumn { Name := "field1", Type_ := .TypeInt }
    let m : DynamicMutation :=
      newDynamicMutation { Table := some t, client := { debug := false, tmap := [] } } .OpUpdate
    (m.AddValue "field1" 5).2 = .panic badAssert ∧
    (m.AddValue "field1" 5).1.data.get "field1" = some (.int 5) := by
  intro t m
  exact AddValue_missing_entry_panics m t { Name := "field1", Type_ := .TypeInt } "field1" 5
    rfl (by decide) (by decide) (by decide)

/-! ## The query builder -/

@[simp]
theorem DynamicQuery.limit_Limit (dq : DynamicQuery) (n : Int) : (dq.Limit n).limit = some n := by
  cases dq; rfl

@[simp]
theorem DynamicQuery.table_Limit (dq : DynamicQuery) (n : Int) : (dq.Limit n).table = dq.table := by
  cases dq; rfl

@[simp]
theorem DynamicQuery.limit_setSql (dq : DynamicQuery) (s : Option Selector) :
    (dq.setSql s).limit = dq.limit := by
  cases dq; rfl

@[simp]
theorem DynamicQuery.table_setSql (dq : DynamicQuery) (s : Option Selector) :
    (dq.setSql s).table = dq.table := by
  cases dq; rfl

@[simp]
theorem DynamicQuery.withData_setSql (dq : DynamicQuery) (s : Option Selector) :
    (dq.setSql s).withData = dq.withData := by
  cases dq; rfl

@[simp]
theorem DynamicQuery.limit_setWithData (dq : DynamicQuery) (w : WithDataMap) :
    (dq.setWithData w).limit = dq.limit := by
  cases dq; rfl

@[simp]
theorem DynamicQuery.table_setWithData (dq : DynamicQuery) (w : WithDataMap) :
    (dq.setWithData w).table = dq.table := by
  cases dq; rfl

@[simp]
theorem DynamicQuery.withData_setWithData (dq : DynamicQuery) (w : WithDataMap) :
    (dq.setWithData w).withData = w := by
  cases dq; rfl

@[simp]
theorem DynamicQuery.withData_Where (dq : DynamicQuery) (ps : List PredicateDynamic) :
    (dq.Where ps).withData = dq.withData := by
  cases dq; rfl

@[simp]
theorem DynamicQuery.table_Where (dq : DynamicQuery) (ps : List PredicateDynamic) :
    (dq.Where ps).table = dq.table := by
  cases dq; rfl

@[simp]
theorem DynamicQuery.predicates_Where (dq : DynamicQuery) (ps : List PredicateDynamic) :
    (dq.Where ps).predicates = dq.predicates ++ ps := by
  cases dq; rfl

theorem DynamicQuery.prepareQuery_frame (dq : DynamicQuery) :
    dq.prepareQuery.1.limit = dq.limit ∧ dq.prepareQuery.1.table = dq.table ∧
    dq.prepareQuery.1.withData = dq.withData := by
  unfold DynamicQuery.prepareQuery
  cases prepareFields dq.table dq.fields with
  | err e => exact ⟨rfl, rfl, rfl⟩
  | panic msg => exact ⟨rfl, rfl, rfl⟩
  | ok u =>
    cases hp : dq.path with
    | none => exact ⟨rfl, rfl, rfl⟩
    | some r =>
      cases r with
      | ok prev => simp
      | err e => exact ⟨rfl, rfl, rfl⟩
      | panic msg => exact ⟨rfl, rfl, rfl⟩

theorem DynamicQuery.All_eq_AllWith (drv : Driver) (dq : DynamicQuery) :
    dq.AllWith drv (loadEdges drv dq.withData) = dq.All drv := by
  unfold DynamicQuery.AllWith DynamicQuery.All DynamicQuery.sqlAll
  have h := (DynamicQuery.prepareQuery_frame dq).2.2
  rcases hq : dq.prepareQuery with ⟨dq1, out⟩
  rw [hq] at h
  simp only at h
  cases out with
  | ok u => simp only [h]
  | err e => rfl
  | panic msg => rfl

theorem DynamicQuery.querySpec_Limit (dq : DynamicQuery) (spec : QuerySpec) (l : Int)
    (hl : dq.limit = some l) (h : dq.querySpec = .ok spec) : spec.Limit = l := by
  unfold DynamicQuery.querySpec at h
  cases ht : dq.table.Table with
  | none => simp [ht] at h
  | some t =>
    simp only [ht, hl] at h
    cases h
    cases dq.offset <;> cases dq.unique <;> simp <;> split <;> rfl

theorem DynamicQuery.sqlAll_frame (drv : Driver) (dq : DynamicQuery) :
    (dq.sqlAll drv).state.limit = dq.limit ∧ (dq.sqlAll drv).state.table = dq.table ∧
    (∀ spec, (dq.sqlAll drv).log.head? = some spec → dq.querySpec = .ok spec) := by
  unfold DynamicQuery.sqlAll DynamicQuery.sqlAllWith
  cases hs : dq.querySpec with
  | err e => simp
  | panic msg => simp
  | ok spec =>
    cases hn : QueryNodes drv spec dq.table with
    | err e => simp [hn]
    | panic msg => simp [hn]
    | ok nodes =>
      by_cases hlen : nodes.length = 0
      · simp [hn, hlen]
      · simp [hn, hlen]

theorem DynamicQuery.All_frame (drv : Driver) (dq : DynamicQuery) :
    (dq.All drv).state.limit = dq.limit ∧ (dq.All drv).state.table = dq.table := by
  have hp := DynamicQuery.prepareQuery_frame dq
  unfold DynamicQuery.All
  rcases hq : dq.prepareQuery with ⟨dq1, out⟩
  rw [hq] at hp
  simp only at hp
  have hs := DynamicQuery.sqlAll_frame drv dq1
  cases out with
  | ok u => exact ⟨hs.1.trans hp.1, hs.2.1.trans hp.2.1⟩
  | err e => exact ⟨hp.1, hp.2.1⟩
  | panic msg => exact ⟨hp.1, hp.2.1⟩

theorem DynamicQuery.All_log_Limit (drv : Driver) (dq : DynamicQuery) (l : Int)
    (hl : dq.limit = some l) (spec : QuerySpec) (h : (dq.All drv).log.head? = some spec) :
    spec.Limit = l := by
  have hp := DynamicQuery.prepareQuery_frame dq
  unfold DynamicQuery.All at h
  rcases hq : dq.prepareQuery with ⟨dq1, out⟩
  rw [hq] at hp h
  simp only at hp
  cases out with
  | ok u =>
    simp only at h
    exact DynamicQuery.querySpec_Limit dq1 spec l (hp.1.trans hl)
      ((DynamicQuery.sqlAll_frame drv dq1).2.2 spec h)
  | err e => simp at h
  | panic msg => simp at h

/-- C2. `Only` sets the limit to 2 whatever limit was set before, runs `All`
on the builder so limited (the primary query it dispatches asks the driver
for 2 rows) and leaves the builder as that run leaves it; an error of the run
is returned unchanged; an empty result gives NotFound and a result of two or
more rows NotSingular, both carrying the table name; a result of exactly one
row gives that row. -/
theorem Only_spec (drv : Driver) (dq : DynamicQuery) :
    (dq.Limit 2).limit = some 2 ∧
    (dq.Only drv).state = ((dq.Limit 2).All drv).state ∧
    (dq.Only drv).log = ((dq.Limit 2).All drv).log ∧
    (dq.Only drv).state.limit = some 2 ∧
    (∀ spec, ((dq.Limit 2).All drv).log.head? = some spec → spec.Limit = 2) ∧
    (∀ e, ((dq.Limit 2).All drv).out = .err e → (dq.Only drv).out = .err e) ∧
    (∀ n, ((dq.Limit 2).All drv).out = .ok [n] → (dq.Only drv).out = .ok n) ∧
    (∀ t, dq.table.Table = some t →
      (((dq.Limit 2).All drv).out = .ok [] → (dq.Only drv).out = .err (.NotFoundError t.Name)) ∧
      (∀ nodes, ((dq.Limit 2).All drv).out = .ok nodes → 2 ≤ nodes.length →
        (dq.Only drv).out = .err (.NotSingularError t.Name))) := by
  have hf := DynamicQuery.All_frame drv (dq.Limit 2)
  have hsl : (dq.Only drv).state = ((dq.Limit 2).All drv).state ∧
      (dq.Only drv).log = ((dq.Limit 2).All drv).log := by
    rcases h : ((dq.Limit 2).All drv).out with nodes | e | msg
    · rcases nodes with _ | ⟨n, _ | ⟨n2, rest⟩⟩
      · simp only [DynamicQuery.Only, h]
        split <;> exact ⟨rfl, rfl⟩
      · simp [DynamicQuery.Only, h]
      · simp only [DynamicQuery.Only, h]
        split <;> exact ⟨rfl, rfl⟩
    · simp [DynamicQuery.Only, h]
    · simp [DynamicQuery.Only, h]
  have hstate := hsl.1
  have hlog := hsl.2
  refine ⟨by simp, hstate, hlog, ?_, ?_, ?_, ?_, ?_⟩
  · rw [hstate, hf.1]; simp
  · intro spec h
    exact DynamicQuery.All_log_Limit drv (dq.Limit 2) 2 (by simp) spec h
  · intro e he
    unfold DynamicQuery.Only
    simp only [he]
  · intro n hn
    unfold DynamicQuery.Only
    simp only [hn]
  · intro t ht
    have htab : ((dq.Limit 2).All drv).state.table.Table = some t := by
      rw [hf.2]; simpa using ht
    constructor
    · intro h0
      unfold DynamicQuery.Only
      simp only [h0, htab]
    · intro nodes hn hlen
      unfold DynamicQuery.Only
      match nodes, hlen with
      | _ :: _ :: _, _ => simp only [hn, htab]

/-- Witness for C2: scenario S4, `Only` on `test_aaa` when two rows match. -/
theorem Only_spec_witness :
    ((testClient.Table "test_aaa").Query.Only driverTwoRows).out
        = .err (.NotSingularError "test_aaa") ∧
    ((testClient.Table "test_aaa").Query.Only driverTwoRows).state.limit = some 2 := by
  have h := Only_spec driverTwoRows (testClient.Table "test_aaa").Query
  refine ⟨?_, h.2.2.2.1⟩
  exact (h.2.2.2.2.2.2.2 tableTestAAA rfl).2
    [.mk (testClient.Table "test_aaa") 2 [("field1", .int64 1), ("field2", .int64 2)] [] [],
     .mk (testClient.Table "test_aaa") 3 [("field1", .int64 1), ("field2", .int64 5)] [] []]
    rfl (by decide)

/-- C3, counterexample. On `test_aaa`, which has no column `nonexistent`,
`Query().Where(IntEQ("nonexistent", 1)).All()` passes query preparation and
dispatches the query with the predicate to the driver; what it returns is the
error of the database, not a Validation error raised before dispatch. -/
theorem All_unknown_predicate_column_counterexample :
    tableTestAAA.HasColumn "nonexistent" = false ∧
    ((((testClient.Table "test_aaa").Query.Where [IntEQ "nonexistent" 1]).All
        driverUnknownColumn).log.map
      (fun spec => (spec.Table, spec.Predicate.map (fun p => (p (blankSelector spec.Table)).where_))))
      = [("test_aaa", some (some (.EQ "test_aaa.nonexistent" (.int 1))))] ∧
    (((testClient.Table "test_aaa").Query.Where [IntEQ "nonexistent" 1]).All
        driverUnknownColumn).out
      = .err (.driver "Error 1054: Unknown column 'nonexistent' in 'where clause'") ∧
    ¬ ∃ name e, (((testClient.Table "test_aaa").Query.Where [IntEQ "nonexistent" 1]).All
        driverUnknownColumn).out = .err (.ValidationError name e) := by
  refine ⟨by decide, by rfl, by rfl, ?_⟩
  rintro ⟨name, e, h⟩
  have h2 : (((testClient.Table "test_aaa").Query.Where [IntEQ "nonexistent" 1]).All
        driverUnknownColumn).out
      = .err (.driver "Error 1054: Unknown column 'nonexistent' in 'where clause'") := rfl
  rw [h2] at h
  cases h

/-- C3, amended. For every table with a descriptor, every name `c` (a column
or not), every value and every driver, `Query().Where(IntEQ(c, v)).All()`
passes query preparation unchanged, builds a query specification whose
predicate is the comparison on `c`, dispatches it to the driver first, and
returns the error of the driver unchanged when the driver rejects it. -/
theorem All_predicate_column_not_validated (c : Dent.Table) (t : SchemaTable)
    (col : String) (v : Int) (drv : Driver) (ht : c.Table = some t) :
    (c.Query.Where [IntEQ col v]).prepareQuery = (c.Query.Where [IntEQ col v], .ok ()) ∧
    ∃ spec, (c.Query.Where [IntEQ col v]).querySpec = .ok spec ∧
      spec.Table = t.Name ∧
      spec.Predicate.map (fun p => (p (blankSelector t.Name)).where_)
        = some (some (.EQ (t.Name ++ "." ++ col) (.int v))) ∧
      ((c.Query.Where [IntEQ col v]).All drv).log.head? = some spec ∧
      (∀ e, drv spec = .error e → ((c.Query.Where [IntEQ col v]).All drv).out = .err e) := by
  have hprep : (c.Query.Where [IntEQ col v]).prepareQuery
      = (c.Query.Where [IntEQ col v], .ok ()) := rfl
  refine ⟨hprep, ?_⟩
  have hspec : ∃ spec, (c.Query.Where [IntEQ col v]).querySpec = .ok spec ∧
      spec.Table = t.Name ∧
      spec.Predicate.map (fun p => (p (blankSelector t.Name)).where_)
        = some (some (.EQ (t.Name ++ "." ++ col) (.int v))) := by
    simp [DynamicQuery.querySpec, Table.Query, DynamicQuery.Where, DynamicQuery.table,
      DynamicQuery.unique, DynamicQuery.fields, DynamicQuery.predicates, DynamicQuery.limit,
      DynamicQuery.offset, DynamicQuery.order, ht, IntEQ, Selector.Where, Selector.C,
      blankSelector]
  obtain ⟨spec, hs, h1, h2⟩ := hspec
  refine ⟨spec, hs, h1, h2, ?_, ?_⟩
  · simp only [DynamicQuery.All, hprep, DynamicQuery.sqlAll, DynamicQuery.sqlAllWith, hs]
    cases hn : QueryNodes drv spec (c.Query.Where [IntEQ col v]).table with
    | err e => rfl
    | panic msg => rfl
    | ok nodes =>
      by_cases hlen : nodes.length = 0
      · simp [hlen]
      · simp [hlen]
  · intro e he
    simp only [DynamicQuery.All, hprep, DynamicQuery.sqlAll, DynamicQuery.sqlAllWith, hs]
    simp [QueryNodes, he]

/-- Witness for C3, amended: the query of scenario S5 against a database that
rejects the unknown column. -/
theorem All_predicate_column_not_validated_witness :
    (((testClient.Table "test_aaa").Query.Where [IntEQ "nonexistent" 1]).All
        driverUnknownColumn).log.length = 1 ∧
    ∃ spec, ((testClient.Table "test_aaa").Query.Where [IntEQ "nonexistent" 1]).querySpec
        = .ok spec ∧ spec.Table = "test_aaa" := by
  obtain ⟨_, spec, hs, ht, _, _, _⟩ := All_predicate_column_not_validated
    (testClient.Table "test_aaa") tableTestAAA "nonexistent" 1 driverUnknownColumn rfl
  exact ⟨rfl, spec, hs, ht⟩

/-! ## The eager loader -/

theorem length_updateAt (f : Dynamic → Dynamic) :
    ∀ (nodes : List Dynamic) (i : Nat), (updateAt nodes i f).length = nodes.length := by
  intro nodes
  induction nodes with
  | nil => intro i; rfl
  | cons n rest ih =>
    intro i
    cases i with
    | zero => rfl
    | succ k => simp [updateAt, ih]

theorem getElem?_updateAt (f : Dynamic → Dynamic) :
    ∀ (nodes : List Dynamic) (i j : Nat),
      (updateAt nodes i f)[j]? = if j = i then (nodes[j]?).map f else nodes[j]? := by
  intro nodes
  induction nodes with
  | nil => intro i j; simp [updateAt]
  | cons n rest ih =>
    intro i j
    cases i with
    | zero =>
      cases j with
      | zero => simp [updateAt]
      | succ m => simp [updateAt]
    | succ k =>
      cases j with
      | zero => simp [updateAt]
      | succ m => simp [updateAt, ih]

@[simp]
theorem Dynamic.ID_setSingle (d : Dynamic) (k : String) (n : Dynamic) :
    (d.setSingle k n).ID = d.ID := by
  cases d; rfl

@[simp]
theorem Dynamic.Row_setSingle (d : Dynamic) (k : String) (n : Dynamic) :
    (d.setSingle k n).Row = d.Row := by
  cases d; rfl

@[simp]
theorem Dynamic.ListMap_setSingle (d : Dynamic) (k : String) (n : Dynamic) :
    (d.setSingle k n).ListMap = d.ListMap := by
  cases d; rfl

@[simp]
theorem Dynamic.SingleMap_setSingle (d : Dynamic) (k : String) (n : Dynamic) :
    (d.setSingle k n).SingleMap = d.SingleMap.set k n := by
  cases d; rfl

@[simp]
theorem Dynamic.ID_appendList (d : Dynamic) (k : String) (n : Dynamic) :
    (d.appendList k n).ID = d.ID := by
  cases d; rfl

@[simp]
theorem Dynamic.Row_appendList (d : Dynamic) (k : String) (n : Dynamic) :
    (d.appendList k n).Row = d.Row := by
  cases d; rfl

@[simp]
theorem Dynamic.SingleMap_appendList (d : Dynamic) (k : String) (n : Dynamic) :
    (d.appendList k n).SingleMap = d.SingleMap := by
  cases d; rfl

@[simp]
theorem Dynamic.ListMap_appendList (d : Dynamic) (k : String) (n : Dynamic) :
    (d.appendList k n).ListMap = d.ListMap.set k (((d.ListMap.get k).getD []) ++ [n]) := by
  cases d; rfl

@[simp]
theorem Dynamic.SingleMap_setRow (d : Dynamic) (k : String) (v : Value) :
    (d.setRow k v).SingleMap = d.SingleMap := by
  cases d; rfl

@[simp]
theorem Dynamic.ListMap_setRow (d : Dynamic) (k : String) (v : Value) :
    (d.setRow k v).ListMap = d.ListMap := by
  cases d; rfl

@[simp]
theorem Dynamic.SingleMap_setID (d : Dynamic) (i : Int) : (d.setID i).SingleMap = d.SingleMap := by
  cases d; rfl

@[simp]
theorem Dynamic.ListMap_setID (d : Dynamic) (i : Int) : (d.setID i).ListMap = d.ListMap := by
  cases d; rfl

theorem GoMap.get_set {κ ν : Type} [DecidableEq κ] (m : GoMap κ ν) (k k' : κ) (v : ν) :
    (m.set k v).get k' = if k' = k then some v else m.get k' := by
  by_cases h : k' = k
  · subst h; simp [GoMap.get_set_self]
  · simp [h, GoMap.get_set_other _ _ _ _ h]

theorem assignStep_edges (d : Dynamic) (v : String) (value : Value) :
    (assignStep d v value).SingleMap = d.SingleMap ∧
    (assignStep d v value).ListMap = d.ListMap := by
  cases value <;> simp only [assignStep] <;> (try split) <;> simp

theorem assignLoop_edges :
    ∀ (columns : List String) (d : Dynamic) (values : List Value),
      (assignLoop d columns values).1.SingleMap = d.SingleMap ∧
      (assignLoop d columns values).1.ListMap = d.ListMap := by
  intro columns
  induction columns with
  | nil => intro d values; simp [assignLoop]
  | cons c cs ih =>
    intro d values
    cases values with
    | nil => simp [assignLoop]
    | cons v vs =>
      have h := ih (assignStep d c v) vs
      have e := assignStep_edges d c v
      simp only [assignLoop]
      exact ⟨h.1.trans e.1, h.2.trans e.2⟩

theorem assignValues_edges (d : Dynamic) (columns : List String) (values : List Value) :
    (d.assignValues columns values).1.SingleMap = d.SingleMap ∧
    (d.assignValues columns values).1.ListMap = d.ListMap := by
  unfold Dynamic.assignValues
  split
  · exact ⟨rfl, rfl⟩
  · exact assignLoop_edges columns d values

theorem assignRows_fresh (table : Dent.Table) (columns : List String) :
    ∀ (rows : List (List Value)) (nodes nodes' : List Dynamic),
      assignRows table columns rows nodes = .ok nodes' →
      (∀ p ∈ nodes, p.SingleMap = [] ∧ p.ListMap = []) →
      ∀ p ∈ nodes', p.SingleMap = [] ∧ p.ListMap = [] := by
  intro rows
  induction rows with
  | nil =>
    intro nodes nodes' h hn
    simp [assignRows] at h
    subst h
    exact hn
  | cons values rows ih =>
    intro nodes nodes' h hn
    simp only [assignRows] at h
    cases hs : table.scanValues columns with
    | err e => simp [hs] at h
    | panic msg => simp [hs] at h
    | ok hsv =>
      simp only [hs] at h
      cases ha : ((Dynamic.mk table 0 [] [] []).assignValues columns values).2 with
      | err e => simp [ha] at h
      | panic msg => simp [ha] at h
      | ok u =>
        simp only [ha] at h
        refine ih _ nodes' h ?_
        intro p hp
        rcases List.mem_append.mp hp with h1 | h1
        · exact hn p h1
        · have hp1 : p = ((Dynamic.mk table 0 [] [] []).assignValues columns values).1 := by
            simpa using h1
          subst hp1
          have e := assignValues_edges (Dynamic.mk table 0 [] [] []) columns values
          exact ⟨e.1, e.2⟩

theorem primary_fresh (drv : Driver) (dq : DynamicQuery) (nodes0 : List Dynamic)
    (h : dq.primary drv = .ok nodes0) :
    ∀ p ∈ nodes0, p.SingleMap = [] ∧ p.ListMap = [] := by
  unfold DynamicQuery.primary at h
  rcases hq : dq.prepareQuery with ⟨dq1, out⟩
  rw [hq] at h
  cases out with
  | err e => simp at h
  | panic msg => simp at h
  | ok u =>
    simp only at h
    cases hs : dq1.querySpec with
    | err e => simp [hs] at h
    | panic msg => simp [hs] at h
    | ok spec =>
      simp only [hs, QueryNodes] at h
      cases hd : drv spec with
      | error e => simp [hd] at h
      | ok rows =>
        simp only [hd] at h
        exact assignRows_fresh _ _ _ _ _ h (by simp)

theorem lastMatch_eq (P : Dynamic → Prop) [DecidablePred P] :
    ∀ (children : List Dynamic) (init : Option Dynamic),
      lastMatch P children init =
        match (children.filter (fun c => decide (P c))).getLast? with
        | some c => some c
        | none => init := by
  intro children
  induction children with
  | nil => intro init; simp [lastMatch]
  | cons n rest ih =>
    intro init
    have hstep : lastMatch P (n :: rest) init
        = lastMatch P rest (if P n then some n else init) := rfl
    rw [hstep, ih]
    by_cases hn : P n
    · simp only [hn, if_true, List.filter_cons, decide_True, List.getLast?_cons]
      cases (List.filter (fun c => decide (P c)) rest).getLast? <;> rfl
    · simp [hn, List.filter_cons]

theorem lastMatch_congr (P Q : Dynamic → Prop) [DecidablePred P] [DecidablePred Q]
    (children : List Dynamic) (init : Option Dynamic) (h : ∀ c ∈ children, (P c ↔ Q c)) :
    lastMatch P children init = lastMatch Q children init := by
  induction children generalizing init with
  | nil => rfl
  | cons n rest ih =>
    have h1 : lastMatch P (n :: rest) init
        = lastMatch P rest (if P n then some n else init) := rfl
    have h2 : lastMatch Q (n :: rest) init
        = lastMatch Q rest (if Q n then some n else init) := rfl
    rw [h1, h2, ih _ (fun c hc => h c (List.mem_cons_of_mem _ hc))]
    have hn := h n (List.mem_cons_self _ _)
    by_cases hp : P n
    · simp [hp, hn.mp hp]
    · have hq : ¬ Q n := fun hq => hp (hn.mpr hq)
      simp [hp, hq]

theorem foldl_setSingle (key : String) (n : Dynamic) :
    ∀ (idxs : List Nat) (nodes : List Dynamic),
      (idxs.foldl (fun ns i => updateAt ns i (fun p => p.setSingle key n)) nodes).length
        = nodes.length ∧
      ∀ (j : Nat) (p : Dynamic), nodes[j]? = some p →
        ∃ p1, (idxs.foldl (fun ns i => updateAt ns i (fun p => p.setSingle key n)) nodes)[j]?
            = some p1 ∧
          p1.ID = p.ID ∧ p1.Row = p.Row ∧ p1.ListMap = p.ListMap ∧
          (∀ k, k ≠ key → p1.SingleMap.get k = p.SingleMap.get k) ∧
          p1.SingleMap.get key = if j ∈ idxs then some n else p.SingleMap.get key := by
  intro idxs
  induction idxs with
  | nil =>
    intro nodes
    refine ⟨rfl, ?_⟩
    intro j p hj
    exact ⟨p, hj, rfl, rfl, rfl, fun _ _ => rfl, by simp⟩
  | cons i rest ih =>
    intro nodes
    obtain ⟨hlen, hall⟩ := ih (updateAt nodes i (fun p => p.setSingle key n))
    refine ⟨by simpa [length_updateAt] using hlen, ?_⟩
    intro j p hj
    have hu := getElem?_updateAt (fun p => p.setSingle key n) nodes i j
    by_cases hji : j = i
    · rw [if_pos hji, hj] at hu
      obtain ⟨p1, h1, hid, hrow, hlm, hoth, hkey⟩ := hall j (p.setSingle key n) hu
      refine ⟨p1, h1, by simpa using hid, by simpa using hrow, by simpa using hlm, ?_, ?_⟩
      · intro k hk
        rw [hoth k hk]
        simp [GoMap.get_set_other _ _ _ _ hk]
      · rw [hkey]
        simp [hji, GoMap.get_set_self]
    · rw [if_neg hji, hj] at hu
      obtain ⟨p1, h1, hid, hrow, hlm, hoth, hkey⟩ := hall j p hu
      refine ⟨p1, h1, hid, hrow, hlm, hoth, ?_⟩
      rw [hkey]
      simp [hji]

theorem attachSingle_spec (key : String) (nodeids : GoMap Int (List Nat)) :
    ∀ (children nodes nodes' : List Dynamic),
      attachSingle key nodeids children nodes = .ok nodes' →
      (∀ c ∈ children, (nodeids.get c.ID).isSome = true) ∧
      nodes'.length = nodes.length ∧
      ∀ (j : Nat) (p : Dynamic), nodes[j]? = some p →
        ∃ p', nodes'[j]? = some p' ∧
          p'.ID = p.ID ∧ p'.Row = p.Row ∧ p'.ListMap = p.ListMap ∧
          (∀ k, k ≠ key → p'.SingleMap.get k = p.SingleMap.get k) ∧
          p'.SingleMap.get key =
            lastMatch (fun c => j ∈ (nodeids.get c.ID).getD []) children (p.SingleMap.get key) := by
  intro children
  induction children with
  | nil =>
    intro nodes nodes' h
    simp [attachSingle] at h
    subst h
    refine ⟨by simp, rfl, ?_⟩
    intro j p hj
    exact ⟨p, hj, rfl, rfl, rfl, fun _ _ => rfl, rfl⟩
  | cons n rest ih =>
    intro nodes nodes' h
    simp only [attachSingle] at h
    cases hg : nodeids.get n.ID with
    | none => simp [hg] at h
    | some idxs =>
      simp only [hg] at h
      obtain ⟨hmem, hlen, hall⟩ := ih _ nodes' h
      obtain ⟨hlen1, hall1⟩ := foldl_setSingle key n idxs nodes
      refine ⟨?_, hlen.trans hlen1, ?_⟩
      · intro c hc
        rcases List.mem_cons.mp hc with h1 | h1
        · subst h1; simp [hg]
        · exact hmem c h1
      · intro j p hj
        obtain ⟨p1, h1, hid1, hrow1, hlm1, hoth1, hkey1⟩ := hall1 j p hj
        obtain ⟨p', h2, hid, hrow, hlm, hoth, hkey⟩ := hall j p1 h1
        refine ⟨p', h2, hid.trans hid1, hrow.trans hrow1, hlm.trans hlm1,
          fun k hk => (hoth k hk).trans (hoth1 k hk), ?_⟩
        rw [hkey, hkey1]
        have hstep : lastMatch (fun c => j ∈ (nodeids.get c.ID).getD []) (n :: rest)
              (p.SingleMap.get key)
            = lastMatch (fun c => j ∈ (nodeids.get c.ID).getD []) rest
              (if j ∈ (nodeids.get n.ID).getD [] then some n else p.SingleMap.get key) := rfl
        rw [hstep, hg]
        rfl

theorem singleKeys_cons_some (fk : String) (n : Dynamic) (rest : List Dynamic) (i : Nat)
    (ids : List Int) (nodeids : GoMap Int (List Nat)) (y : Int) (h : fkOf fk n = some y) :
    singleKeys fk (n :: rest) i ids nodeids =
      singleKeys fk rest (i + 1) (if nodeids.has y then ids else ids ++ [y])
        (nodeids.set y (((nodeids.get y).getD []) ++ [i])) := by
  unfold fkOf at h
  rw [singleKeys]
  split at h
  · rename_i x hx
    cases h
    simp [hx]
  · cases h

theorem singleKeys_cons_none (fk : String) (n : Dynamic) (rest : List Dynamic) (i : Nat)
    (ids : List Int) (nodeids : GoMap Int (List Nat)) (h : fkOf fk n = none) :
    singleKeys fk (n :: rest) i ids nodeids = .panic badAssert := by
  unfold fkOf at h
  rw [singleKeys]
  split at h
  · cases h
  · rfl

theorem singleKeys_spec (fk : String) :
    ∀ (rest : List Dynamic) (i : Nat) (ids0 : List Int) (nodeids0 : GoMap Int (List Nat))
      (ids : List Int) (nodeids : GoMap Int (List Nat)),
      singleKeys fk rest i ids0 nodeids0 = .ok (ids, nodeids) →
      (∀ p ∈ rest, (fkOf fk p).isSome = true) ∧
      (ids0.Nodup → (∀ x, x ∈ ids0 ↔ (nodeids0.get x).isSome = true) →
        ids.Nodup ∧ ∀ x, x ∈ ids ↔ (nodeids.get x).isSome = true) ∧
      (∀ x, (nodeids.get x).isSome = true ↔
        ((nodeids0.get x).isSome = true ∨ ∃ p ∈ rest, fkOf fk p = some x)) ∧
      (∀ (x : Int) (j : Nat), j ∈ (nodeids.get x).getD [] ↔
        (j ∈ (nodeids0.get x).getD [] ∨
          ∃ (o : Nat) (p : Dynamic), j = i + o ∧ rest[o]? = some p ∧ fkOf fk p = some x)) := by
  intro rest
  induction rest with
  | nil =>
    intro i ids0 nodeids0 ids nodeids h
    simp only [singleKeys, Outcome.ok.injEq, Prod.mk.injEq] at h
    obtain ⟨h1, h2⟩ := h
    subst h1; subst h2
    refine ⟨by simp, fun hn hi => ⟨hn, hi⟩, by simp, by simp⟩
  | cons n rest ih =>
    intro i ids0 nodeids0 ids nodeids h
    cases hy : fkOf fk n with
    | none =>
      rw [singleKeys_cons_none fk n rest i ids0 nodeids0 hy] at h
      cases h
    | some y =>
      rw [singleKeys_cons_some fk n rest i ids0 nodeids0 y hy] at h
      obtain ⟨ha, hb, hc, hd⟩ := ih _ _ _ _ _ h
      have hget : ∀ x, (GoMap.set nodeids0 y (((nodeids0.get y).getD []) ++ [i])).get x
          = if x = y then some (((nodeids0.get y).getD []) ++ [i]) else nodeids0.get x :=
        fun x => GoMap.get_set nodeids0 y x _
      refine ⟨?_, ?_, ?_, ?_⟩
      · intro p hp
        rcases List.mem_cons.mp hp with h1 | h1
        · subst h1; simp [hy]
        · exact ha p h1
      · intro hn hi
        apply hb
        · by_cases hh : GoMap.has nodeids0 y = true
          · simpa [hh] using hn
          · simp only [hh]
            have hnot : y ∉ ids0 := fun hm => hh (by simpa [GoMap.has] using (hi y).mp hm)
            exact List.Nodup.append hn (List.nodup_singleton y) (by
              intro a ha1 ha2
              have : a = y := by simpa using ha2
              subst this
              exact hnot ha1)
        · intro x
          rw [hget]
          by_cases hxy : x = y
          · subst hxy
            by_cases hh : GoMap.has nodeids0 x = true
            · simp only [hh, if_true]
              have : x ∈ ids0 := (hi x).mpr (by simpa [GoMap.has] using hh)
              simp [this]
            · simp [hh]
          · by_cases hh : GoMap.has nodeids0 y = true
            · simp only [hh, if_true, if_neg hxy]
              exact hi x
            · simp only [hh, if_neg hxy]
              simp [hxy, hi x]
      · intro x
        rw [hc x, hget]
        by_cases hxy : x = y
        · subst hxy
          simp only [if_true, Option.isSome_some, true_or, true_iff]
          right
          exact ⟨n, List.mem_cons_self _ _, hy⟩
        · simp only [if_neg hxy]
          constructor
          · rintro (h1 | ⟨p, hp, hfk⟩)
            · exact Or.inl h1
            · exact Or.inr ⟨p, List.mem_cons_of_mem _ hp, hfk⟩
          · rintro (h1 | ⟨p, hp, hfk⟩)
            · exact Or.inl h1
            · rcases List.mem_cons.mp hp with h2 | h2
              · subst h2
                rw [hy] at hfk
                cases hfk
                exact absurd rfl hxy
              · exact Or.inr ⟨p, h2, hfk⟩
      · intro x j
        rw [hd x j, hget]
        constructor
        · rintro (h1 | ⟨o, p, hj, ho, hfk⟩)
          · by_cases hxy : x = y
            · subst hxy
              simp only [if_true, Option.getD_some, List.mem_append, List.mem_singleton] at h1
              rcases h1 with h1 | h1
              · exact Or.inl h1
              · exact Or.inr ⟨0, n, by simpa using h1, by simp, hy⟩
            · simp only [if_neg hxy] at h1
              exact Or.inl h1
          · exact Or.inr ⟨o + 1, p, by omega, by simpa using ho, hfk⟩
        · rintro (h1 | ⟨o, p, hj, ho, hfk⟩)
          · left
            by_cases hxy : x = y
            · subst hxy
              simp only [if_true, Option.getD_some, List.mem_append, List.mem_singleton]
              exact Or.inl h1
            · simpa only [if_neg hxy] using h1
          · cases o with
            | zero =>
              simp only [List.getElem?_cons_zero, Option.some.injEq] at ho
              subst ho
              rw [hy] at hfk
              cases hfk
              left
              simp only [if_true, Option.getD_some, List.mem_append, List.mem_singleton]
              right
              simpa using hj
            | succ o' =>
              right
              exact ⟨o', p, by omega, by simpa using ho, hfk⟩

theorem loadEntry_single_spec (run : DynamicQuery → Run DynamicQuery (List Dynamic))
    (key fk : String) (query : DynamicQuery) (nodes nodes' : List Dynamic)
    (h : (loadEntry run key fk true query nodes).out = .ok nodes') :
    ∃ (ids : List Int) (children : List Dynamic),
      ids.Nodup ∧ (∀ x, x ∈ ids ↔ ∃ p ∈ nodes, fkOf fk p = some x) ∧
      (run (query.Where [IDIn ids])).out = .ok children ∧
      (∀ c ∈ children, ∃ p ∈ nodes, fkOf fk p = some c.ID) ∧
      nodes'.length = nodes.length ∧
      ∀ (j : Nat) (p : Dynamic), nodes[j]? = some p →
        ∃ p' x, nodes'[j]? = some p' ∧ fkOf fk p = some x ∧
          p'.ID = p.ID ∧ p'.Row = p.Row ∧ p'.ListMap = p.ListMap ∧
          (∀ k, k ≠ key → p'.SingleMap.get k = p.SingleMap.get k) ∧
          p'.SingleMap.get key = lastMatch (fun c => c.ID = x) children (p.SingleMap.get key) := by
  simp only [loadEntry, if_true] at h
  cases hk : singleKeys fk nodes 0 [] [] with
  | err e => simp [hk] at h
  | panic msg => simp [hk] at h
  | ok r =>
    obtain ⟨ids, nodeids⟩ := r
    simp only [hk] at h
    cases hr : (run (query.Where [IDIn ids])).out with
    | err e => simp [hr] at h
    | panic msg => simp [hr] at h
    | ok children =>
      simp only [hr] at h
      obtain ⟨ha, hb, hc, hd⟩ := singleKeys_spec fk nodes 0 [] [] ids nodeids hk
      obtain ⟨hnd, hids⟩ := hb List.nodup_nil (by intro x; simp [GoMap.get])
      obtain ⟨hmem, hlen, hall⟩ := attachSingle_spec key nodeids children nodes nodes' h
      have hhas : ∀ x, (nodeids.get x).isSome = true ↔ ∃ p ∈ nodes, fkOf fk p = some x := by
        intro x
        rw [hc x]
        simp [GoMap.get]
      refine ⟨ids, children, hnd, fun x => (hids x).trans (hhas x), hr, ?_, hlen, ?_⟩
      · intro c hcm
        exact (hhas c.ID).mp (hmem c hcm)
      · intro j p hj
        obtain ⟨p', h1, hid, hrow, hlm, hoth, hkey⟩ := hall j p hj
        have hsome := ha p (List.getElem?_mem hj)
        obtain ⟨x, hx⟩ := Option.isSome_iff_exists.mp hsome
        refine ⟨p', x, h1, hx, hid, hrow, hlm, hoth, ?_⟩
        rw [hkey]
        apply lastMatch_congr
        intro c _
        rw [hd c.ID j]
        constructor
        · rintro (h0 | ⟨o, q, hjo, ho, hfk⟩)
          · simp [GoMap.get] at h0
          · have : o = j := by omega
            subst this
            rw [hj] at ho
            cases ho
            rw [hx] at hfk
            cases hfk
            rfl
        · intro hcx
          right
          exact ⟨j, p, by omega, hj, by rw [hx, hcx]⟩

theorem nodup_getElem?_inj {α : Type} (l : List α) (hl : l.Nodup) (i j : Nat) (x : α)
    (hi : l[i]? = some x) (hj : l[j]? = some x) : i = j := by
  have hil : i < l.length := by
    rcases Nat.lt_or_ge i l.length with h | h
    · exact h
    · rw [List.getElem?_eq_none h] at hi; cases hi
  have hjl : j < l.length := by
    rcases Nat.lt_or_ge j l.length with h | h
    · exact h
    · rw [List.getElem?_eq_none h] at hj; cases hj
  rcases Nat.lt_trichotomy i j with h | h | h
  · exact absurd (hi.trans hj.symm) (List.nodup_iff_getElem?_ne_getElem?.mp hl i j h hjl)
  · exact h
  · exact absurd (hj.trans hi.symm) (List.nodup_iff_getElem?_ne_getElem?.mp hl j i h hil)

theorem listKeys_get :
    ∀ (rest : List Dynamic) (i : Nat) (m : GoMap Int Nat) (x : Int) (j : Nat),
      (listKeys rest i m).get x = some j ↔
        ((∃ (o : Nat) (p : Dynamic), j = i + o ∧ rest[o]? = some p ∧ p.ID = x ∧
            ∀ (o' : Nat) (p' : Dynamic), o < o' → rest[o']? = some p' → p'.ID ≠ x) ∨
          (m.get x = some j ∧ ∀ p ∈ rest, p.ID ≠ x)) := by
  intro rest
  induction rest with
  | nil =>
    intro i m x j
    simp [listKeys]
  | cons n rest ih =>
    intro i m x j
    simp only [listKeys]
    rw [ih (i + 1) (m.set n.ID i) x j, GoMap.get_set]
    constructor
    · rintro (⟨o, p, hj, ho, hid, hlast⟩ | ⟨hget, hall⟩)
      · left
        refine ⟨o + 1, p, by omega, by simpa using ho, hid, ?_⟩
        intro o' p' hlt ho'
        cases o' with
        | zero => omega
        | succ k => exact hlast k p' (by omega) (by simpa using ho')
      · by_cases hx : x = n.ID
        · rw [if_pos hx] at hget
          left
          refine ⟨0, n, by simpa using hget.symm, by simp, hx.symm, ?_⟩
          intro o' p' hlt ho'
          cases o' with
          | zero => omega
          | succ k =>
            have : rest[k]? = some p' := by simpa using ho'
            exact hall p' (List.getElem?_mem this)
        · rw [if_neg hx] at hget
          right
          refine ⟨hget, ?_⟩
          intro p hp
          rcases List.mem_cons.mp hp with h1 | h1
          · subst h1; exact fun e => hx e.symm
          · exact hall p h1
    · rintro (⟨o, p, hj, ho, hid, hlast⟩ | ⟨hget, hall⟩)
      · cases o with
        | zero =>
          have hp : n = p := by simpa using ho
          subst hp
          right
          refine ⟨by rw [if_pos hid.symm]; simpa using hj.symm, ?_⟩
          intro p' hp'
          obtain ⟨k, hk⟩ := List.getElem?_of_mem hp'
          exact hlast (k + 1) p' (by omega) (by simpa using hk)
        | succ k =>
          left
          refine ⟨k, p, by omega, by simpa using ho, hid, ?_⟩
          intro o' p' hlt ho'
          exact hlast (o' + 1) p' (by omega) (by simpa using ho')
      · right
        have hx : ¬ x = n.ID := fun e => hall n (List.mem_cons_self _ _) e.symm
        refine ⟨by rw [if_neg hx]; exact hget, ?_⟩
        intro p hp
        exact hall p (List.mem_cons_of_mem _ hp)

theorem listKeys_nodup (nodes : List Dynamic) (hnd : (nodes.map Dynamic.ID).Nodup)
    (x : Int) (j : Nat) :
    (listKeys nodes 0 []).get x = some j ↔ (nodes.map Dynamic.ID)[j]? = some x := by
  rw [listKeys_get]
  constructor
  · rintro (⟨o, p, hj, ho, hid, _⟩ | ⟨hget, _⟩)
    · have : j = o := by omega
      subst this
      simp [List.getElem?_map, ho, hid]
    · simp [GoMap.get] at hget
  · intro h
    rw [List.getElem?_map] at h
    cases hp : nodes[j]? with
    | none => simp [hp] at h
    | some p =>
      rw [hp] at h
      have hid : p.ID = x := by simpa using h
      left
      refine ⟨j, p, by omega, hp, hid, ?_⟩
      intro o' p' hlt ho' hid'
      have h1 : (nodes.map Dynamic.ID)[j]? = some x := by simp [List.getElem?_map, hp, hid]
      have h2 : (nodes.map Dynamic.ID)[o']? = some x := by simp [List.getElem?_map, ho', hid']
      have := nodup_getElem?_inj _ hnd j o' x h1 h2
      omega

theorem map_ID_updateAt (f : Dynamic → Dynamic) (hf : ∀ p, (f p).ID = p.ID) :
    ∀ (nodes : List Dynamic) (i : Nat),
      (updateAt nodes i f).map Dynamic.ID = nodes.map Dynamic.ID := by
  intro nodes
  induction nodes with
  | nil => intro i; rfl
  | cons n rest ih =>
    intro i
    cases i with
    | zero => simp [updateAt, hf]
    | succ k => simp [updateAt, ih]

theorem attachList_cons_some (key fk : String) (nodeids : GoMap Int Nat) (n : Dynamic)
    (rest nodes : List Dynamic) (x : Int) (h : fkOf fk n = some x) :
    attachList key fk nodeids (n :: rest) nodes =
      match nodeids.get x with
      | none =>
        .err (.errorf "unexpected foreign-key \"d_id\" returned %v for node %v" [.int x, .int n.ID])
      | some i => attachList key fk nodeids rest (updateAt nodes i (fun p => p.appendList key n)) := by
  unfold fkOf at h
  rw [attachList]
  split at h
  · rename_i y hy
    cases h
    simp [hy]
  · cases h

theorem attachList_cons_none (key fk : String) (nodeids : GoMap Int Nat) (n : Dynamic)
    (rest nodes : List Dynamic) (h : fkOf fk n = none) :
    attachList key fk nodeids (n :: rest) nodes = .panic badAssert := by
  unfold fkOf at h
  rw [attachList]
  split at h
  · cases h
  · rfl

theorem attachList_spec (key fk : String) (nodeids : GoMap Int Nat) (idsL : List Int)
    (hnd : idsL.Nodup) (Hn : ∀ (x : Int) (j : Nat), nodeids.get x = some j ↔ idsL[j]? = some x) :
    ∀ (children nodes nodes' : List Dynamic), nodes.map Dynamic.ID = idsL →
      attachList key fk nodeids children nodes = .ok nodes' →
      (∀ c ∈ children, ∃ x, fkOf fk c = some x ∧ x ∈ idsL) ∧
      nodes'.length = nodes.length ∧
      ∀ (j : Nat) (p : Dynamic), nodes[j]? = some p →
        ∃ p', nodes'[j]? = some p' ∧
          p'.ID = p.ID ∧ p'.Row = p.Row ∧ p'.SingleMap = p.SingleMap ∧
          (∀ k, k ≠ key → p'.ListMap.get k = p.ListMap.get k) ∧
          (p'.ListMap.get key).getD [] =
            (p.ListMap.get key).getD [] ++
              children.filter (fun c => decide (fkOf fk c = some p.ID)) := by
  intro children
  induction children with
  | nil =>
    intro nodes nodes' _ h
    simp [attachList] at h
    subst h
    refine ⟨by simp, rfl, ?_⟩
    intro j p hj
    exact ⟨p, hj, rfl, rfl, rfl, fun _ _ => rfl, by simp⟩
  | cons n rest ih =>
    intro nodes nodes' hmap h
    cases hx : fkOf fk n with
    | none =>
      rw [attachList_cons_none key fk nodeids n rest nodes hx] at h
      cases h
    | some x =>
      rw [attachList_cons_some key fk nodeids n rest nodes x hx] at h
      cases hg : nodeids.get x with
      | none => simp [hg] at h
      | some i =>
        simp only [hg] at h
        have hix : idsL[i]? = some x := (Hn x i).mp hg
        have hmap1 : (updateAt nodes i (fun p => p.appendList key n)).map Dynamic.ID = idsL := by
          rw [map_ID_updateAt _ (fun p => Dynamic.ID_appendList p key n)]
          exact hmap
        obtain ⟨hmem, hlen, hall⟩ := ih _ nodes' hmap1 h
        refine ⟨?_, by simpa [length_updateAt] using hlen, ?_⟩
        · intro c hc
          rcases List.mem_cons.mp hc with h1 | h1
          · subst h1
            exact ⟨x, hx, List.getElem?_mem hix⟩
          · exact hmem c h1
        · intro j p hj
          have hjid : idsL[j]? = some p.ID := by
            rw [← hmap, List.getElem?_map, hj]
            rfl
          have hu := getElem?_updateAt (fun p => p.appendList key n) nodes i j
          by_cases hji : j = i
          · rw [if_pos hji, hj] at hu
            have hpx : p.ID = x := by
              rw [hji, hix] at hjid
              exact (Option.some.inj hjid).symm
            obtain ⟨p', h1, hid, hrow, hsm, hoth, hkey⟩ := hall j (p.appendList key n) hu
            refine ⟨p', h1, by simpa using hid, by simpa using hrow, by simpa using hsm, ?_, ?_⟩
            · intro k hk
              rw [hoth k hk]
              simp [GoMap.get_set_other _ _ _ _ hk]
            · rw [hkey]
              simp only [Dynamic.ListMap_appendList, Dynamic.ID_appendList, GoMap.get_set_self,
                Option.getD_some, List.filter_cons]
              simp [hx, hpx]
          · rw [if_neg hji, hj] at hu
            have hpx : ¬ x = p.ID := by
              intro e
              rw [← e] at hjid
              exact hji (nodup_getElem?_inj idsL hnd j i x hjid hix)
            obtain ⟨p', h1, hid, hrow, hsm, hoth, hkey⟩ := hall j p hu
            refine ⟨p', h1, hid, hrow, hsm, hoth, ?_⟩
            rw [hkey]
            simp [List.filter_cons, hx, hpx]

theorem loadEntry_list_spec (run : DynamicQuery → Run DynamicQuery (List Dynamic))
    (key fk : String) (query : DynamicQuery) (nodes nodes' : List Dynamic)
    (hnd : (nodes.map Dynamic.ID).Nodup)
    (h : (loadEntry run key fk false query nodes).out = .ok nodes') :
    ∃ children : List Dynamic,
      (run (query.Where [listPredicate fk nodes])).out = .ok children ∧
      (∀ c ∈ children, ∃ p ∈ nodes, fkOf fk c = some p.ID) ∧
      nodes'.length = nodes.length ∧
      ∀ (j : Nat) (p : Dynamic), nodes[j]? = some p →
        ∃ p', nodes'[j]? = some p' ∧
          p'.ID = p.ID ∧ p'.Row = p.Row ∧ p'.SingleMap = p.SingleMap ∧
          (∀ k, k ≠ key → p'.ListMap.get k = p.ListMap.get k) ∧
          (p'.ListMap.get key).getD [] =
            (p.ListMap.get key).getD [] ++
              children.filter (fun c => decide (fkOf fk c = some p.ID)) := by
  simp only [loadEntry, Bool.false_eq_true, if_false] at h
  cases hr : (run (query.Where [listPredicate fk nodes])).out with
  | err e => simp [hr] at h
  | panic msg => simp [hr] at h
  | ok children =>
    simp only [hr] at h
    obtain ⟨hmem, hlen, hall⟩ := attachList_spec key fk (listKeys nodes 0 []) (nodes.map Dynamic.ID)
      hnd (listKeys_nodup nodes hnd) children nodes nodes' rfl h
    refine ⟨children, rfl, ?_, hlen, hall⟩
    intro c hc
    obtain ⟨x, hx, hxm⟩ := hmem c hc
    obtain ⟨p, hp, hpid⟩ := List.mem_map.mp hxm
    exact ⟨p, hp, by rw [hx, hpid]⟩

theorem WithDataMap.induct (P : WithDataMap → Prop) (hnil : P .nil)
    (hcons : ∀ (key : String) (w : WithQuery) (rest : WithDataMap), P rest → P (.cons key w rest)) :
    ∀ m : WithDataMap, P m
  | .nil => hnil
  | .cons key w rest => hcons key w rest (WithDataMap.induct P hnil hcons rest)

theorem loadEntry_congr (run1 run2 : DynamicQuery → Run DynamicQuery (List Dynamic))
    (key fk : String) (single : Bool) (query : DynamicQuery) (nodes : List Dynamic)
    (h : ∀ ps, run1 (query.Where ps) = run2 (query.Where ps)) :
    loadEntry run1 key fk single query nodes = loadEntry run2 key fk single query nodes := by
  unfold loadEntry
  simp only [h]

theorem loadEdges_cons (drv : Driver) (key fk : String) (single : Bool) (q : DynamicQuery)
    (rest : WithDataMap) (nodes : List Dynamic) :
    loadEdges drv (.cons key (.mk fk single q) rest) nodes =
      match (loadEntry (DynamicQuery.All drv) key fk single q nodes).out with
      | .ok nodes1 =>
        { state := .cons key (.mk fk single
            (loadEntry (DynamicQuery.All drv) key fk single q nodes).state)
            (loadEdges drv rest nodes1).state,
          log := (loadEntry (DynamicQuery.All drv) key fk single q nodes).log
            ++ (loadEdges drv rest nodes1).log,
          out := (loadEdges drv rest nodes1).out }
      | .err e =>
        { state := .cons key (.mk fk single
            (loadEntry (DynamicQuery.All drv) key fk single q nodes).state) rest,
          log := (loadEntry (DynamicQuery.All drv) key fk single q nodes).log, out := .err e }
      | .panic msg =>
        { state := .cons key (.mk fk single
            (loadEntry (DynamicQuery.All drv) key fk single q nodes).state) rest,
          log := (loadEntry (DynamicQuery.All drv) key fk single q nodes).log,
          out := .panic msg } := by
  cases q with
  | mk l o u ord f p s pa wd t =>
    have hc : loadEntry (fun q => q.AllWith drv (loadEdges drv wd)) key fk single
          (.mk l o u ord f p s pa wd t) nodes
        = loadEntry (DynamicQuery.All drv) key fk single (.mk l o u ord f p s pa wd t) nodes := by
      apply loadEntry_congr
      intro ps
      exact DynamicQuery.All_eq_AllWith drv ((DynamicQuery.mk l o u ord f p s pa wd t).Where ps)
    rw [loadEdges, hc]

theorem attachList_frame (key fk : String) (nodeids : GoMap Int Nat) :
    ∀ (children nodes nodes' : List Dynamic),
      attachList key fk nodeids children nodes = .ok nodes' →
      nodes'.length = nodes.length ∧
      ∀ (j : Nat) (p : Dynamic), nodes[j]? = some p →
        ∃ p', nodes'[j]? = some p' ∧
          p'.ID = p.ID ∧ p'.Row = p.Row ∧ p'.SingleMap = p.SingleMap ∧
          (∀ k, k ≠ key → p'.ListMap.get k = p.ListMap.get k) := by
  intro children
  induction children with
  | nil =>
    intro nodes nodes' h
    simp [attachList] at h
    subst h
    exact ⟨rfl, fun j p hj => ⟨p, hj, rfl, rfl, rfl, fun _ _ => rfl⟩⟩
  | cons n rest ih =>
    intro nodes nodes' h
    cases hx : fkOf fk n with
    | none =>
      rw [attachList_cons_none key fk nodeids n rest nodes hx] at h
      cases h
    | some x =>
      rw [attachList_cons_some key fk nodeids n rest nodes x hx] at h
      cases hg : nodeids.get x with
      | none => simp [hg] at h
      | some i =>
        simp only [hg] at h
        obtain ⟨hlen, hall⟩ := ih _ nodes' h
        refine ⟨by simpa [length_updateAt] using hlen, ?_⟩
        intro j p hj
        have hu := getElem?_updateAt (fun p => p.appendList key n) nodes i j
        by_cases hji : j = i
        · rw [if_pos hji, hj] at hu
          obtain ⟨p', h1, hid, hrow, hsm, hoth⟩ := hall j (p.appendList key n) hu
          refine ⟨p', h1, by simpa using hid, by simpa using hrow, by simpa using hsm, ?_⟩
          intro k hk
          rw [hoth k hk]
          simp [GoMap.get_set_other _ _ _ _ hk]
        · rw [if_neg hji, hj] at hu
          exact hall j p hu

theorem loadEntry_frame (run : DynamicQuery → Run DynamicQuery (List Dynamic))
    (key fk : String) (single : Bool) (query : DynamicQuery) (nodes nodes' : List Dynamic)
    (h : (loadEntry run key fk single query nodes).out = .ok nodes') :
    nodes'.length = nodes.length ∧
    ∀ (j : Nat) (p : Dynamic), nodes[j]? = some p →
      ∃ p', nodes'[j]? = some p' ∧ p'.ID = p.ID ∧ p'.Row = p.Row ∧
        (∀ k, k ≠ key → p'.SingleMap.get k = p.SingleMap.get k) ∧
        (∀ k, k ≠ key → p'.ListMap.get k = p.ListMap.get k) := by
  cases single with
  | true =>
    obtain ⟨ids, children, _, _, _, _, hlen, hall⟩ :=
      loadEntry_single_spec run key fk query nodes nodes' h
    refine ⟨hlen, ?_⟩
    intro j p hj
    obtain ⟨p', x, h1, _, hid, hrow, hlm, hoth, _⟩ := hall j p hj
    exact ⟨p', h1, hid, hrow, hoth, fun k _ => by rw [hlm]⟩
  | false =>
    simp only [loadEntry, Bool.false_eq_true, if_false] at h
    cases hr : (run (query.Where [listPredicate fk nodes])).out with
    | err e => simp [hr] at h
    | panic msg => simp [hr] at h
    | ok children =>
      simp only [hr] at h
      obtain ⟨hlen, hall⟩ := attachList_frame key fk _ children nodes nodes' h
      refine ⟨hlen, ?_⟩
      intro j p hj
      obtain ⟨p', h1, hid, hrow, hsm, hoth⟩ := hall j p hj
      exact ⟨p', h1, hid, hrow, fun k _ => by rw [hsm], hoth⟩

theorem fkOf_congr (fk : String) (p p' : Dynamic) (h : p'.Row = p.Row) :
    fkOf fk p' = fkOf fk p := by
  unfold fkOf
  rw [h]

theorem SameNodes.map_ID {nodes nodes' : List Dynamic} (h : SameNodes nodes nodes') :
    nodes'.map Dynamic.ID = nodes.map Dynamic.ID := by
  apply List.ext_getElem?
  intro j
  rw [List.getElem?_map, List.getElem?_map]
  cases hj : nodes[j]? with
  | none =>
    have hlt : nodes.length ≤ j := by
      rcases Nat.lt_or_ge j nodes.length with h1 | h1
      · rw [List.getElem?_eq_getElem h1] at hj; cases hj
      · exact h1
    rw [List.getElem?_eq_none (by rw [h.1]; exact hlt)]
  | some p =>
    obtain ⟨p', h1, hid, _⟩ := h.2 j p hj
    rw [h1]
    simp [hid]

theorem SameNodes.exists_fk {nodes nodes' : List Dynamic} (h : SameNodes nodes nodes')
    (fk : String) (x : Int) :
    (∃ p ∈ nodes', fkOf fk p = some x) ↔ (∃ p ∈ nodes, fkOf fk p = some x) := by
  constructor
  · rintro ⟨p', hp', hfk⟩
    obtain ⟨j, hj⟩ := List.getElem?_of_mem hp'
    have hjl : j < nodes.length := by
      rcases Nat.lt_or_ge j nodes'.length with h1 | h1
      · rw [← h.1]; exact h1
      · rw [List.getElem?_eq_none h1] at hj; cases hj
    obtain ⟨q, hq, _, hrow⟩ := h.2 j nodes[j] (List.getElem?_eq_getElem hjl)
    rw [hj] at hq
    cases hq
    exact ⟨nodes[j], List.getElem_mem _, by rw [← fkOf_congr fk _ _ hrow]; exact hfk⟩
  · rintro ⟨p, hp, hfk⟩
    obtain ⟨j, hj⟩ := List.getElem?_of_mem hp
    obtain ⟨p', h1, _, hrow⟩ := h.2 j p hj
    exact ⟨p', List.getElem?_mem h1, by rw [fkOf_congr fk _ _ hrow]; exact hfk⟩

theorem loadEdges_frame (drv : Driver) :
    ∀ (m : WithDataMap) (nodes nodes' : List Dynamic),
      (loadEdges drv m nodes).out = .ok nodes' →
      nodes'.length = nodes.length ∧
      ∀ (j : Nat) (p : Dynamic), nodes[j]? = some p →
        ∃ p', nodes'[j]? = some p' ∧ p'.ID = p.ID ∧ p'.Row = p.Row ∧
          (∀ k, k ∉ m.keys → p'.SingleMap.get k = p.SingleMap.get k) ∧
          (∀ k, k ∉ m.keys → p'.ListMap.get k = p.ListMap.get k) := by
  intro m
  refine WithDataMap.induct
    (fun m => ∀ (nodes nodes' : List Dynamic),
      (loadEdges drv m nodes).out = .ok nodes' →
      nodes'.length = nodes.length ∧
      ∀ (j : Nat) (p : Dynamic), nodes[j]? = some p →
        ∃ p', nodes'[j]? = some p' ∧ p'.ID = p.ID ∧ p'.Row = p.Row ∧
          (∀ k, k ∉ m.keys → p'.SingleMap.get k = p.SingleMap.get k) ∧
          (∀ k, k ∉ m.keys → p'.ListMap.get k = p.ListMap.get k)) ?_ ?_ m
  · intro nodes nodes' h
    simp [loadEdges] at h
    subst h
    exact ⟨rfl, fun j p hj => ⟨p, hj, rfl, rfl, fun _ _ => rfl, fun _ _ => rfl⟩⟩
  · intro key w rest ih nodes nodes' h
    cases w with
    | mk fk single q =>
      rw [loadEdges_cons] at h
      cases hout : (loadEntry (DynamicQuery.All drv) key fk single q nodes).out with
      | err e => simp [hout] at h
      | panic msg => simp [hout] at h
      | ok nodes1 =>
        simp only [hout] at h
        obtain ⟨hlen1, hall1⟩ := loadEntry_frame _ key fk single q nodes nodes1 hout
        obtain ⟨hlen, hall⟩ := ih nodes1 nodes' h
        refine ⟨hlen.trans hlen1, ?_⟩
        intro j p hj
        obtain ⟨p1, h1, hid1, hrow1, hs1, hl1⟩ := hall1 j p hj
        obtain ⟨p', h2, hid, hrow, hs, hl⟩ := hall j p1 h1
        refine ⟨p', h2, hid.trans hid1, hrow.trans hrow1, ?_, ?_⟩
        · intro k hk
          have hk1 : k ≠ key := fun e => hk (by simp [WithDataMap.keys, e])
          have hk2 : k ∉ rest.keys := fun e => hk (by simp [WithDataMap.keys, e])
          exact (hs k hk2).trans (hs1 k hk1)
        · intro k hk
          have hk1 : k ≠ key := fun e => hk (by simp [WithDataMap.keys, e])
          have hk2 : k ∉ rest.keys := fun e => hk (by simp [WithDataMap.keys, e])
          exact (hl k hk2).trans (hl1 k hk1)

theorem loadEdges_sameNodes (drv : Driver) (m : WithDataMap) (nodes nodes' : List Dynamic)
    (h : (loadEdges drv m nodes).out = .ok nodes') : SameNodes nodes nodes' := by
  obtain ⟨hlen, hall⟩ := loadEdges_frame drv m nodes nodes' h
  refine ⟨hlen, ?_⟩
  intro j p hj
  obtain ⟨p', h1, hid, hrow, _, _⟩ := hall j p hj
  exact ⟨p', h1, hid, hrow⟩

theorem loadEntry_sameNodes (run : DynamicQuery → Run DynamicQuery (List Dynamic))
    (key fk : String) (single : Bool) (query : DynamicQuery) (nodes nodes' : List Dynamic)
    (h : (loadEntry run key fk single query nodes).out = .ok nodes') :
    SameNodes nodes nodes' := by
  obtain ⟨hlen, hall⟩ := loadEntry_frame run key fk single query nodes nodes' h
  refine ⟨hlen, ?_⟩
  intro j p hj
  obtain ⟨p', h1, hid, hrow, _, _⟩ := hall j p hj
  exact ⟨p', h1, hid, hrow⟩

theorem loadEdges_single (drv : Driver) :
    ∀ (m : WithDataMap) (nodes nodes' : List Dynamic) (key fk : String) (sq : DynamicQuery),
      m.keys.Nodup → m.get key = some (.mk fk true sq) →
      (loadEdges drv m nodes).out = .ok nodes' →
      ∃ (ids : List Int) (children : List Dynamic),
        ids.Nodup ∧ (∀ x, x ∈ ids ↔ ∃ p ∈ nodes, fkOf fk p = some x) ∧
        ((sq.Where [IDIn ids]).All drv).out = .ok children ∧
        (∀ c ∈ children, ∃ p ∈ nodes, fkOf fk p = some c.ID) ∧
        nodes'.length = nodes.length ∧
        ∀ (j : Nat) (p : Dynamic), nodes[j]? = some p →
          ∃ p' x, nodes'[j]? = some p' ∧ fkOf fk p = some x ∧
            p'.ID = p.ID ∧ p'.Row = p.Row ∧
            p'.SingleMap.get key = lastMatch (fun c => c.ID = x) children (p.SingleMap.get key) := by
  intro m
  refine WithDataMap.induct
    (fun m => ∀ (nodes nodes' : List Dynamic) (key fk : String) (sq : DynamicQuery),
      m.keys.Nodup → m.get key = some (.mk fk true sq) →
      (loadEdges drv m nodes).out = .ok nodes' →
      ∃ (ids : List Int) (children : List Dynamic),
        ids.Nodup ∧ (∀ x, x ∈ ids ↔ ∃ p ∈ nodes, fkOf fk p = some x) ∧
        ((sq.Where [IDIn ids]).All drv).out = .ok children ∧
        (∀ c ∈ children, ∃ p ∈ nodes, fkOf fk p = some c.ID) ∧
        nodes'.length = nodes.length ∧
        ∀ (j : Nat) (p : Dynamic), nodes[j]? = some p →
          ∃ p' x, nodes'[j]? = some p' ∧ fkOf fk p = some x ∧
            p'.ID = p.ID ∧ p'.Row = p.Row ∧
            p'.SingleMap.get key = lastMatch (fun c => c.ID = x) children (p.SingleMap.get key))
    ?_ ?_ m
  · intro nodes nodes' key fk sq _ hget _
    simp [WithDataMap.get] at hget
  · intro k w rest ih nodes nodes' key fk sq hnd hget h
    cases w with
    | mk fk0 single0 q0 =>
      have hnd' : k ∉ rest.keys ∧ rest.keys.Nodup := by
        simpa [WithDataMap.keys] using hnd
      rw [loadEdges_cons] at h
      cases hout : (loadEntry (DynamicQuery.All drv) k fk0 single0 q0 nodes).out with
      | err e => simp [hout] at h
      | panic msg => simp [hout] at h
      | ok nodes1 =>
        simp only [hout] at h
        by_cases hk : k = key
        · subst hk
          simp only [WithDataMap.get, if_true, Option.some.injEq, WithQuery.mk.injEq] at hget
          obtain ⟨h1, h2, h3⟩ := hget
          subst h1; subst h2; subst h3
          obtain ⟨ids, children, hnd1, hids, hrun, hch, hlen1, hall1⟩ :=
            loadEntry_single_spec _ k fk0 q0 nodes nodes1 hout
          obtain ⟨hlen, hall⟩ := loadEdges_frame drv rest nodes1 nodes' h
          refine ⟨ids, children, hnd1, hids, hrun, hch, hlen.trans hlen1, ?_⟩
          intro j p hj
          obtain ⟨p1, x, hp1, hx, hid1, hrow1, _, _, hkey1⟩ := hall1 j p hj
          obtain ⟨p', hp', hid, hrow, hs, _⟩ := hall j p1 hp1
          exact ⟨p', x, hp', hx, hid.trans hid1, hrow.trans hrow1,
            (hs k hnd'.1).trans hkey1⟩
        · simp only [WithDataMap.get, if_neg hk] at hget
          have hsame := loadEntry_sameNodes _ k fk0 single0 q0 nodes nodes1 hout
          obtain ⟨hlen1, hall1⟩ := loadEntry_frame _ k fk0 single0 q0 nodes nodes1 hout
          obtain ⟨ids, children, hnd1, hids, hrun, hch, hlen, hall⟩ :=
            ih nodes1 nodes' key fk sq hnd'.2 hget h
          refine ⟨ids, children, hnd1, ?_, hrun, ?_, hlen.trans hlen1, ?_⟩
          · intro x
            exact (hids x).trans (hsame.exists_fk fk x)
          · intro c hc
            exact (hsame.exists_fk fk c.ID).mp (hch c hc)
          · intro j p hj
            obtain ⟨p1, hp1, hid1, hrow1, hs1, _⟩ := hall1 j p hj
            obtain ⟨p', x, hp', hx, hid, hrow, hkey⟩ := hall j p1 hp1
            refine ⟨p', x, hp', ?_, hid.trans hid1, hrow.trans hrow1, ?_⟩
            · rw [← fkOf_congr fk p p1 hrow1]; exact hx
            · rw [hkey, hs1 key (fun e => hk e.symm)]

theorem listPredicate_congr (fk : String) (nodes nodes' : List Dynamic)
    (h : nodes'.map Dynamic.ID = nodes.map Dynamic.ID) :
    listPredicate fk nodes' = listPredicate fk nodes := by
  unfold listPredicate
  have e : nodes'.map (fun n => Value.int n.ID) = nodes.map (fun n => Value.int n.ID) := by
    have := congrArg (List.map Value.int) h
    simpa [List.map_map, Function.comp] using this
  rw [e]

theorem loadEdges_list (drv : Driver) :
    ∀ (m : WithDataMap) (nodes nodes' : List Dynamic) (key fk : String) (sq : DynamicQuery),
      m.keys.Nodup → (nodes.map Dynamic.ID).Nodup → m.get key = some (.mk fk false sq) →
      (loadEdges drv m nodes).out = .ok nodes' →
      ∃ children : List Dynamic,
        ((sq.Where [listPredicate fk nodes]).All drv).out = .ok children ∧
        (∀ c ∈ children, ∃ p ∈ nodes, fkOf fk c = some p.ID) ∧
        nodes'.length = nodes.length ∧
        ∀ (j : Nat) (p : Dynamic), nodes[j]? = some p →
          ∃ p', nodes'[j]? = some p' ∧ p'.ID = p.ID ∧ p'.Row = p.Row ∧
            (p'.ListMap.get key).getD [] =
              (p.ListMap.get key).getD [] ++
                children.filter (fun c => decide (fkOf fk c = some p.ID)) := by
  intro m
  refine WithDataMap.induct
    (fun m => ∀ (nodes nodes' : List Dynamic) (key fk : String) (sq : DynamicQuery),
      m.keys.Nodup → (nodes.map Dynamic.ID).Nodup → m.get key = some (.mk fk false sq) →
      (loadEdges drv m nodes).out = .ok nodes' →
      ∃ children : List Dynamic,
        ((sq.Where [listPredicate fk nodes]).All drv).out = .ok children ∧
        (∀ c ∈ children, ∃ p ∈ nodes, fkOf fk c = some p.ID) ∧
        nodes'.length = nodes.length ∧
        ∀ (j : Nat) (p : Dynamic), nodes[j]? = some p →
          ∃ p', nodes'[j]? = some p' ∧ p'.ID = p.ID ∧ p'.Row = p.Row ∧
            (p'.ListMap.get key).getD [] =
              (p.ListMap.get key).getD [] ++
                children.filter (fun c => decide (fkOf fk c = some p.ID)))
    ?_ ?_ m
  · intro nodes nodes' key fk sq _ _ hget _
    simp [WithDataMap.get] at hget
  · intro k w rest ih nodes nodes' key fk sq hnd hids hget h
    cases w with
    | mk fk0 single0 q0 =>
      have hnd' : k ∉ rest.keys ∧ rest.keys.Nodup := by
        simpa [WithDataMap.keys] using hnd
      rw [loadEdges_cons] at h
      cases hout : (loadEntry (DynamicQuery.All drv) k fk0 single0 q0 nodes).out with
      | err e => simp [hout] at h
      | panic msg => simp [hout] at h
      | ok nodes1 =>
        simp only [hout] at h
        by_cases hk : k = key
        · subst hk
          simp only [WithDataMap.get, if_true, Option.some.injEq, WithQuery.mk.injEq] at hget
          obtain ⟨h1, h2, h3⟩ := hget
          subst h1; subst h2; subst h3
          obtain ⟨children, hrun, hch, hlen1, hall1⟩ :=
            loadEntry_list_spec _ k fk0 q0 nodes nodes1 hids hout
          obtain ⟨hlen, hall⟩ := loadEdges_frame drv rest nodes1 nodes' h
          refine ⟨children, hrun, hch, hlen.trans hlen1, ?_⟩
          intro j p hj
          obtain ⟨p1, hp1, hid1, hrow1, _, _, hkey1⟩ := hall1 j p hj
          obtain ⟨p', hp', hid, hrow, _, hl⟩ := hall j p1 hp1
          refine ⟨p', hp', hid.trans hid1, hrow.trans hrow1, ?_⟩
          rw [hl k hnd'.1, hkey1]
        · simp only [WithDataMap.get, if_neg hk] at hget
          have hsame := loadEntry_sameNodes _ k fk0 single0 q0 nodes nodes1 hout
          obtain ⟨hlen1, hall1⟩ := loadEntry_frame _ k fk0 single0 q0 nodes nodes1 hout
          have hmap := hsame.map_ID
          obtain ⟨children, hrun, hch, hlen, hall⟩ :=
            ih nodes1 nodes' key fk sq hnd'.2 (by rw [hmap]; exact hids) hget h
          rw [listPredicate_congr fk nodes nodes1 hmap] at hrun
          refine ⟨children, hrun, ?_, hlen.trans hlen1, ?_⟩
          · intro c hc
            obtain ⟨p1, hp1, hfk⟩ := hch c hc
            have : p1.ID ∈ nodes.map Dynamic.ID := by
              rw [← hmap]; exact List.mem_map.mpr ⟨p1, hp1, rfl⟩
            obtain ⟨p, hp, hpid⟩ := List.mem_map.mp this
            exact ⟨p, hp, by rw [hfk, hpid]⟩
          · intro j p hj
            obtain ⟨p1, hp1, hid1, hrow1, _, hl1⟩ := hall1 j p hj
            obtain ⟨p', hp', hid, hrow, hkey⟩ := hall j p1 hp1
            refine ⟨p', hp', hid.trans hid1, hrow.trans hrow1, ?_⟩
            rw [hkey, hl1 key (fun e => hk e.symm), hid1]

theorem fkOf_eq_some (fk : String) (p : Dynamic) (x : Int) :
    fkOf fk p = some x ↔ p.Row.get fk = some (.int64 x) := by
  unfold fkOf
  constructor
  · intro h
    split at h
    · rename_i y hy
      cases h
      exact hy
    · cases h
  · intro h
    rw [h]

theorem All_of_primary (drv : Driver) (dq : DynamicQuery) (nodes0 : List Dynamic)
    (hprim : dq.primary drv = .ok nodes0) (hne : nodes0 ≠ []) :
    (dq.All drv).out = (loadEdges drv dq.withData nodes0).out := by
  unfold DynamicQuery.primary at hprim
  unfold DynamicQuery.All
  have hw := (DynamicQuery.prepareQuery_frame dq).2.2
  rcases hq : dq.prepareQuery with ⟨dq1, out⟩
  rw [hq] at hprim hw
  simp only at hw
  cases out with
  | err e => simp at hprim
  | panic msg => simp at hprim
  | ok u =>
    simp only at hprim ⊢
    unfold DynamicQuery.sqlAll DynamicQuery.sqlAllWith
    cases hs : dq1.querySpec with
    | err e => simp [hs] at hprim
    | panic msg => simp [hs] at hprim
    | ok spec =>
      simp only [hs] at hprim ⊢
      have hlen : ¬ nodes0.length = 0 := fun e => hne (List.length_eq_zero.mp e)
      simp only [hprim, hlen, if_false, hw]

theorem All_single_core (drv : Driver) (dq : DynamicQuery) (nodes0 nodes' : List Dynamic)
    (key fk : String) (sq : DynamicQuery)
    (hkeys : dq.withData.keys.Nodup) (hentry : dq.withData.get key = some (.mk fk true sq))
    (hprim : dq.primary drv = .ok nodes0) (hne : nodes0 ≠ [])
    (hok : (dq.All drv).out = .ok nodes') :
    ∃ (ids : List Int) (children : List Dynamic),
      ids.Nodup ∧ (∀ x, x ∈ ids ↔ ∃ p ∈ nodes0, p.Row.get fk = some (.int64 x)) ∧
      ((sq.Where [IDIn ids]).All drv).out = .ok children ∧
      nodes'.length = nodes0.length ∧
      ∀ (j : Nat) (p : Dynamic), nodes0[j]? = some p →
        ∃ p' x, nodes'[j]? = some p' ∧ p.Row.get fk = some (.int64 x) ∧
          p'.ID = p.ID ∧ p'.Row = p.Row ∧
          p'.SingleMap.get key = (children.filter (fun c => decide (c.ID = x))).getLast? := by
  rw [All_of_primary drv dq nodes0 hprim hne] at hok
  obtain ⟨ids, children, hnd, hids, hrun, _, hlen, hall⟩ :=
    loadEdges_single drv dq.withData nodes0 nodes' key fk sq hkeys hentry hok
  refine ⟨ids, children, hnd, ?_, hrun, hlen, ?_⟩
  · intro x
    rw [hids x]
    constructor
    · rintro ⟨p, hp, h⟩; exact ⟨p, hp, (fkOf_eq_some fk p x).mp h⟩
    · rintro ⟨p, hp, h⟩; exact ⟨p, hp, (fkOf_eq_some fk p x).mpr h⟩
  · intro j p hj
    obtain ⟨p', x, hp', hx, hid, hrow, hkey⟩ := hall j p hj
    refine ⟨p', x, hp', (fkOf_eq_some fk p x).mp hx, hid, hrow, ?_⟩
    rw [hkey, lastMatch_eq]
    have hfresh := (primary_fresh drv dq nodes0 hprim p (List.getElem?_mem hj)).1
    rw [hfresh]
    cases (List.filter (fun c => decide (c.ID = x)) children).getLast? <;> rfl

/-- C5. Eager load, single valued. When `All` succeeds on a query whose
primary result is not empty, then for every single-valued entry `key ->
(fk, sub-query)` of `withData`: the id list of the follow-up query holds
exactly the foreign keys `row[fk]` of the parents, each once; every parent
has an integer `row[fk] = x` and, after `All`, carries under `key` the
returned child whose id is `x` (the last such, should the follow-up return
several) and no entry when no returned child has that id, so parents that
share `x` carry the same child; ids and rows of the parents are unchanged. -/
theorem eager_single_spec (drv : Driver) (dq : DynamicQuery) (nodes0 nodes' : List Dynamic)
    (key fk : String) (sq : DynamicQuery)
    (hkeys : dq.withData.keys.Nodup) (hentry : dq.withData.get key = some (.mk fk true sq))
    (hprim : dq.primary drv = .ok nodes0) (hne : nodes0 ≠ [])
    (hok : (dq.All drv).out = .ok nodes') :
    ∃ (ids : List Int) (children : List Dynamic),
      ids.Nodup ∧ (∀ x, x ∈ ids ↔ ∃ p ∈ nodes0, p.Row.get fk = some (.int64 x)) ∧
      ((sq.Where [IDIn ids]).All drv).out = .ok children ∧
      nodes'.length = nodes0.length ∧
      ∀ (j : Nat) (p : Dynamic), nodes0[j]? = some p →
        ∃ p' x, nodes'[j]? = some p' ∧ p.Row.get fk = some (.int64 x) ∧
          p'.ID = p.ID ∧ p'.Row = p.Row ∧
          p'.edgesGet key = (children.filter (fun c => decide (c.ID = x))).getLast? :=
  All_single_core drv dq nodes0 nodes' key fk sq hkeys hentry hprim hne hok

/-- Witness for C5: three users, two of them created by user 2; the follow-up
query returns user 2, which both receive. -/
theorem eager_single_spec_witness :
    ∃ (ids : List Int) (children : List Dynamic),
      ids.Nodup ∧
      (((testClient.Table "user").Query.Where [IDIn ids]).All driverUsers).out = .ok children ∧
      ∃ p', [(userNode 1 "ann" 2).setSingle "creator" (userNode 2 "bob" 2),
          (userNode 2 "bob" 2).setSingle "creator" (userNode 2 "bob" 2),
          userNode 3 "cy" 0][0]? = some p' ∧
        p'.edgesGet "creator" = (children.filter (fun c => decide (c.ID = 2))).getLast? := by
  obtain ⟨ids, children, h1, _, h3, _, h5⟩ := eager_single_spec driverUsers queryUsersWithCreator
    [userNode 1 "ann" 2, userNode 2 "bob" 2, userNode 3 "cy" 0]
    [(userNode 1 "ann" 2).setSingle "creator" (userNode 2 "bob" 2),
      (userNode 2 "bob" 2).setSingle "creator" (userNode 2 "bob" 2),
      userNode 3 "cy" 0]
    "creator" "creator_id" (testClient.Table "user").Query
    (by decide) rfl rfl (by simp) rfl
  obtain ⟨p', x, hp', hx, _, _, hkey⟩ := h5 0 (userNode 1 "ann" 2) rfl
  have hx2 : x = 2 := by
    have : (userNode 1 "ann" 2).Row.get "creator_id" = some (.int64 2) := rfl
    rw [this] at hx
    cases hx
    rfl
  subst hx2
  exact ⟨ids, children, h1, h3, p', hp', hkey⟩

/-- C6, counterexample. User 3 has a NULL `creator_id`: the database answers
the primary query with the holder `NullInt64 0` with `Valid = false` for it.
The loader does not skip that parent: its row carries `creator_id = 0`, and
the follow-up query is dispatched with `id IN (2, 0)`. -/
theorem eager_null_parent_counterexample :
    (∃ spec, queryUsersWithCreator.querySpec = .ok spec ∧
      driverUsers spec = .ok (Rows.mk ["id", "username", "creator_id"]
        [[.NullInt64 1 true, .NullString "ann" true, .NullInt64 2 true],
          [.NullInt64 2 true, .NullString "bob" true, .NullInt64 2 true],
          [.NullInt64 3 true, .NullString "cy" true, .NullInt64 0 false]])) ∧
    queryUsersWithCreator.primary driverUsers
      = .ok [userNode 1 "ann" 2, userNode 2 "bob" 2, userNode 3 "cy" 0] ∧
    (queryUsersWithCreator.All driverUsers).log.map
        (fun spec => (spec.Table, spec.Predicate.map (fun p => (p (blankSelector spec.Table)).where_)))
      = [("user", none), ("user", some (some (.In "user.id" [.int 2, .int 0])))] :=
  ⟨⟨_, rfl, rfl⟩, rfl, rfl⟩

/-- C6, amended. A holder scanned from NULL gives the row the integer 0 (the
Valid flag is not read). When `All` succeeds, a parent whose `row[fk]` is 0
is not skipped by a single-valued entry `key -> (fk, sub-query)`: 0 is in the
id list of the follow-up query, and the parent carries under `key` the
returned child whose id is 0, and no entry exactly when no returned child has
id 0. -/
theorem eager_single_null (drv : Driver) (dq : DynamicQuery) (nodes0 nodes' : List Dynamic)
    (key fk : String) (sq : DynamicQuery) (j : Nat) (p : Dynamic)
    (hkeys : dq.withData.keys.Nodup) (hentry : dq.withData.get key = some (.mk fk true sq))
    (hprim : dq.primary drv = .ok nodes0)
    (hok : (dq.All drv).out = .ok nodes')
    (hj : nodes0[j]? = some p) (hnull : p.Row.get fk = some (.int64 0)) :
    (∀ d : Dynamic, fk ≠ FieldID →
      (assignStep d fk (.NullInt64 0 false)).Row.get fk = some (.int64 0)) ∧
    ∃ (ids : List Int) (children : List Dynamic),
      (0 : Int) ∈ ids ∧
      ((sq.Where [IDIn ids]).All drv).out = .ok children ∧
      ∃ p', nodes'[j]? = some p' ∧
        p'.edgesGet key = (children.filter (fun c => decide (c.ID = 0))).getLast? ∧
        (p'.edgesGet key = none ↔ ∀ c ∈ children, c.ID ≠ 0) := by
  constructor
  · intro d hne
    rw [assignStep_of_ne d fk _ hne]
    simp [convOf, GoMap.get_set_self]
  · have hne : nodes0 ≠ [] := by
      intro e
      rw [e] at hj
      simp at hj
    obtain ⟨ids, children, _, hids, hrun, _, hall⟩ :=
      All_single_core drv dq nodes0 nodes' key fk sq hkeys hentry hprim hne hok
    obtain ⟨p', x, hp', hx, _, _, hkey⟩ := hall j p hj
    rw [hnull] at hx
    have hx0 : x = 0 := by
      cases hx
      rfl
    subst hx0
    refine ⟨ids, children, (hids 0).mpr ⟨p, List.getElem?_mem hj, hnull⟩, hrun, p', hp', hkey, ?_⟩
    have hk : p'.edgesGet key = (children.filter (fun c => decide (c.ID = 0))).getLast? := hkey
    rw [hk, List.getLast?_eq_none_iff, List.filter_eq_nil_iff]
    simp

/-- Witness for C6, amended: user 3 with the NULL `creator_id`. -/
theorem eager_single_null_witness :
    ∃ (ids : List Int) (children : List Dynamic),
      (0 : Int) ∈ ids ∧
      (((testClient.Table "user").Query.Where [IDIn ids]).All driverUsers).out = .ok children := by
  obtain ⟨_, ids, children, h0, hrun, _⟩ := eager_single_null driverUsers queryUsersWithCreator
    [userNode 1 "ann" 2, userNode 2 "bob" 2, userNode 3 "cy" 0]
    [(userNode 1 "ann" 2).setSingle "creator" (userNode 2 "bob" 2),
      (userNode 2 "bob" 2).setSingle "creator" (userNode 2 "bob" 2),
      userNode 3 "cy" 0]
    "creator" "creator_id" (testClient.Table "user").Query 2 (userNode 3 "cy" 0)
    (by decide) rfl rfl rfl rfl rfl
  exact ⟨ids, children, h0, hrun⟩

/-- C4. Eager load, list valued. When `All` succeeds on a query whose primary
result is not empty and has pairwise distinct ids, then for every list-valued
entry `key -> (fk, sub-query)` of `withData` there is one follow-up query,
the sub-query filtered by `fk IN (parent ids)`; after `All` each parent
carries under `key` exactly the returned children whose `row[fk]` is its id,
in the order they were returned, and every returned child has the id of
exactly one parent as its `row[fk]`; ids and rows of the parents are
unchanged. -/
theorem eager_list_spec (drv : Driver) (dq : DynamicQuery) (nodes0 nodes' : List Dynamic)
    (key fk : String) (sq : DynamicQuery)
    (hkeys : dq.withData.keys.Nodup) (hentry : dq.withData.get key = some (.mk fk false sq))
    (hprim : dq.primary drv = .ok nodes0) (hne : nodes0 ≠ [])
    (hids : (nodes0.map Dynamic.ID).Nodup)
    (hok : (dq.All drv).out = .ok nodes') :
    ∃ children : List Dynamic,
      ((sq.Where [listPredicate fk nodes0]).All drv).out = .ok children ∧
      nodes'.length = nodes0.length ∧
      (∀ (j : Nat) (p : Dynamic), nodes0[j]? = some p →
        ∃ p', nodes'[j]? = some p' ∧ p'.ID = p.ID ∧ p'.Row = p.Row ∧
          p'.edgesList key =
            children.filter (fun c => decide (c.Row.get fk = some (.int64 p.ID)))) ∧
      (∀ c ∈ children, ∃ (j : Nat) (p : Dynamic), nodes0[j]? = some p ∧
        c.Row.get fk = some (.int64 p.ID) ∧
        ∀ (j2 : Nat) (p2 : Dynamic), nodes0[j2]? = some p2 →
          c.Row.get fk = some (.int64 p2.ID) → j2 = j) := by
  rw [All_of_primary drv dq nodes0 hprim hne] at hok
  obtain ⟨children, hrun, hch, hlen, hall⟩ :=
    loadEdges_list drv dq.withData nodes0 nodes' key fk sq hkeys hids hentry hok
  refine ⟨children, hrun, hlen, ?_, ?_⟩
  · intro j p hj
    obtain ⟨p', hp', hid, hrow, hkey⟩ := hall j p hj
    refine ⟨p', hp', hid, hrow, ?_⟩
    have hfresh := (primary_fresh drv dq nodes0 hprim p (List.getElem?_mem hj)).2
    unfold Dynamic.edgesList
    rw [hkey, hfresh]
    simp only [GoMap.get, Option.getD_none, List.nil_append]
    apply List.filter_congr
    intro c _
    have := fkOf_eq_some fk c p.ID
    by_cases h : fkOf fk c = some p.ID
    · simp [h, this.mp h]
    · have h2 : ¬ c.Row.get fk = some (.int64 p.ID) := fun e => h (this.mpr e)
      simp [h, h2]
  · intro c hc
    obtain ⟨p, hp, hfk⟩ := hch c hc
    obtain ⟨j, hj⟩ := List.getElem?_of_mem hp
    refine ⟨j, p, hj, (fkOf_eq_some fk c p.ID).mp hfk, ?_⟩
    intro j2 p2 hj2 h2
    have e : p2.ID = p.ID := by
      have h3 := (fkOf_eq_some fk c p.ID).mp hfk
      rw [h3] at h2
      have h4 : p.ID = p2.ID := by simpa using h2
      exact h4.symm
    have a1 : (nodes0.map Dynamic.ID)[j2]? = some p.ID := by
      simp [List.getElem?_map, hj2, e]
    have a2 : (nodes0.map Dynamic.ID)[j]? = some p.ID := by
      simp [List.getElem?_map, hj]
    exact nodup_getElem?_inj _ hids j2 j p.ID a1 a2

/-- Witness for C4: scenario S3, user 1 with the two `test_aaa` rows whose
`field1` is 1. -/
theorem eager_list_spec_witness :
    ∃ children : List Dynamic,
      (((testClient.Table "test_aaa").Query.Where
        [listPredicate "field1" [userNode 1 "ann" 1]]).All driverS3).out = .ok children ∧
      ∃ p', (queryUserWithList.All driverS3).out = .ok [p'] ∧
        p'.edgesList "test_list" =
          children.filter (fun c => decide (c.Row.get "field1" = some (.int64 1))) ∧
        (p'.edgesList "test_list").map Dynamic.ID = [1, 2] := by
  obtain ⟨children, hrun, _, hall, _⟩ := eager_list_spec driverS3 queryUserWithList
    [userNode 1 "ann" 1]
    [((userNode 1 "ann" 1).appendList "test_list" (aaaNode 1 1 2)).appendList "test_list"
      (aaaNode 2 1 3)]
    "test_list" "field1" (testClient.Table "test_aaa").Query
    (by decide) rfl rfl (by simp) (by decide) rfl
  obtain ⟨p', hp', _, _, hkey⟩ := hall 0 (userNode 1 "ann" 1) rfl
  have hp : p' = ((userNode 1 "ann" 1).appendList "test_list" (aaaNode 1 1 2)).appendList
      "test_list" (aaaNode 2 1 3) := by
    simpa using hp'.symm
  subst hp
  exact ⟨children, hrun, _, rfl, hkey, rfl⟩

/-! ## Old values -/

theorem Get_nil_table (drv : Driver) (c : Dent.Table) (id : Int) (h : c.Table = none) :
    (c.Get drv id).out = .panic nilDeref ∧ (c.Get drv id).log = [] := by
  have hall : ((c.Query.Where [ID id]).Limit 2).All drv
      = { state := (c.Query.Where [ID id]).Limit 2, log := [], out := .panic nilDeref } := by
    simp [DynamicQuery.All, DynamicQuery.prepareQuery, DynamicQuery.prepareFields,
      DynamicQuery.sqlAll, DynamicQuery.sqlAllWith, DynamicQuery.querySpec, Table.Query,
      DynamicQuery.Where, DynamicQuery.Limit, DynamicQuery.table, DynamicQuery.fields,
      DynamicQuery.path, h]
  simp [Table.Get, DynamicQuery.Only, hall]

theorem OldValue_byID_unused_not_done (drv : Driver) (m : DynamicMutation) (c : String) (id : Int)
    (hop : m.op = .OpUpdateOne) (hdone : m.done = false) (hc : m.data.has c = true)
    (hl : m.oldValue = some (.byID id none)) :
    (m.OldValue drv c).out = .panic nilDeref ∧ (m.OldValue drv c).log = [] ∧
    (m.OldValue drv c).state = { m with oldValue := some (.byID id (some (none, none))) } := by
  cases ht : m.table.Table with
  | none => simp [DynamicMutation.OldValue, hop, Op.Is, hc, hl, hdone, ht]
  | some t =>
    have hg := Get_nil_table drv (m.Client.Table t.Name) id
      (by simp [DynamicMutation.Client, Client.init, Client.Table, GoMap.get])
    simp [DynamicMutation.OldValue, hop, Op.Is, hc, hl, hdone, ht, hg.1, hg.2]

theorem OldValue_loads (drv : Driver) (m : DynamicMutation) (c : String) :
    (m.OldValue drv c).loads ≤ 1 ∧ ¬ (m.OldValue drv c).state.unloaded ∨
    (m.OldValue drv c).loads = 0 ∧ (m.OldValue drv c).state = m := by
  unfold DynamicMutation.OldValue
  split
  · exact Or.inr ⟨rfl, rfl⟩
  · split
    · exact Or.inr ⟨rfl, rfl⟩
    · split
      · exact Or.inr ⟨rfl, rfl⟩
      · exact Or.inr ⟨rfl, rfl⟩
      · exact Or.inr ⟨rfl, rfl⟩
      · split
        · left
          refine ⟨by simp, ?_⟩
          rintro ⟨id', h⟩
          simp at h
        · split
          · left
            refine ⟨by simp, ?_⟩
            rintro ⟨id', h⟩
            simp at h
          · dsimp only
            split <;>
            · left
              refine ⟨by simp, ?_⟩
              rintro ⟨id', h⟩
              simp at h

theorem OldValue_settled (drv : Driver) (m : DynamicMutation) (c : String)
    (h : ¬ m.unloaded) :
    (m.OldValue drv c).loads = 0 ∧ (m.OldValue drv c).state = m := by
  unfold DynamicMutation.OldValue
  split
  · exact ⟨rfl, rfl⟩
  · split
    · exact ⟨rfl, rfl⟩
    · split
      · exact ⟨rfl, rfl⟩
      · exact ⟨rfl, rfl⟩
      · exact ⟨rfl, rfl⟩
      · rename_i id hl
        exact absurd ⟨id, hl⟩ h

theorem OldValues_settled (drv : Driver) (cols : List String) :
    ∀ m : DynamicMutation, ¬ m.unloaded → (m.OldValues drv cols).2 = 0 := by
  induction cols with
  | nil => intro m _; rfl
  | cons c rest ih =>
    intro m h
    obtain ⟨h1, h2⟩ := OldValue_settled drv m c h
    simp only [DynamicMutation.OldValues, h1, h2, Nat.zero_add]
    exact ih m h

theorem OldValues_loads (drv : Driver) (cols : List String) :
    ∀ m : DynamicMutation, (m.OldValues drv cols).2 ≤ 1 := by
  induction cols with
  | nil => intro m; simp [DynamicMutation.OldValues]
  | cons c rest ih =>
    intro m
    simp only [DynamicMutation.OldValues]
    rcases OldValue_loads drv m c with ⟨h1, h2⟩ | ⟨h1, h2⟩
    · rw [OldValues_settled drv rest _ h2]
      simpa using h1
    · rw [h1, h2, Nat.zero_add]
      exact ih m

theorem SetValue_done (m : DynamicMutation) (c : String) (v : Value) :
    (m.SetValue c v).1.done = m.done := by
  unfold DynamicMutation.SetValue
  split
  · rfl
  · split <;> rfl

theorem AddValue_done (m : DynamicMutation) (c : String) (i : Int) :
    (m.AddValue c i).1.done = m.done := by
  unfold DynamicMutation.AddValue
  split
  · rfl
  · split
    · split
      · dsimp only
        split <;> split <;> rfl
      · rfl
    · rfl

theorem AddField_done (m : DynamicMutation) (c : String) (v : Value) :
    (m.AddField c v).1.done = m.done := by
  unfold DynamicMutation.AddField
  split
  · exact AddValue_done m c _
  · rfl

theorem OldValue_done (drv : Driver) (m : DynamicMutation) (c : String) :
    (m.OldValue drv c).state.done = m.done := by
  unfold DynamicMutation.OldValue
  split
  · rfl
  · split
    · rfl
    · split
      · rfl
      · rfl
      · rfl
      · split
        · rfl
        · split
          · rfl
          · dsimp only
            split <;> rfl

/-- C12, counterexample. On the create mutation of `test_aaa`, `OldValue`
fails with the plain error of `errors.New`, which is not a Validation error. -/
theorem OldValue_not_UpdateOne_counterexample :
    ((withField tableTestAAA.Columns
        (newDynamicMutation (testClient.Table "test_aaa") .OpCreate)).OldValue
      driverTwoRows "field1").out
      = .err (.errorf "OldCreatorID is only allowed on UpdateOne operations" []) ∧
    ¬ ∃ name e, ((withField tableTestAAA.Columns
        (newDynamicMutation (testClient.Table "test_aaa") .OpCreate)).OldValue
      driverTwoRows "field1").out = .err (.ValidationError name e) := by
  have h : ((withField tableTestAAA.Columns
        (newDynamicMutation (testClient.Table "test_aaa") .OpCreate)).OldValue
      driverTwoRows "field1").out
      = .err (.errorf "OldCreatorID is only allowed on UpdateOne operations" []) := rfl
  refine ⟨h, ?_⟩
  rintro ⟨name, e, h2⟩
  rw [h] at h2
  cases h2

/-- C12, amended. On a mutation whose operation is not UpdateOne, `OldValue`
fails with the plain error "OldCreatorID is only allowed on UpdateOne
operations" (made by `errors.New`, not a Validation error), leaves the
mutation as it is and neither calls the loader nor dispatches a query. Over
any sequence of `OldValue` calls on a mutation, the loader starts its
database load at most once. -/
theorem OldValue_only_UpdateOne (drv : Driver) (m : DynamicMutation) (c : String)
    (cols : List String) :
    (m.op ≠ .OpUpdateOne →
      (m.OldValue drv c).out
        = .err (.errorf "OldCreatorID is only allowed on UpdateOne operations" []) ∧
      (m.OldValue drv c).state = m ∧ (m.OldValue drv c).loads = 0 ∧
      (m.OldValue drv c).log = []) ∧
    (m.OldValues drv cols).2 ≤ 1 := by
  refine ⟨?_, OldValues_loads drv cols m⟩
  intro hop
  simp [DynamicMutation.OldValue, Op.Is, hop]

/-- Witness for C12, amended: the delete mutation of `test_aaa`. -/
theorem OldValue_only_UpdateOne_witness :
    ((newDynamicMutation (testClient.Table "test_aaa") .OpDelete).OldValue
      driverTwoRows "field1").out
      = .err (.errorf "OldCreatorID is only allowed on UpdateOne operations" []) :=
  ((OldValue_only_UpdateOne driverTwoRows
    (newDynamicMutation (testClient.Table "test_aaa") .OpDelete) "field1" []).1
    (by decide)).1

/-! ## The mutation builders -/

theorem selectColumns_first_invalid (t : SchemaTable) (f : String) (post : List String)
    (hf : t.HasColumn f = false) :
    ∀ pre : List String, (∀ x ∈ pre, t.HasColumn x = true) →
      selectColumns t (pre ++ f :: post)
        = .error (.ValidationError f (.errorf "ent: invalid field %q for query" [.string f])) := by
  intro pre
  induction pre with
  | nil => intro _; simp [selectColumns, hf]
  | cons x pre ih =>
    intro h
    have hx : t.HasColumn x = true := h x (List.mem_cons_self _ _)
    have hrest := ih (fun y hy => h y (List.mem_cons_of_mem _ hy))
    simp [selectColumns, hx, hrest]

/-- C13. On an update-one builder whose table carries a descriptor: when the
mutation has no id, `Save` fails with the Validation error named `id` and
hands no statement to the graph layer; when it has an id and the selected
fields name, after columns only, a field that is not a column of the table,
`Save` fails with the Validation error named by that field and hands no
statement to the graph layer. -/
theorem UpdateOne_Save_validation (g : GraphDriver) (duo : DynamicUpdateOne) (t : SchemaTable)
    (ht : duo.mutation.table.Table = some t) :
    (duo.mutation.id = none →
      (duo.Save g).out
        = .err (.ValidationError "id" (.errorf "ent: missing \"Dynamic.id\" for update" [])) ∧
      (duo.Save g).log = []) ∧
    (∀ (id : Int) (pre : List String) (f : String) (post : List String),
      duo.mutation.id = some id → duo.fields = pre ++ f :: post →
      (∀ x ∈ pre, t.HasColumn x = true) → t.HasColumn f = false →
      (duo.Save g).out
        = .err (.ValidationError f (.errorf "ent: invalid field %q for query" [.string f])) ∧
      (duo.Save g).log = []) := by
  constructor
  · intro hid
    simp [DynamicUpdateOne.Save, DynamicUpdateOne.sqlSave, DynamicUpdateOne.updateSpec, ht,
      DynamicMutation.ID, hid, FieldID]
  · intro id pre f post hid hfields hpre hf
    have hsel := selectColumns_first_invalid t f post hf pre hpre
    simp [DynamicUpdateOne.Save, DynamicUpdateOne.sqlSave, DynamicUpdateOne.updateSpec, ht,
      DynamicMutation.ID, hid, hfields, hsel]

/-- Witness for C13: `Table("test_aaa").UpdateOneID(1).Select("nope")`. -/
theorem UpdateOne_Save_validation_witness :
    ((((testClient.Table "test_aaa").UpdateOneID 1).Select "nope" []).Save graphNoRows).out
      = .err (.ValidationError "nope" (.errorf "ent: invalid field %q for query" [.string "nope"])) ∧
    ((((testClient.Table "test_aaa").UpdateOneID 1).Select "nope" []).Save graphNoRows).log = [] :=
  (UpdateOne_Save_validation graphNoRows
    (((testClient.Table "test_aaa").UpdateOneID 1).Select "nope" []) tableTestAAA rfl).2
    1 [] "nope" [] rfl rfl (by simp) (by decide)

theorem withField_frame (cols : List Column) (m : DynamicMutation) :
    (withField cols m).predicates = m.predicates ∧ (withField cols m).table = m.table := by
  unfold withField
  induction cols generalizing m with
  | nil => exact ⟨rfl, rfl⟩
  | cons col cols ih =>
    simp only [List.foldl_cons]
    rw [(ih _).1, (ih _).2]
    split <;> exact ⟨rfl, rfl⟩

theorem Delete_Exec_out (g : GraphDriver) (dd : DynamicDelete) (t : SchemaTable)
    (ht : dd.mutation.table.Table = some t) :
    ∃ spec, dd.deleteSpec = .ok spec ∧ spec.Table = t.Name ∧
      (dd.Exec g).log = [.DeleteNodes spec] ∧
      (dd.Exec g).out =
        (match g.DeleteNodes spec with
        | .error e => .err (g.constraint e)
        | .ok n => .ok n) := by
  refine ⟨_, by simp [DynamicDelete.deleteSpec, ht]; rfl, rfl, ?_, ?_⟩
  · simp only [DynamicDelete.Exec, DynamicDelete.sqlExec, DynamicDelete.deleteSpec, ht]
    split <;> rfl
  · simp only [DynamicDelete.Exec, DynamicDelete.sqlExec, DynamicDelete.deleteSpec, ht]
    split <;> simp_all

/-- C14. For a delete-one builder whose table carries a descriptor, `Exec`
hands one delete statement to the graph layer. When the statement fails,
`Exec` returns the error of the underlying `DynamicDelete.Exec` (the error of
the statement, wrapped when it is a constraint error); when it succeeds with
0 affected rows, `Exec` returns NotFound with the name of the table; when it
succeeds with another count, `Exec` returns no error, so that for a count
that is not negative no error means at least 1 affected row. The builder of
`DeleteOneID(id)` on a table with a descriptor has the operation DeleteOne,
the id `id` and the single predicate `ID(id)`. -/
theorem DeleteOne_Exec_spec (g : GraphDriver) (ddo : DynamicDeleteOne) (t : SchemaTable)
    (ht : ddo.dd.mutation.table.Table = some t)
    (c : Dent.Table) (tc : SchemaTable) (hc : c.Table = some tc) (id : Int) :
    (∃ spec, ddo.dd.deleteSpec = .ok spec ∧ (ddo.Exec g).log = [.DeleteNodes spec] ∧
      (∀ e, g.DeleteNodes spec = .error e →
        (ddo.dd.Exec g).out = .err (g.constraint e) ∧ (ddo.Exec g).out = .err (g.constraint e)) ∧
      (g.DeleteNodes spec = .ok 0 → (ddo.Exec g).out = .err (.NotFoundError t.Name)) ∧
      (∀ n, g.DeleteNodes spec = .ok n → n ≠ 0 → (ddo.Exec g).out = .ok ()) ∧
      (∀ n, g.DeleteNodes spec = .ok n → 0 ≤ n → ((ddo.Exec g).out = .ok () ↔ 1 ≤ n))) ∧
    (∃ b, c.DeleteOneID id = .ok b ∧ b.dd.mutation.op = .OpDeleteOne ∧
      b.dd.mutation.id = some id ∧ b.dd.mutation.predicates = [ID id] ∧
      b.dd.mutation.table = c) := by
  obtain ⟨spec, hspec, _, hlog, hout⟩ := Delete_Exec_out g ddo.dd t ht
  constructor
  · refine ⟨spec, hspec, ?_, ?_, ?_, ?_, ?_⟩
    · simp only [DynamicDeleteOne.Exec]
      split <;> (try split) <;> (try split) <;> exact hlog
    · intro e he
      have h1 : (ddo.dd.Exec g).out = .err (g.constraint e) := by rw [hout, he]
      exact ⟨h1, by simp [DynamicDeleteOne.Exec, h1]⟩
    · intro h0
      have h1 : (ddo.dd.Exec g).out = .ok 0 := by rw [hout, h0]
      simp [DynamicDeleteOne.Exec, h1, ht]
    · intro n hn hne
      have h1 : (ddo.dd.Exec g).out = .ok n := by rw [hout, hn]
      simp [DynamicDeleteOne.Exec, h1, hne]
    · intro n hn hpos
      have h1 : (ddo.dd.Exec g).out = .ok n := by rw [hout, hn]
      by_cases h0 : n = 0
      · subst h0
        simp [DynamicDeleteOne.Exec, h1, ht]
      · have : 1 ≤ n := by omega
        simp [DynamicDeleteOne.Exec, h1, h0, this]
  · have hfold := withField_frame
    refine ⟨_, by simp [Table.DeleteOneID, Table.Delete, hc]; rfl, rfl, rfl, ?_, ?_⟩
    · simp [DynamicDelete.Where, DynamicMutation.Where, (hfold _ _).1, newDynamicMutation]
    · simp [DynamicDelete.Where, DynamicMutation.Where, (hfold _ _).2, newDynamicMutation,
        Table.Clone]

/-- Witness for C14: `Table("test_aaa").DeleteOneID(7)` on a database without
rows. -/
theorem DeleteOne_Exec_spec_witness :
    (deleteOneAAA.Exec graphNoRows).out = .err (.NotFoundError "test_aaa") ∧
    (testClient.Table "test_aaa").DeleteOneID 7 = .ok deleteOneAAA := by
  obtain ⟨⟨spec, hspec, _, _, h0, _⟩, _⟩ :=
    DeleteOne_Exec_spec graphNoRows deleteOneAAA tableTestAAA rfl
      (testClient.Table "test_aaa") tableTestAAA rfl 7
  exact ⟨h0 rfl, rfl⟩

theorem DeleteOne_ExecX_out (g : GraphDriver) (ddo : DynamicDeleteOne) :
    (ddo.ExecX g).2 =
      (match (ddo.dd.Exec g).out with
      | .err e => .panicErr e
      | .panic msg => .panic msg
      | .ok _ => .ok ()) := by
  simp only [DynamicDeleteOne.ExecX, DynamicDelete.ExecX]
  cases (ddo.dd.Exec g).out <;> rfl

/-- C15. For a delete-one builder whose table carries a descriptor, when the
delete statement succeeds with 0 affected rows `Exec` returns the NotFound
error and `ExecX` returns normally, without a panic; `ExecX` panics exactly
when the underlying `DynamicDelete.Exec` returns an error. -/
theorem DeleteOne_ExecX_zero_rows (g : GraphDriver) (ddo : DynamicDeleteOne) (t : SchemaTable)
    (spec : DeleteSpec) (ht : ddo.dd.mutation.table.Table = some t)
    (hspec : ddo.dd.deleteSpec = .ok spec) (h0 : g.DeleteNodes spec = .ok 0) :
    (ddo.Exec g).out = .err (.NotFoundError t.Name) ∧ (ddo.ExecX g).2 = .ok () ∧
    (∀ e, (ddo.ExecX g).2 = .panicErr e ↔ (ddo.dd.Exec g).out = .err e) := by
  obtain ⟨spec2, hspec2, _, _, hout⟩ := Delete_Exec_out g ddo.dd t ht
  have hs : spec2 = spec := by
    rw [hspec] at hspec2
    cases hspec2
    rfl
  subst hs
  have h1 : (ddo.dd.Exec g).out = .ok 0 := by rw [hout, h0]
  refine ⟨?_, ?_, ?_⟩
  · simp [DynamicDeleteOne.Exec, h1, ht]
  · rw [DeleteOne_ExecX_out, h1]
  · intro e
    rw [DeleteOne_ExecX_out, h1]
    simp

/-- Witness for C15: `Table("test_aaa").DeleteOneID(7)` on a database without
rows. -/
theorem DeleteOne_ExecX_zero_rows_witness :
    (deleteOneAAA.Exec graphNoRows).out = .err (.NotFoundError "test_aaa") ∧
    (deleteOneAAA.ExecX graphNoRows).2 = .ok () :=
  ⟨(DeleteOne_ExecX_zero_rows graphNoRows deleteOneAAA tableTestAAA _ rfl rfl rfl).1,
    (DeleteOne_ExecX_zero_rows graphNoRows deleteOneAAA tableTestAAA _ rfl rfl rfl).2.1⟩

/-- The statement of `Table("test_aaa").UpdateOneID(1).Save` on a database without the
row does not fail in the driver: the graph layer reports that no row matched
(`*sqlgraph.NotFoundError`), and `Save` returns the NotFound error of the
package with the name of the table. -/
theorem UpdateOne_Save_no_row :
    graphNoRows.UpdateNode updateOneAAASpec
      = .error (.sqlgraphNotFound "test_aaa" (.int 1)) ∧
    (((testClient.Table "test_aaa").UpdateOneID 1).Save graphNoRows).log
      = [.UpdateNode updateOneAAASpec] ∧
    (((testClient.Table "test_aaa").UpdateOneID 1).Save graphNoRows).out
      = .err (.NotFoundError "test_aaa") :=
  ⟨rfl, rfl, rfl⟩

/-- C18. Error classification in the mutation builders. When the statement
of `DynamicCreate.Save`, `DynamicUpdate.Save`, `DynamicUpdateOne.Save` or
`DynamicDelete.Exec` fails with a driver error e, that is, with any error
other than the no-row report `*sqlgraph.NotFoundError` that the graph layer
makes itself, the builder returns a Constraint error with message
`e.Error()` that wraps e when the graph layer classifies e as a constraint
error, and e itself, unchanged, otherwise. -/
theorem builders_classify_errors (g : GraphDriver) (e : Err)
    (hdrv : ∀ tb id, e ≠ .sqlgraphNotFound tb id) :
    (∀ (dc : DynamicCreate) (node : Dynamic) (spec : CreateSpec),
      dc.createSpec = .ok (node, spec) → g.CreateNode spec = .error e →
      (g.IsConstraintError e = true → (dc.Save g).out = .err (.ConstraintError (g.Error e) e)) ∧
      (g.IsConstraintError e = false → (dc.Save g).out = .err e)) ∧
    (∀ (du : DynamicUpdate) (spec : UpdateSpec),
      du.updateSpec = .ok spec → g.UpdateNodes spec = .error e →
      (g.IsConstraintError e = true → (du.Save g).out = .err (.ConstraintError (g.Error e) e)) ∧
      (g.IsConstraintError e = false → (du.Save g).out = .err e)) ∧
    (∀ (duo : DynamicUpdateOne) (node : Dynamic) (spec : UpdateSpec),
      duo.updateSpec = .ok (node, spec) → g.UpdateNode spec = .error e →
      (g.IsConstraintError e = true →
        (duo.Save g).out = .err (.ConstraintError (g.Error e) e)) ∧
      (g.IsConstraintError e = false → (duo.Save g).out = .err e)) ∧
    (∀ (dd : DynamicDelete) (spec : DeleteSpec),
      dd.deleteSpec = .ok spec → g.DeleteNodes spec = .error e →
      (g.IsConstraintError e = true → (dd.Exec g).out = .err (.ConstraintError (g.Error e) e)) ∧
      (g.IsConstraintError e = false → (dd.Exec g).out = .err e)) := by
  have htr : ∀ tb, g.translate tb e = g.constraint e := by
    intro tb
    cases e <;> first | rfl | exact absurd rfl (hdrv _ _)
  refine ⟨?_, ?_, ?_, ?_⟩
  · intro dc node spec hs he
    constructor <;> intro hc <;>
      simp [DynamicCreate.Save, DynamicCreate.sqlSave, hs, he, GraphDriver.constraint, hc]
  · intro du spec hs he
    constructor <;> intro hc <;>
      simp [DynamicUpdate.Save, DynamicUpdate.sqlSave, hs, he, htr, GraphDriver.constraint, hc]
  · intro duo node spec hs he
    constructor <;> intro hc <;>
      simp [DynamicUpdateOne.Save, DynamicUpdateOne.sqlSave, hs, he, htr,
        GraphDriver.constraint, hc]
  · intro dd spec hs he
    constructor <;> intro hc <;>
      simp [DynamicDelete.Exec, DynamicDelete.sqlExec, hs, he, GraphDriver.constraint, hc]

/-- Witness for C18: `Table("test_aaa").Update().Save` on a database that
answers with a duplicate-key error, which the graph layer classifies as a
constraint error. -/
theorem builders_classify_errors_witness :
    graphDuplicate.IsConstraintError (.driver "Error 1062: Duplicate entry") = true ∧
    ((testClient.Table "test_aaa").Update.Save graphDuplicate).out
      = .err (.ConstraintError "Error 1062: Duplicate entry"
          (.driver "Error 1062: Duplicate entry")) :=
  ⟨rfl, ((builders_classify_errors graphDuplicate (.driver "Error 1062: Duplicate entry")
    (fun _ _ h => nomatch h)).2.1 (testClient.Table "test_aaa").Update _ rfl rfl).1 rfl⟩

/-! ## Clone -/

theorem Clone_withData_get (m : WithDataMap) (k : String) :
    (WithDataMap.Clone m).get k
      = (m.get k).map (fun w => WithQuery.mk w.fromkey false w.query.Clone) := by
  refine WithDataMap.induct
    (fun m => (WithDataMap.Clone m).get k
      = (m.get k).map (fun w => WithQuery.mk w.fromkey false w.query.Clone)) ?_ ?_ m
  · simp [WithDataMap.Clone, WithDataMap.get]
  · intro key w rest ih
    cases w with
    | mk fk single q =>
      simp only [WithDataMap.Clone, WithDataMap.get]
      split
      · rfl
      · exact ih

theorem Clone_withData_keys (m : WithDataMap) : (WithDataMap.Clone m).keys = m.keys := by
  refine WithDataMap.induct (fun m => (WithDataMap.Clone m).keys = m.keys) ?_ ?_ m
  · simp [WithDataMap.Clone, WithDataMap.keys]
  · intro key w rest ih
    cases w with
    | mk fk single q => simp [WithDataMap.Clone, WithDataMap.keys, ih]

/-- C19. What `Clone` does: the clone has the limit, offset, unique flag,
order list, predicate list and table of the query and an entry for each of
its eager-load store keys, with the same from key and the clone of the
sub-query; but the selected fields of the clone are empty, and every entry of
the clone has `single = false`, whatever the flag of the entry it was made
from. -/
theorem Clone_drops_single (q : DynamicQuery) :
    q.Clone.limit = q.limit ∧ q.Clone.offset = q.offset ∧ q.Clone.unique = q.unique ∧
    q.Clone.order = q.order ∧ q.Clone.predicates = q.predicates ∧ q.Clone.table = q.table ∧
    q.Clone.withData.keys = q.withData.keys ∧ q.Clone.fields = [] ∧
    (∀ k w, q.withData.get k = some w →
      q.Clone.withData.get k = some (.mk w.fromkey false w.query.Clone)) := by
  cases q with
  | mk l o u ord f p s pa w t =>
    refine ⟨rfl, rfl, rfl, rfl, rfl, rfl, ?_, rfl, ?_⟩
    · simp [DynamicQuery.Clone, DynamicQuery.withData, Clone_withData_keys]
    · intro k w0 h
      simp only [DynamicQuery.withData] at h
      simp [DynamicQuery.Clone, DynamicQuery.withData, Clone_withData_get, h]

/-- Witness for C19: the clone of the query of users with their creator has a
list entry where the query has a single entry, and on the same database the
query stores user 2 as `creator` of the users 1 and 2 while the clone stores
nobody as `creator` and appends the users 1 and 2 to a list of user 2. -/
theorem Clone_drops_single_witness :
    (queryUsersWithCreator.withData.get "creator").map WithQuery.single = some true ∧
    queryUsersWithCreator.Clone.withData.get "creator"
      = some (.mk "creator_id" false (testClient.Table "user").Query.Clone) ∧
    edgeSummary "creator" (queryUsersWithCreator.All driverUsersDB).out
      = [(1, some 2, []), (2, some 2, []), (3, none, [])] ∧
    edgeSummary "creator" (queryUsersWithCreator.Clone.All driverUsersDB).out
      = [(1, none, []), (2, none, [1, 2]), (3, none, [])] :=
  ⟨rfl, (Clone_drops_single queryUsersWithCreator).2.2.2.2.2.2.2.2 "creator"
    (.mk "creator_id" true (testClient.Table "user").Query) rfl, rfl, rfl⟩

/-! ## The entity behind an update-one builder -/

theorem Dynamic.withRow_Row (e : Dynamic) : e.withRow e.Row = e := by
  cases e
  rfl

/-- C20. The mutation behind `Table.UpdateOne(e)` (and `e.Update()`) starts
with the id of e and with `data` equal to the row of e; but `data` is the map
of e itself, not a copy: on a table with a descriptor, `SetValue` of a column
on the builder stores the pointer to the new value in the row of e and
`ClearValue` deletes the entry from the row of e, `OldValue` of the column
then returns the new value, and `AddValue` on an integer column whose entry
is a Go `int` stores the sum in the row of e. -/
theorem withEntity_aliases_row (drv : Driver) (c : Dent.Table) (t : SchemaTable) (e : Dynamic)
    (f : String) (v : Value) (hc : c.Table = some t) (hf : t.HasColumn f = true) :
    (c.UpdateOne e).mutation.id = some e.ID ∧ (c.UpdateOne e).mutation.data = e.Row ∧
    (c.UpdateOne e).mutation.entity = some e ∧ e.Update = e.table.UpdateOne e ∧
    ((c.UpdateOne e).SetValue f v).1.mutation.entity
      = some (e.withRow (e.Row.set f (.ifacePtr v))) ∧
    ((c.UpdateOne e).ClearValue f).mutation.entity = some (e.withRow (e.Row.del f)) ∧
    (((c.UpdateOne e).SetValue f v).1.mutation.OldValue drv f).out = .ok (.ifacePtr v) ∧
    (∀ (col : Column) (x i : Int), t.Column f = some col → col.Type_.Integer = true →
      e.Row.get f = some (.int x) →
      ((c.UpdateOne e).AddValue f i).1.mutation.entity
        = some (e.withRow (e.Row.set f (.int (wrapInt (x + i)))))) := by
  have hset : ((c.UpdateOne e).SetValue f v).1.mutation
      = { (c.UpdateOne e).mutation with data := e.Row.set f (.ifacePtr v) } := by
    simp [DynamicUpdateOne.SetValue, DynamicMutation.SetValue, Table.UpdateOne, withEntity,
      newDynamicMutation, Table.Clone, hc, hf]
  refine ⟨rfl, rfl, ?_, rfl, ?_, ?_, ?_, ?_⟩
  · simp [Table.UpdateOne, withEntity, DynamicMutation.entity, Dynamic.withRow_Row]
  · rw [hset]
    cases e
    rfl
  · cases e
    rfl
  · rw [hset]
    cases e with
    | mk et ei er es el =>
      simp [DynamicMutation.OldValue, Table.UpdateOne, withEntity, newDynamicMutation, Op.Is,
        GoMap.has, GoMap.get_set_self, oldValueResult, Dynamic.withRow, Dynamic.Row]
  · intro col x i hcol hi hx
    have h := AddValue_on_int_entry (c.UpdateOne e).mutation t col f x i hc hcol hi hx
    simp only [DynamicUpdateOne.AddValue, h]
    cases e
    rfl

/-- Witness for C20: the entity of row 1 of `test_aaa` (`field1 = 1`,
`field2 = 2`); after `Update().SetValue("field1", 9)` its row holds the
pointer to 9 under `field1`. -/
theorem withEntity_aliases_row_witness :
    (((aaaNode 1 1 2).Update.SetValue "field1" (.int 9)).1.mutation.entity).map Dynamic.Row
      = some [("field1", .ifacePtr (.int 9)), ("field2", .int64 2)] ∧
    (aaaNode 1 1 2).Row = [("field1", .int64 1), ("field2", .int64 2)] :=
  ⟨congrArg (Option.map Dynamic.Row)
    (withEntity_aliases_row driverTwoRows (testClient.Table "test_aaa") tableTestAAA
      (aaaNode 1 1 2) "field1" (.int 9) rfl (by decide)).2.2.2.2.1, rfl⟩

/-! ## The bulk create -/

theorem bulkFinish_not_err (b : DynamicCreate) (node : Dynamic) (v : Value) (e : Err) :
    (bulkFinish b node v).2 ≠ .err e := by
  unfold bulkFinish
  split
  · split <;> simp
  · simp

theorem Dynamic.setID_ID (d : Dynamic) (id : Int) : (d.setID id).ID = id := by
  cases d
  rfl

theorem bulkFinish_ok (b : DynamicCreate) (node : Dynamic) (v : Value) (n : Dynamic)
    (h : (bulkFinish b node v).2 = .ok n) :
    (bulkFinish b node v).1.mutation.id = some n.ID ∧
    (bulkFinish b node v).1.mutation.done = true := by
  by_cases hc : v ≠ .nil ∧ node.ID = 0
  · cases v with
    | int64 id =>
      have h0 : node.ID = 0 := hc.2
      simp only [bulkFinish, h0, ne_eq, reduceCtorEq, not_false_eq_true, and_self, if_true,
        Outcome.ok.injEq] at h ⊢
      subst h
      simp [Dynamic.setID_ID]
    | nil => exact absurd rfl hc.1
    | _ => simp [bulkFinish, hc] at h
  · simp only [bulkFinish, hc, if_false, Outcome.ok.injEq] at h ⊢
    subst h
    simp

theorem bulkFinish_int64 (b : DynamicCreate) (node : Dynamic) (v : Int) :
    (bulkFinish b node (.int64 v)).2 = .ok (if node.ID = 0 then node.setID v else node) := by
  unfold bulkFinish
  by_cases h : node.ID = 0 <;> simp [h]

theorem bulkMutate_cons (g : GraphDriver) (i : Nat) (b : DynamicCreate)
    (rest : List DynamicCreate) (specs : List CreateSpec) (node : Dynamic) (spec : CreateSpec)
    (h : b.createSpec = .ok (node, spec)) :
    bulkMutate g i (b :: rest) specs =
      (match (bulkNext g i rest (specs ++ [spec])).out with
      | .err e =>
        { builders := b :: (bulkNext g i rest (specs ++ [spec])).builders,
          calls := i :: (bulkNext g i rest (specs ++ [spec])).calls,
          log := (bulkNext g i rest (specs ++ [spec])).log,
          ids := (bulkNext g i rest (specs ++ [spec])).ids, out := .err e }
      | .panic msg =>
        { builders := b :: (bulkNext g i rest (specs ++ [spec])).builders,
          calls := i :: (bulkNext g i rest (specs ++ [spec])).calls,
          log := (bulkNext g i rest (specs ++ [spec])).log,
          ids := (bulkNext g i rest (specs ++ [spec])).ids, out := .panic msg }
      | .ok nodes =>
        { builders := (bulkFinish b node
              ((bulkNext g i rest (specs ++ [spec])).ids.getD i spec.IDValue)).1
            :: (bulkNext g i rest (specs ++ [spec])).builders,
          calls := i :: (bulkNext g i rest (specs ++ [spec])).calls,
          log := (bulkNext g i rest (specs ++ [spec])).log,
          ids := (bulkNext g i rest (specs ++ [spec])).ids,
          out :=
            match (bulkFinish b node
              ((bulkNext g i rest (specs ++ [spec])).ids.getD i spec.IDValue)).2 with
            | .err e => .err e
            | .panic msg => .panic msg
            | .ok n => .ok (n :: nodes) }) := by
  simp only [bulkMutate, h, bulkNext]
  split
  · rfl
  · rfl
  · split <;> simp_all

theorem bulkNext_nil (g : GraphDriver) (i : Nat) (specs : List CreateSpec) :
    bulkNext g i [] specs =
      (match g.BatchCreate specs with
      | .error e =>
        { builders := [], calls := [], log := [.BatchCreate specs], ids := [],
          out := .err (g.constraint e) }
      | .ok ids =>
        { builders := [], calls := [], log := [.BatchCreate specs], ids := ids, out := .ok [] }) := by
  simp [bulkNext]

theorem bulkNext_cons (g : GraphDriver) (i : Nat) (b : DynamicCreate) (rest : List DynamicCreate)
    (specs : List CreateSpec) :
    bulkNext g i (b :: rest) specs = bulkMutate g (i + 1) (b :: rest) specs := by
  simp [bulkNext]

theorem bulkMutate_err_unchanged (g : GraphDriver) :
    ∀ (bs : List DynamicCreate) (i : Nat) (specs : List CreateSpec) (e : Err),
      (bulkMutate g i bs specs).out = .err e → (bulkMutate g i bs specs).builders = bs := by
  intro bs
  induction bs with
  | nil => intro i specs e h; simp [bulkMutate] at h
  | cons b rest ih =>
    intro i specs e h
    cases hcs : b.createSpec with
    | err e1 => simp [bulkMutate, hcs]
    | panic msg => simp [bulkMutate, hcs] at h
    | ok p =>
      obtain ⟨node, spec⟩ := p
      rw [bulkMutate_cons g i b rest specs node spec hcs] at h ⊢
      cases hn : (bulkNext g i rest (specs ++ [spec])).out with
      | err e1 =>
        simp only [hn]
        cases rest with
        | nil =>
          rw [bulkNext_nil]
          cases g.BatchCreate (specs ++ [spec]) <;> rfl
        | cons b2 rest2 =>
          rw [bulkNext_cons] at hn ⊢
          rw [ih (i + 1) (specs ++ [spec]) e1 hn]
      | panic msg => simp [hn] at h
      | ok nodes =>
        simp only [hn] at h
        cases hf : (bulkFinish b node
            ((bulkNext g i rest (specs ++ [spec])).ids.getD i spec.IDValue)).2 with
        | err e1 => exact absurd hf (bulkFinish_not_err _ _ _ _)
        | panic msg => rw [hf] at h; cases h
        | ok n => rw [hf] at h; cases h

theorem bulkMutate_ok_done (g : GraphDriver) :
    ∀ (bs : List DynamicCreate) (i : Nat) (specs : List CreateSpec) (nodes : List Dynamic),
      (bulkMutate g i bs specs).out = .ok nodes →
      List.Forall₂ (fun (b : DynamicCreate) (n : Dynamic) =>
          b.mutation.id = some n.ID ∧ b.mutation.done = true)
        (bulkMutate g i bs specs).builders nodes ∧
      nodes.length = bs.length := by
  intro bs
  induction bs with
  | nil =>
    intro i specs nodes h
    simp only [bulkMutate, Outcome.ok.injEq] at h
    subst h
    exact ⟨List.Forall₂.nil, rfl⟩
  | cons b rest ih =>
    intro i specs nodes h
    cases hcs : b.createSpec with
    | err e1 => simp [bulkMutate, hcs] at h
    | panic msg => simp [bulkMutate, hcs] at h
    | ok p =>
      obtain ⟨node, spec⟩ := p
      rw [bulkMutate_cons g i b rest specs node spec hcs] at h ⊢
      cases hn : (bulkNext g i rest (specs ++ [spec])).out with
      | err e1 => simp [hn] at h
      | panic msg => simp [hn] at h
      | ok nodes1 =>
        simp only [hn] at h ⊢
        cases hf : (bulkFinish b node
            ((bulkNext g i rest (specs ++ [spec])).ids.getD i spec.IDValue)).2 with
        | err e1 => rw [hf] at h; cases h
        | panic msg => rw [hf] at h; cases h
        | ok n =>
          rw [hf] at h
          simp only [Outcome.ok.injEq] at h
          subst h
          have hrest : List.Forall₂ (fun (b : DynamicCreate) (n : Dynamic) =>
                b.mutation.id = some n.ID ∧ b.mutation.done = true)
              (bulkNext g i rest (specs ++ [spec])).builders nodes1 ∧
              nodes1.length = rest.length := by
            cases rest with
            | nil =>
              rw [bulkNext_nil] at hn ⊢
              cases hb : g.BatchCreate (specs ++ [spec]) with
              | error e1 => simp [hb] at hn
              | ok ids =>
                simp only [hb, Outcome.ok.injEq] at hn ⊢
                subst hn
                exact ⟨List.Forall₂.nil, rfl⟩
            | cons b2 rest2 =>
              rw [bulkNext_cons] at hn ⊢
              exact ih (i + 1) (specs ++ [spec]) nodes1 hn
          exact ⟨List.Forall₂.cons (bulkFinish_ok _ _ _ _ hf) hrest.1, by simp [hrest.2]⟩

theorem bulkMutate_cons_proj (g : GraphDriver) (i : Nat) (b : DynamicCreate)
    (rest : List DynamicCreate) (specs : List CreateSpec) (node : Dynamic) (spec : CreateSpec)
    (h : b.createSpec = .ok (node, spec)) :
    (bulkMutate g i (b :: rest) specs).log = (bulkNext g i rest (specs ++ [spec])).log ∧
    (bulkMutate g i (b :: rest) specs).calls = i :: (bulkNext g i rest (specs ++ [spec])).calls ∧
    (bulkMutate g i (b :: rest) specs).ids = (bulkNext g i rest (specs ++ [spec])).ids ∧
    (∀ e, (bulkNext g i rest (specs ++ [spec])).out = .err e →
      (bulkMutate g i (b :: rest) specs).out = .err e) := by
  rw [bulkMutate_cons g i b rest specs node spec h]
  cases hn : (bulkNext g i rest (specs ++ [spec])).out with
  | err e1 => exact ⟨rfl, rfl, rfl, fun e he => by cases he; rfl⟩
  | panic msg => exact ⟨rfl, rfl, rfl, fun e he => by cases he⟩
  | ok nodes => exact ⟨rfl, rfl, rfl, fun e he => by cases he⟩

theorem bulkNext_facts (g : GraphDriver) (i : Nat) (rest : List DynamicCreate)
    (ps : List (Dynamic × CreateSpec)) (specs : List CreateSpec) (hr : BulkReady rest ps)
    (hA : rest ≠ [] →
      (bulkMutate g (i + 1) rest specs).log = [.BatchCreate (specs ++ ps.map Prod.snd)] ∧
      (bulkMutate g (i + 1) rest specs).calls = List.range' (i + 1) rest.length ∧
      (∀ e, g.BatchCreate (specs ++ ps.map Prod.snd) = .error e →
        (bulkMutate g (i + 1) rest specs).out = .err (g.constraint e)) ∧
      (∀ ids, g.BatchCreate (specs ++ ps.map Prod.snd) = .ok ids →
        (bulkMutate g (i + 1) rest specs).ids = ids)) :
    (bulkNext g i rest specs).log = [.BatchCreate (specs ++ ps.map Prod.snd)] ∧
    (bulkNext g i rest specs).calls = List.range' (i + 1) rest.length ∧
    (∀ e, g.BatchCreate (specs ++ ps.map Prod.snd) = .error e →
      (bulkNext g i rest specs).out = .err (g.constraint e)) ∧
    (∀ ids, g.BatchCreate (specs ++ ps.map Prod.snd) = .ok ids →
      (bulkNext g i rest specs).ids = ids) := by
  cases rest with
  | nil =>
    cases hr
    rw [bulkNext_nil]
    simp only [List.map_nil, List.append_nil]
    cases hb : g.BatchCreate specs with
    | error e1 =>
      refine ⟨rfl, rfl, ?_, ?_⟩
      · intro e he
        cases he
        rfl
      · intro ids he
        cases he
    | ok ids1 =>
      refine ⟨rfl, rfl, ?_, ?_⟩
      · intro e he
        cases he
      · intro ids he
        cases he
        rfl
  | cons b2 rest2 =>
    rw [bulkNext_cons]
    exact hA (by simp)

theorem bulkMutate_ready (g : GraphDriver) :
    ∀ (bs : List DynamicCreate) (pairs : List (Dynamic × CreateSpec)) (i : Nat)
      (specs : List CreateSpec), BulkReady bs pairs → bs ≠ [] →
      (bulkMutate g i bs specs).log = [.BatchCreate (specs ++ pairs.map Prod.snd)] ∧
      (bulkMutate g i bs specs).calls = List.range' i bs.length ∧
      (∀ e, g.BatchCreate (specs ++ pairs.map Prod.snd) = .error e →
        (bulkMutate g i bs specs).out = .err (g.constraint e)) ∧
      (∀ ids, g.BatchCreate (specs ++ pairs.map Prod.snd) = .ok ids →
        (bulkMutate g i bs specs).ids = ids) := by
  intro bs
  induction bs with
  | nil => intro pairs i specs _ hne; exact absurd rfl hne
  | cons b rest ih =>
    intro pairs i specs hr _
    cases hr with
    | cons hb hrest =>
      rename_i p ps
      obtain ⟨node, spec⟩ := p
      have hN := bulkNext_facts g i rest ps (specs ++ [spec]) hrest
        (fun hne => ih ps (i + 1) (specs ++ [spec]) hrest hne)
      have hP := bulkMutate_cons_proj g i b rest specs node spec hb
      have happ : specs ++ [spec] ++ ps.map Prod.snd
          = specs ++ ((node, spec) :: ps).map Prod.snd := by simp
      rw [happ] at hN
      refine ⟨by rw [hP.1, hN.1], ?_, ?_, ?_⟩
      · rw [hP.2.1, hN.2.1]
        rfl
      · intro e he
        exact hP.2.2.2 _ (hN.2.2.1 e he)
      · intro ids he
        rw [hP.2.2.1]
        exact hN.2.2.2 ids he

theorem bulkMutate_success (g : GraphDriver) :
    ∀ (bs : List DynamicCreate) (pairs : List (Dynamic × CreateSpec)) (i : Nat)
      (specs : List CreateSpec) (ids : List Value), BulkReady bs pairs → bs ≠ [] →
      g.BatchCreate (specs ++ pairs.map Prod.snd) = .ok ids → BulkInt64 ids i pairs →
      ∃ nodes, (bulkMutate g i bs specs).out = .ok nodes ∧ nodes.length = bs.length ∧
        ∀ (j : Nat) (p : Dynamic × CreateSpec) (v : Int), pairs[j]? = some p →
          ids.getD (i + j) p.2.IDValue = .int64 v →
          nodes[j]? = some (if p.1.ID = 0 then p.1.setID v else p.1) := by
  intro bs
  induction bs with
  | nil => intro pairs i specs ids _ hne; exact absurd rfl hne
  | cons b rest ih =>
    intro pairs i specs ids hr _ hbatch hint
    cases hr with
    | cons hb hrest =>
      rename_i p ps
      obtain ⟨node, spec⟩ := p
      have happ : specs ++ [spec] ++ ps.map Prod.snd
          = specs ++ ((node, spec) :: ps).map Prod.snd := by simp
      have hN := bulkNext_facts g i rest ps (specs ++ [spec]) hrest
        (fun hne => bulkMutate_ready g rest ps (i + 1) (specs ++ [spec]) hrest hne)
      rw [happ] at hN
      have hids := hN.2.2.2 ids hbatch
      have hint1 : BulkInt64 ids (i + 1) ps := by
        intro j q hq
        have := hint (j + 1) q (by simpa using hq)
        rwa [show i + (j + 1) = i + 1 + j from by omega] at this
      obtain ⟨v0, hv0⟩ := hint 0 (node, spec) (by simp)
      have hrestOut : ∃ nodes1, (bulkNext g i rest (specs ++ [spec])).out = .ok nodes1 ∧
          nodes1.length = rest.length ∧
          ∀ (j : Nat) (q : Dynamic × CreateSpec) (v : Int), ps[j]? = some q →
            ids.getD (i + 1 + j) q.2.IDValue = .int64 v →
            nodes1[j]? = some (if q.1.ID = 0 then q.1.setID v else q.1) := by
        cases rest with
        | nil =>
          cases hrest
          rw [bulkNext_nil]
          have hb2 : g.BatchCreate (specs ++ [spec]) = .ok ids := by simpa using hbatch
          rw [hb2]
          exact ⟨[], rfl, rfl, fun j q v hq => by simp at hq⟩
        | cons b2 rest2 =>
          rw [bulkNext_cons]
          rw [← happ] at hbatch
          exact ih ps (i + 1) (specs ++ [spec]) ids hrest (by simp) hbatch hint1
      obtain ⟨nodes1, hout1, hlen1, hall1⟩ := hrestOut
      rw [bulkMutate_cons g i b rest specs node spec hb]
      simp only [hout1, hids]
      have hv0b : ids.getD i spec.IDValue = .int64 v0 := by simpa using hv0
      rw [hv0b, bulkFinish_int64]
      refine ⟨_, rfl, by simp [hlen1], ?_⟩
      intro j q v hq hv
      cases j with
      | zero =>
        simp only [List.getElem?_cons_zero, Option.some.injEq] at hq
        subst hq
        have : Value.int64 v0 = Value.int64 v := by
          rw [← hv0b]
          simpa using hv
        cases this
        simp
      | succ j =>
        simp only [List.getElem?_cons_succ] at hq ⊢
        exact hall1 j q v hq (by rwa [show i + 1 + j = i + (j + 1) from by omega])

theorem Forall₂_getElem? {α β : Type} {R : α → β → Prop} {l1 : List α} {l2 : List β}
    (h : List.Forall₂ R l1 l2) :
    ∀ (j : Nat) (a : α) (b : β), l1[j]? = some a → l2[j]? = some b → R a b := by
  induction h with
  | nil => intro j a b h1; simp at h1
  | cons hab _ ih =>
    intro j a b h1 h2
    cases j with
    | zero =>
      simp only [List.getElem?_cons_zero, Option.some.injEq] at h1 h2
      subst h1
      subst h2
      exact hab
    | succ j =>
      simp only [List.getElem?_cons_succ] at h1 h2
      exact ih j a b h1 h2

theorem Forall₂_left {α β : Type} {R : α → β → Prop} {P : α → Prop} {l1 : List α} {l2 : List β}
    (h : List.Forall₂ R l1 l2) (hP : ∀ a b, R a b → P a) : ∀ a ∈ l1, P a := by
  induction h with
  | nil => intro a ha; simp at ha
  | cons hab _ ih =>
    intro a ha
    rcases List.mem_cons.mp ha with rfl | ha
    · exact hP _ _ hab
    · exact ih a ha

theorem createSpec_ok (b : DynamicCreate) (node : Dynamic) (spec : CreateSpec)
    (h : b.createSpec = .ok (node, spec)) :
    node.table = b.mutation.table ∧ node.ID = b.mutation.id.getD 0 ∧
    node.Row = b.mutation.data ∧
    ∃ t, b.mutation.table.Table = some t ∧ spec.Table = t.Name := by
  unfold DynamicCreate.createSpec at h
  cases ht : b.mutation.table.Table with
  | none => simp [ht] at h
  | some t =>
    simp only [ht] at h
    cases hf : fieldSpecs t b.mutation.data with
    | err e => simp [hf] at h
    | panic msg => simp [hf] at h
    | ok fs =>
      simp only [hf, DynamicMutation.ID] at h
      cases hid : b.mutation.id with
      | none =>
        simp only [hid, Outcome.ok.injEq, Prod.mk.injEq] at h
        obtain ⟨h1, h2⟩ := h
        subst h1
        subst h2
        exact ⟨rfl, rfl, rfl, t, rfl, rfl⟩
      | some id =>
        simp only [hid, Outcome.ok.injEq, Prod.mk.injEq] at h
        obtain ⟨h1, h2⟩ := h
        subst h1
        subst h2
        exact ⟨rfl, rfl, rfl, t, rfl, rfl⟩

theorem Dynamic.setID_frame (d : Dynamic) (id : Int) :
    (d.setID id).table = d.table ∧ (d.setID id).Row = d.Row := by
  cases d
  exact ⟨rfl, rfl⟩

/-- C16. For a bulk builder over N create builders whose `createSpec`
returns (the i-th giving the i-th pair of node and spec): with N = 0, `Save`
invokes no mutator, hands no statement to the graph layer and returns the
empty list without error; with N at least 1, it invokes the mutators 0 to
N - 1 in this order and hands to the graph layer exactly one batch, whose
specs are the N specs in builder order; when the batch fails, `Save` returns
its error (wrapped when it is a constraint error); when the batch succeeds
and leaves an `int64` in the id value of every spec, `Save` returns N
entities, the i-th with the table and the `data` of the i-th builder and with
the id the batch left in the i-th spec (with the id of the mutation instead,
when that carried one other than 0). -/
theorem CreateBulk_Save_spec (g : GraphDriver) (dcb : DynamicCreateBulk)
    (pairs : List (Dynamic × CreateSpec)) (hr : BulkReady dcb.builders pairs) :
    (dcb.builders = [] →
      (dcb.Save g).calls = [] ∧ (dcb.Save g).log = [] ∧ (dcb.Save g).out = .ok []) ∧
    (dcb.builders ≠ [] →
      (dcb.Save g).calls = List.range dcb.builders.length ∧
      (dcb.Save g).log = [.BatchCreate (pairs.map Prod.snd)] ∧
      (pairs.map Prod.snd).length = dcb.builders.length ∧
      (∀ e, g.BatchCreate (pairs.map Prod.snd) = .error e →
        (dcb.Save g).out = .err (g.constraint e)) ∧
      (∀ ids, g.BatchCreate (pairs.map Prod.snd) = .ok ids → BulkInt64 ids 0 pairs →
        ∃ nodes, (dcb.Save g).out = .ok nodes ∧ nodes.length = dcb.builders.length ∧
          ∀ (j : Nat) (b : DynamicCreate) (p : Dynamic × CreateSpec) (v : Int),
            dcb.builders[j]? = some b → pairs[j]? = some p →
            ids.getD j p.2.IDValue = .int64 v →
            ∃ n, nodes[j]? = some n ∧ n.table = b.mutation.table ∧ n.Row = b.mutation.data ∧
              n.ID = (if b.mutation.id.getD 0 = 0 then v else b.mutation.id.getD 0))) := by
  constructor
  · intro h
    simp [DynamicCreateBulk.Save, h]
  · intro hne
    have hpos : dcb.builders.length > 0 := List.length_pos.mpr hne
    have hsave : dcb.Save g = bulkMutate g 0 dcb.builders [] := by
      simp [DynamicCreateBulk.Save, hpos]
    have hA := bulkMutate_ready g dcb.builders pairs 0 [] hr hne
    simp only [List.nil_append] at hA
    rw [hsave]
    refine ⟨?_, hA.1, ?_, hA.2.2.1, ?_⟩
    · rw [hA.2.1, List.range_eq_range']
    · rw [List.length_map]
      exact hr.length_eq.symm
    · intro ids hb hint
      obtain ⟨nodes, hout, hlen, hall⟩ :=
        bulkMutate_success g dcb.builders pairs 0 [] ids hr hne (by simpa using hb) hint
      refine ⟨nodes, hout, hlen, ?_⟩
      intro j b p v hbj hpj hv
      have hcs : b.createSpec = .ok p := Forall₂_getElem? hr j b p hbj hpj
      obtain ⟨h1, h2, h3, _⟩ := createSpec_ok b p.1 p.2 hcs
      have hn := hall j p v hpj (by simpa using hv)
      refine ⟨_, hn, ?_, ?_, ?_⟩
      · split
        · rw [(Dynamic.setID_frame _ _).1, h1]
        · exact h1
      · split
        · rw [(Dynamic.setID_frame _ _).2, h3]
        · exact h3
      · rw [← h2]
        split
        · exact Dynamic.setID_ID _ _
        · rfl

/-- Witness for C16: the bulk insert of two `test_aaa` builders; the batch
assigns the ids 1 and 2. -/
theorem CreateBulk_Save_spec_witness :
    (((testClient.Table "test_aaa").CreateBulk [createAAA 1, createAAA 2]).Save graphNoRows).calls
      = List.range 2 ∧
    (match (((testClient.Table "test_aaa").CreateBulk [createAAA 1, createAAA 2]).Save
        graphNoRows).out with
      | .ok nodes => nodes.map Dynamic.ID
      | _ => []) = [1, 2] :=
  ⟨((CreateBulk_Save_spec graphNoRows
      ((testClient.Table "test_aaa").CreateBulk [createAAA 1, createAAA 2]) _
      (List.Forall₂.cons rfl (List.Forall₂.cons rfl List.Forall₂.nil))).2 (by simp [Table.CreateBulk])).1,
    rfl⟩

/-- C17. `Save` of a bulk builder: when it returns entities, there is one per
builder and the mutation of every builder has the id of its entity assigned
and `done = true`; when it returns an error, it returns no entity and the
builders are what they were, no mutation has its id or its flag `done`
changed. When `createSpec` of every builder returns and the batch leaves an
`int64` in the id value of every spec on success, `Save` ends in one of these
two ways. -/
theorem CreateBulk_Save_atomic (g : GraphDriver) (dcb : DynamicCreateBulk) :
    (∀ nodes, (dcb.Save g).out = .ok nodes →
      nodes.length = dcb.builders.length ∧
      List.Forall₂ (fun (b : DynamicCreate) (n : Dynamic) =>
          b.mutation.id = some n.ID ∧ b.mutation.done = true) (dcb.Save g).builders nodes ∧
      (∀ b ∈ (dcb.Save g).builders, b.mutation.id.isSome = true ∧ b.mutation.done = true)) ∧
    (∀ e, (dcb.Save g).out = .err e → (dcb.Save g).builders = dcb.builders) ∧
    (∀ pairs, BulkReady dcb.builders pairs →
      (∀ ids, g.BatchCreate (pairs.map Prod.snd) = .ok ids → BulkInt64 ids 0 pairs) →
      (∃ nodes, (dcb.Save g).out = .ok nodes) ∨ (∃ e, (dcb.Save g).out = .err e)) := by
  by_cases hne : dcb.builders = []
  · have hsave : dcb.Save g
        = { builders := dcb.builders, calls := [], log := [], ids := [], out := .ok [] } := by
      simp [DynamicCreateBulk.Save, hne]
    rw [hsave]
    refine ⟨?_, ?_, ?_⟩
    · intro nodes h
      simp only [Outcome.ok.injEq] at h
      subst h
      simp [hne]
    · intro e h
      cases h
    · intro _ _ _
      exact Or.inl ⟨[], rfl⟩
  · have hpos : dcb.builders.length > 0 := List.length_pos.mpr hne
    have hsave : dcb.Save g = bulkMutate g 0 dcb.builders [] := by
      simp [DynamicCreateBulk.Save, hpos]
    rw [hsave]
    refine ⟨?_, ?_, ?_⟩
    · intro nodes h
      obtain ⟨hall, hlen⟩ := bulkMutate_ok_done g dcb.builders 0 [] nodes h
      refine ⟨hlen, hall, ?_⟩
      exact Forall₂_left hall (fun a b hab => ⟨by simp [hab.1], hab.2⟩)
    · intro e h
      exact bulkMutate_err_unchanged g dcb.builders 0 [] e h
    · intro pairs hr hint
      have hA := bulkMutate_ready g dcb.builders pairs 0 [] hr hne
      simp only [List.nil_append] at hA
      cases hb : g.BatchCreate (pairs.map Prod.snd) with
      | error e => exact Or.inr ⟨_, hA.2.2.1 e hb⟩
      | ok ids =>
        obtain ⟨nodes, hout, _, _⟩ :=
          bulkMutate_success g dcb.builders pairs 0 [] ids hr hne (by simpa using hb)
            (hint ids hb)
        exact Or.inl ⟨nodes, hout⟩

/-- Witness for C17: the bulk insert of two `test_aaa` builders on a database
that rejects the batch with a duplicate-key error leaves the two builders as
they were. -/
theorem CreateBulk_Save_atomic_witness :
    ((((testClient.Table "test_aaa").CreateBulk [createAAA 1, createAAA 2]).Save
        graphDuplicate).builders.map (fun (b : DynamicCreate) => (b.mutation.id, b.mutation.done)))
      = [(none, false), (none, false)] :=
  congrArg (List.map (fun (b : DynamicCreate) => (b.mutation.id, b.mutation.done)))
    ((CreateBulk_Save_atomic graphDuplicate
      ((testClient.Table "test_aaa").CreateBulk [createAAA 1, createAAA 2])).2.1
      (.ConstraintError "Error 1062: Duplicate entry" (.driver "Error 1062: Duplicate entry"))
      rfl)

/-! ## Derived clients -/

/-- C29. For a client with the debug flag off, the client of `Debug()` has an
empty catalog, so that `Debug().Table(n)` carries no descriptor for any name
n, registered on the client or not; a table added to the debug client is the
only entry of its catalog. The client of a mutation's `Client()` has an empty
catalog too: its `Table(n)` carries no descriptor, and the load `Get` of the
old-value loader of `withID` on that table panics on the nil descriptor
without a query. -/
theorem derived_clients_empty_catalog (c : Client) (m : DynamicMutation) (drv : Driver)
    (D : SchemaTable) (n : String) (id : Int) (hd : c.debug = false) :
    c.Debug.tmap = [] ∧ (c.Debug.Table n).Table = none ∧
    ((c.AddTable D).Table D.Name).Table = some D ∧
    ((c.AddTable D).Debug.Table D.Name).Table = none ∧
    (c.Debug.AddTable D).tmap = [(D.Name, D)] ∧
    m.Client.tmap = [] ∧ (m.Client.Table n).Table = none ∧
    ((m.Client.Table n).Get drv id).out = .panic nilDeref ∧
    ((m.Client.Table n).Get drv id).log = [] := by
  have h1 : c.Debug = { debug := c.debug, tmap := [] } := by
    simp [Client.Debug, hd, Client.init]
  have h2 : (c.AddTable D).Debug = { debug := c.debug, tmap := [] } := by
    simp [Client.Debug, Client.AddTable, hd, Client.init]
  have h3 : (m.Client.Table n).Table = none := by
    simp [DynamicMutation.Client, Client.init, Client.Table, GoMap.get]
  refine ⟨by rw [h1], by rw [h1]; rfl, ?_, by rw [h2]; rfl, by rw [h1]; rfl, rfl, h3, ?_, ?_⟩
  · simp [Client.AddTable, Client.Table, GoMap.get_set_self]
  · exact (Get_nil_table drv _ id h3).1
  · exact (Get_nil_table drv _ id h3).2

/-- Witness for C29: the client of the test with `test_aaa` and `user`
registered. -/
theorem derived_clients_empty_catalog_witness :
    (testClient.Table "test_aaa").Table = some tableTestAAA ∧
    (testClient.Debug.Table "test_aaa").Table = none :=
  ⟨rfl, (derived_clients_empty_catalog testClient
    (newDynamicMutation (testClient.Table "test_aaa") .OpUpdateOne) driverTwoRows tableTestAAA
    "test_aaa" 1 rfl).2.1⟩

/-! ## The statement of an update -/

theorem fieldSpecs_ok (t : SchemaTable) :
    ∀ (data : GoMap String Value) (fs : List FieldSpec), fieldSpecs t data = .ok fs →
      fs.map (fun f => (f.Column, f.Value)) = data ∧
      ∀ f ∈ fs, ∃ col, t.Column f.Column = some col ∧ f.Type_ = col.Type_ := by
  intro data
  induction data with
  | nil =>
    intro fs h
    simp only [fieldSpecs, Outcome.ok.injEq] at h
    subst h
    simp
  | cons kv rest ih =>
    intro fs h
    obtain ⟨k, v⟩ := kv
    simp only [fieldSpecs] at h
    cases hc : t.Column k with
    | none => simp [hc] at h
    | some col =>
      simp only [hc] at h
      cases hr : fieldSpecs t rest with
      | err e => simp [hr] at h
      | panic msg => simp [hr] at h
      | ok fs0 =>
        simp only [hr, Outcome.ok.injEq] at h
        subst h
        obtain ⟨h1, h2⟩ := ih fs0 hr
        refine ⟨by simp [h1], ?_⟩
        intro f hf
        rcases List.mem_cons.mp hf with rfl | hf
        · exact ⟨col, hc, rfl⟩
        · exact h2 f hf

theorem GoMap.mem_set_self {κ ν : Type} [DecidableEq κ] (m : GoMap κ ν) (k : κ) (v : ν) :
    (k, v) ∈ m.set k v := by
  induction m with
  | nil => simp [GoMap.set]
  | cons kv rest ih =>
    obtain ⟨k1, v1⟩ := kv
    simp only [GoMap.set]
    split
    · simp
    · exact List.mem_cons_of_mem _ ih

theorem GoMap.del_no_key {κ ν : Type} [DecidableEq κ] (m : GoMap κ ν) (k : κ) :
    ∀ kv ∈ m.del k, kv.1 ≠ k := by
  intro kv h
  simp only [GoMap.del, List.mem_filter, decide_eq_true_eq] at h
  exact h.2

theorem Update_updateSpec_ok (du : DynamicUpdate) (spec : UpdateSpec)
    (h : du.updateSpec = .ok spec) :
    spec.FieldsSet.map (fun f => (f.Column, f.Value)) = du.mutation.data ∧
    (∀ f ∈ spec.FieldsSet, ∃ t col, du.mutation.table.Table = some t ∧
      t.Column f.Column = some col ∧ f.Type_ = col.Type_) ∧
    spec.FieldsAdd = [] ∧ spec.FieldsClear = [] := by
  unfold DynamicUpdate.updateSpec at h
  cases ht : du.mutation.table.Table with
  | none => simp [ht] at h
  | some t =>
    simp only [ht] at h
    cases hf : fieldSpecs t du.mutation.data with
    | err e => simp [hf] at h
    | panic msg => simp [hf] at h
    | ok fs =>
      simp only [hf, Outcome.ok.injEq] at h
      subst h
      obtain ⟨h1, h2⟩ := fieldSpecs_ok t _ fs hf
      exact ⟨h1, fun f hmem => ⟨t, (h2 f hmem).choose, rfl, (h2 f hmem).choose_spec⟩, rfl, rfl⟩

theorem UpdateOne_updateSpec_ok (duo : DynamicUpdateOne) (node : Dynamic) (spec : UpdateSpec)
    (h : duo.updateSpec = .ok (node, spec)) :
    spec.FieldsSet.map (fun f => (f.Column, f.Value)) = duo.mutation.data ∧
    (∀ f ∈ spec.FieldsSet, ∃ t col, duo.mutation.table.Table = some t ∧
      t.Column f.Column = some col ∧ f.Type_ = col.Type_) ∧
    spec.FieldsAdd = [] ∧ spec.FieldsClear = [] := by
  unfold DynamicUpdateOne.updateSpec at h
  cases ht : duo.mutation.table.Table with
  | none => simp [ht] at h
  | some t =>
    simp only [ht] at h
    cases hid : duo.mutation.ID with
    | none => simp [hid] at h
    | some id =>
      simp only [hid] at h
      split at h
      · cases h
      · cases hf : fieldSpecs t duo.mutation.data with
        | err e => simp [hf] at h
        | panic msg => simp [hf] at h
        | ok fs =>
          simp only [hf, Outcome.ok.injEq, Prod.mk.injEq] at h
          obtain ⟨_, h⟩ := h
          subst h
          obtain ⟨h1, h2⟩ := fieldSpecs_ok t _ fs hf
          exact ⟨h1, fun f hmem => ⟨t, (h2 f hmem).choose, rfl, (h2 f hmem).choose_spec⟩,
            rfl, rfl⟩

/-- C30. The statement of `DynamicUpdate.Save` and of `DynamicUpdateOne.Save`
is built from `data` only: when the builder gets as far as its statement, the
spec handed to the graph layer has one `Set` entry per entry of `data`, in
the order of the entries, with the key as column, the stored value as value
and the declared type of the column as type, and its `Add` and `Clear` lists
are empty. The set `clearedFields` does not enter the spec; after
`ClearValue(c)` the spec has no `Set` entry for c; after `AddValue` on an
integer column whose entry is a Go `int`, the sum is the value of the `Set`
entry of that column. -/
theorem update_spec_from_data (g : GraphDriver) :
    (∀ (du : DynamicUpdate) (spec : UpdateSpec), du.updateSpec = .ok spec →
      (du.Save g).log = [.UpdateNodes spec] ∧
      spec.FieldsSet.map (fun f => (f.Column, f.Value)) = du.mutation.data ∧
      (∀ f ∈ spec.FieldsSet, ∃ t col, du.mutation.table.Table = some t ∧
        t.Column f.Column = some col ∧ f.Type_ = col.Type_) ∧
      spec.FieldsAdd = [] ∧ spec.FieldsClear = [] ∧
      (∀ cleared : GoMap String Unit,
        ({ mutation := { du.mutation with clearedFields := cleared } } : DynamicUpdate).updateSpec
          = .ok spec)) ∧
    (∀ (duo : DynamicUpdateOne) (node : Dynamic) (spec : UpdateSpec),
      duo.updateSpec = .ok (node, spec) →
      (duo.Save g).log = [.UpdateNode spec] ∧
      spec.FieldsSet.map (fun f => (f.Column, f.Value)) = duo.mutation.data ∧
      (∀ f ∈ spec.FieldsSet, ∃ t col, duo.mutation.table.Table = some t ∧
        t.Column f.Column = some col ∧ f.Type_ = col.Type_) ∧
      spec.FieldsAdd = [] ∧ spec.FieldsClear = [] ∧
      (∀ cleared : GoMap String Unit,
        ({ duo with mutation := { duo.mutation with clearedFields := cleared } } :
          DynamicUpdateOne).updateSpec = .ok (node, spec))) ∧
    (∀ (du : DynamicUpdate) (c : String) (spec : UpdateSpec),
      (du.ClearValue c).updateSpec = .ok spec →
      (∀ f ∈ spec.FieldsSet, f.Column ≠ c) ∧ spec.FieldsClear = []) ∧
    (∀ (duo : DynamicUpdateOne) (c : String) (node : Dynamic) (spec : UpdateSpec),
      (duo.ClearValue c).updateSpec = .ok (node, spec) →
      (∀ f ∈ spec.FieldsSet, f.Column ≠ c) ∧ spec.FieldsClear = []) ∧
    (∀ (du : DynamicUpdate) (t : SchemaTable) (col : Column) (c : String) (e d : Int)
      (spec : UpdateSpec),
      du.mutation.table.Table = some t → t.Column c = some col → col.Type_.Integer = true →
      du.mutation.data.get c = some (.int e) → (du.AddValue c d).1.updateSpec = .ok spec →
      (c, Value.int (wrapInt (e + d))) ∈ spec.FieldsSet.map (fun f => (f.Column, f.Value)) ∧
      spec.FieldsAdd = []) := by
  refine ⟨?_, ?_, ?_, ?_, ?_⟩
  · intro du spec h
    obtain ⟨h1, h2, h3, h4⟩ := Update_updateSpec_ok du spec h
    refine ⟨?_, h1, h2, h3, h4, ?_⟩
    · simp only [DynamicUpdate.Save, DynamicUpdate.sqlSave, h]
      split <;> rfl
    · intro cleared
      exact h
  · intro duo node spec h
    obtain ⟨h1, h2, h3, h4⟩ := UpdateOne_updateSpec_ok duo node spec h
    refine ⟨?_, h1, h2, h3, h4, ?_⟩
    · simp only [DynamicUpdateOne.Save, DynamicUpdateOne.sqlSave, h]
      split
      · rfl
      · split
        · rfl
        · rfl
        · split <;> rfl
    · intro cleared
      exact h
  · intro du c spec h
    obtain ⟨h1, _, _, h4⟩ := Update_updateSpec_ok _ spec h
    refine ⟨?_, h4⟩
    intro f hf
    have hmem : (f.Column, f.Value) ∈ (du.ClearValue c).mutation.data := by
      rw [← h1]
      exact List.mem_map.mpr ⟨f, hf, rfl⟩
    exact GoMap.del_no_key du.mutation.data c _ hmem
  · intro duo c node spec h
    obtain ⟨h1, _, _, h4⟩ := UpdateOne_updateSpec_ok _ node spec h
    refine ⟨?_, h4⟩
    intro f hf
    have hmem : (f.Column, f.Value) ∈ (duo.ClearValue c).mutation.data := by
      rw [← h1]
      exact List.mem_map.mpr ⟨f, hf, rfl⟩
    exact GoMap.del_no_key duo.mutation.data c _ hmem
  · intro du t col c e d spec ht hc hi hd h
    obtain ⟨h1, _, h3, _⟩ := Update_updateSpec_ok _ spec h
    refine ⟨?_, h3⟩
    rw [h1]
    have hadd := AddValue_on_int_entry du.mutation t col c e d ht hc hi hd
    simp only [DynamicUpdate.AddValue, hadd]
    exact GoMap.mem_set_self _ _ _

/-- Witness for C30: `Table("test_aaa").Update().SetValue("field1", 4)`. -/
theorem update_spec_from_data_witness :
    (((testClient.Table "test_aaa").Update.SetValue "field1" (.int 4)).1.Save graphNoRows).log
      = [.UpdateNodes updateAAASpec] ∧
    updateAAASpec.FieldsSet.map (fun f => (f.Column, f.Value))
      = [("field1", .ifacePtr (.int 4))] ∧
    updateAAASpec.FieldsAdd = [] ∧ updateAAASpec.FieldsClear = [] :=
  ⟨((update_spec_from_data graphNoRows).1
      ((testClient.Table "test_aaa").Update.SetValue "field1" (.int 4)).1 updateAAASpec rfl).1,
    rfl, rfl, rfl⟩

/-! ## The terminal operations -/

theorem DynamicQuery.setSql_setWithData_frame (dq : DynamicQuery) (s : Option Selector)
    (w : WithDataMap) :
    ((dq.setSql s).setWithData w).limit = dq.limit ∧
    ((dq.setSql s).setWithData w).offset = dq.offset ∧
    ((dq.setSql s).setWithData w).unique = dq.unique ∧
    ((dq.setSql s).setWithData w).order = dq.order ∧
    ((dq.setSql s).setWithData w).fields = dq.fields ∧
    ((dq.setSql s).setWithData w).predicates = dq.predicates ∧
    ((dq.setSql s).setWithData w).path = dq.path ∧
    ((dq.setSql s).setWithData w).table = dq.table ∧
    ((dq.setSql s).setWithData w).withData = w ∧
    ((dq.setSql s).setWithData w).sql = s := by
  cases dq
  exact ⟨rfl, rfl, rfl, rfl, rfl, rfl, rfl, rfl, rfl, rfl⟩

theorem DynamicQuery.setSql_self (dq : DynamicQuery) : dq.setSql dq.sql = dq := by
  cases dq
  rfl

theorem DynamicQuery.setWithData_self (dq : DynamicQuery) : dq.setWithData dq.withData = dq := by
  cases dq
  rfl

theorem DynamicQuery.prepareQuery_shape (dq : DynamicQuery) :
    ∃ s, dq.prepareQuery.1 = dq.setSql s := by
  unfold DynamicQuery.prepareQuery
  split
  · exact ⟨dq.sql, (DynamicQuery.setSql_self dq).symm⟩
  · exact ⟨dq.sql, (DynamicQuery.setSql_self dq).symm⟩
  · split
    · exact ⟨dq.sql, (DynamicQuery.setSql_self dq).symm⟩
    · exact ⟨_, rfl⟩
    · exact ⟨dq.sql, (DynamicQuery.setSql_self dq).symm⟩
    · exact ⟨dq.sql, (DynamicQuery.setSql_self dq).symm⟩

theorem DynamicQuery.sqlAllWith_shape (drv : Driver) (dq : DynamicQuery)
    (load : List Dynamic → Run WithDataMap (List Dynamic)) :
    ∃ w, (dq.sqlAllWith drv load).state = dq.setWithData w := by
  unfold DynamicQuery.sqlAllWith
  split
  · exact ⟨_, (DynamicQuery.setWithData_self dq).symm⟩
  · exact ⟨_, (DynamicQuery.setWithData_self dq).symm⟩
  · split
    · exact ⟨_, (DynamicQuery.setWithData_self dq).symm⟩
    · exact ⟨_, (DynamicQuery.setWithData_self dq).symm⟩
    · split
      · exact ⟨_, (DynamicQuery.setWithData_self dq).symm⟩
      · exact ⟨_, rfl⟩

theorem DynamicQuery.All_shape (drv : Driver) (dq : DynamicQuery) :
    ∃ s w, (dq.All drv).state = (dq.setSql s).setWithData w := by
  obtain ⟨s, hs⟩ := DynamicQuery.prepareQuery_shape dq
  unfold DynamicQuery.All
  rcases hq : dq.prepareQuery with ⟨dq1, out⟩
  rw [hq] at hs
  simp only at hs
  cases out with
  | ok u =>
    obtain ⟨w, hw⟩ := DynamicQuery.sqlAllWith_shape drv dq1 (loadEdges drv dq1.withData)
    exact ⟨s, w, by simp only [DynamicQuery.sqlAll]; rw [hw, hs]⟩
  | err e => exact ⟨s, _, by simp only [hs]; exact (DynamicQuery.setWithData_self _).symm⟩
  | panic msg => exact ⟨s, _, by simp only [hs]; exact (DynamicQuery.setWithData_self _).symm⟩

theorem First_state_log (drv : Driver) (dq : DynamicQuery) :
    (dq.First drv).state = ((dq.Limit 1).All drv).state ∧
    (dq.First drv).log = ((dq.Limit 1).All drv).log := by
  rcases h : ((dq.Limit 1).All drv).out with nodes | e | msg
  · rcases nodes with _ | ⟨n, rest⟩
    · simp only [DynamicQuery.First, h]
      split <;> exact ⟨rfl, rfl⟩
    · simp [DynamicQuery.First, h]
  · simp [DynamicQuery.First, h]
  · simp [DynamicQuery.First, h]

theorem Exist_of_Count (q : QueryDriver) (dq : DynamicQuery) :
    (dq.Exist q).calls = (dq.Count q).calls ∧ (dq.Exist q).state = (dq.Count q).state ∧
    (∀ n, (dq.Count q).out = .ok n → (dq.Exist q).out = .ok (decide (n > 0))) ∧
    (∀ b, (dq.Exist q).out = .ok b → ∃ n, (dq.Count q).out = .ok n ∧ b = decide (n > 0)) := by
  unfold DynamicQuery.Exist DynamicQuery.Count
  rcases dq.prepareQuery with ⟨dq1, out⟩
  cases out with
  | ok u =>
    show ((dq1.sqlExist q).calls = (dq1.sqlCount q).calls ∧
      (dq1.sqlExist q).state = (dq1.sqlCount q).state ∧
      (∀ n, (dq1.sqlCount q).out = .ok n → (dq1.sqlExist q).out = .ok (decide (n > 0))) ∧
      (∀ b, (dq1.sqlExist q).out = .ok b →
        ∃ n, (dq1.sqlCount q).out = .ok n ∧ b = decide (n > 0)))
    unfold DynamicQuery.sqlExist
    cases hc : (dq1.sqlCount q).out with
    | ok n =>
      refine ⟨rfl, rfl, ?_, ?_⟩
      · intro m hm
        cases hm
        rfl
      · intro b hb
        simp only [Outcome.ok.injEq] at hb
        exact ⟨n, rfl, hb.symm⟩
    | err e => exact ⟨rfl, rfl, fun n hn => (by cases hn), fun b hb => (by cases hb)⟩
    | panic msg => exact ⟨rfl, rfl, fun n hn => (by cases hn), fun b hb => (by cases hb)⟩
  | err e => exact ⟨rfl, rfl, fun n hn => (by cases hn), fun b hb => (by cases hb)⟩
  | panic msg => exact ⟨rfl, rfl, fun n hn => (by cases hn), fun b hb => (by cases hb)⟩

/-- C26. `First` sets the limit to 1 whatever limit was set before, runs
`All` on the builder so limited (the primary query it dispatches asks the
driver for 1 row) and leaves the builder as that run leaves it; an error of
the run is returned unchanged, an empty result gives NotFound with the name
of the table, and otherwise the first element of the result is returned.
`Exist` makes the calls of `Count` and returns true exactly when `Count`
returns a number greater than 0, false when it returns another number. -/
theorem First_Exist_spec (drv : Driver) (q : QueryDriver) (dq : DynamicQuery) :
    (dq.Limit 1).limit = some 1 ∧
    (dq.First drv).state = ((dq.Limit 1).All drv).state ∧
    (dq.First drv).log = ((dq.Limit 1).All drv).log ∧
    (dq.First drv).state.limit = some 1 ∧
    (∀ spec, ((dq.Limit 1).All drv).log.head? = some spec → spec.Limit = 1) ∧
    (∀ e, ((dq.Limit 1).All drv).out = .err e → (dq.First drv).out = .err e) ∧
    (∀ n rest, ((dq.Limit 1).All drv).out = .ok (n :: rest) → (dq.First drv).out = .ok n) ∧
    (∀ t, dq.table.Table = some t → ((dq.Limit 1).All drv).out = .ok [] →
      (dq.First drv).out = .err (.NotFoundError t.Name)) ∧
    (dq.Exist q).calls = (dq.Count q).calls ∧
    (∀ n, (dq.Count q).out = .ok n → (dq.Exist q).out = .ok (decide (n > 0))) ∧
    ((dq.Exist q).out = .ok true ↔ ∃ n, 0 < n ∧ (dq.Count q).out = .ok n) := by
  have hf := DynamicQuery.All_frame drv (dq.Limit 1)
  have hsl := First_state_log drv dq
  have hex := Exist_of_Count q dq
  refine ⟨by simp, hsl.1, hsl.2, ?_, ?_, ?_, ?_, ?_, hex.1, hex.2.2.1, ?_⟩
  · rw [hsl.1, hf.1]; simp
  · intro spec h
    exact DynamicQuery.All_log_Limit drv (dq.Limit 1) 1 (by simp) spec h
  · intro e he
    unfold DynamicQuery.First
    simp only [he]
  · intro n rest hn
    unfold DynamicQuery.First
    simp only [hn]
  · intro t ht h0
    have htab : ((dq.Limit 1).All drv).state.table.Table = some t := by
      rw [hf.2]; simpa using ht
    unfold DynamicQuery.First
    simp only [h0, htab]
  · constructor
    · intro h
      obtain ⟨n, hn, hb⟩ := hex.2.2.2 true h
      exact ⟨n, by simpa using hb.symm, hn⟩
    · rintro ⟨n, hpos, hn⟩
      rw [hex.2.2.1 n hn]
      simp [hpos]

/-- Witness for C26: `First` on `test_aaa` when two rows match returns the
first, and `Exist` is true when `Count` is 2. -/
theorem First_Exist_spec_witness :
    ((testClient.Table "test_aaa").Query.First driverTwoRows).state.limit = some 1 ∧
    ((testClient.Table "test_aaa").Query.Exist queryDriverTwo).out = .ok true :=
  ⟨(First_Exist_spec driverTwoRows queryDriverTwo (testClient.Table "test_aaa").Query).2.2.2.1,
    (First_Exist_spec driverTwoRows queryDriverTwo
      (testClient.Table "test_aaa").Query).2.2.2.2.2.2.2.2.2.2.mpr ⟨2, by decide, rfl⟩⟩

theorem prepareFields_first_invalid (c : Dent.Table) (t : SchemaTable) (f : String)
    (post : List String) (ht : c.Table = some t) (hf : t.HasColumn f = false) :
    ∀ pre : List String, (∀ x ∈ pre, t.HasColumn x = true) →
      DynamicQuery.prepareFields c (pre ++ f :: post)
        = .err (.ValidationError f (.errorf "ent: invalid field %q for query" [.string f])) := by
  intro pre
  induction pre with
  | nil => intro _; simp [DynamicQuery.prepareFields, ht, hf]
  | cons x pre ih =>
    intro h
    have hx : t.HasColumn x = true := h x (List.mem_cons_self _ _)
    have hrest := ih (fun y hy => h y (List.mem_cons_of_mem _ hy))
    simp [DynamicQuery.prepareFields, ht, hx, hrest]

theorem prepareFields_columns (c : Dent.Table) (t : SchemaTable) (ht : c.Table = some t) :
    ∀ fields : List String, (∀ x ∈ fields, t.HasColumn x = true) →
      DynamicQuery.prepareFields c fields = .ok () := by
  intro fields
  induction fields with
  | nil => intro _; rfl
  | cons x rest ih =>
    intro h
    have hx : t.HasColumn x = true := h x (List.mem_cons_self _ _)
    simp [DynamicQuery.prepareFields, ht, hx, ih (fun y hy => h y (List.mem_cons_of_mem _ hy))]

theorem prepareQuery_invalid (dq : DynamicQuery) (t : SchemaTable) (pre : List String)
    (f : String) (post : List String) (ht : dq.table.Table = some t)
    (hfields : dq.fields = pre ++ f :: post) (hpre : ∀ x ∈ pre, t.HasColumn x = true)
    (hf : t.HasColumn f = false) :
    dq.prepareQuery
      = (dq, .err (.ValidationError f (.errorf "ent: invalid field %q for query" [.string f]))) := by
  have h := prepareFields_first_invalid dq.table t f post ht hf pre hpre
  simp [DynamicQuery.prepareQuery, hfields, h]

theorem DynamicQuery.setFields_frame (dq : DynamicQuery) (fs : List String) :
    (dq.setFields fs).fields = fs ∧ (dq.setFields fs).table = dq.table ∧
    (dq.setFields fs).limit = dq.limit ∧ (dq.setFields fs).unique = dq.unique ∧
    (dq.setFields fs).path = dq.path ∧ (dq.setFields fs).sql = dq.sql ∧
    (dq.setFields fs).predicates = dq.predicates ∧ (dq.setFields fs).withData = dq.withData := by
  cases dq
  exact ⟨rfl, rfl, rfl, rfl, rfl, rfl, rfl, rfl⟩

/-- C25. On a query builder whose table carries a descriptor and whose
selected fields name, after columns only, a field that is not a column, the
operations `All`, `Count` and `Exist` return the Validation error named by
that field and make no call to the driver; `Select(fields...).Scan` does the
same for the first such field of the selection with the new fields appended.
When every selected field is a column and no intermediate path is attached,
`prepareQuery` succeeds and leaves the builder as it is. -/
theorem prepareQuery_validates (drv : Driver) (q : QueryDriver) (dq : DynamicQuery)
    (t : SchemaTable) (ht : dq.table.Table = some t) :
    (∀ (pre : List String) (f : String) (post : List String),
      dq.fields = pre ++ f :: post → (∀ x ∈ pre, t.HasColumn x = true) →
      t.HasColumn f = false →
      (dq.All drv).out
        = .err (.ValidationError f (.errorf "ent: invalid field %q for query" [.string f])) ∧
      (dq.All drv).log = [] ∧
      (dq.Count q).out
        = .err (.ValidationError f (.errorf "ent: invalid field %q for query" [.string f])) ∧
      (dq.Count q).calls = [] ∧
      (dq.Exist q).out
        = .err (.ValidationError f (.errorf "ent: invalid field %q for query" [.string f])) ∧
      (dq.Exist q).calls = []) ∧
    (∀ (fields pre : List String) (f : String) (post : List String),
      dq.fields ++ fields = pre ++ f :: post → (∀ x ∈ pre, t.HasColumn x = true) →
      t.HasColumn f = false →
      ((dq.Select fields).Scan q).out
        = .err (.ValidationError f (.errorf "ent: invalid field %q for query" [.string f])) ∧
      ((dq.Select fields).Scan q).calls = []) ∧
    ((∀ x ∈ dq.fields, t.HasColumn x = true) → dq.path = none →
      dq.prepareQuery = (dq, .ok ())) := by
  refine ⟨?_, ?_, ?_⟩
  · intro pre f post hfields hpre hf
    have h := prepareQuery_invalid dq t pre f post ht hfields hpre hf
    simp [DynamicQuery.All, DynamicQuery.Count, DynamicQuery.Exist, h]
  · intro fields pre f post hfields hpre hf
    have hfr := DynamicQuery.setFields_frame dq (dq.fields ++ fields)
    have h := prepareQuery_invalid (dq.setFields (dq.fields ++ fields)) t pre f post
      (by rw [hfr.2.1]; exact ht) (by rw [hfr.1]; exact hfields) hpre hf
    simp [DynamicSelect.Scan, DynamicSelect.ScanWith, DynamicQuery.Select, h]
  · intro hall hpath
    have h := prepareFields_columns dq.table t ht dq.fields hall
    simp [DynamicQuery.prepareQuery, h, hpath]

/-- Witness for C25: `Table("test_aaa").Query().Select("field1", "nope")`
scanned on a database. -/
theorem prepareQuery_validates_witness :
    (((testClient.Table "test_aaa").Query.Select ["field1", "nope"]).Scan queryDriverTwo).out
      = .err (.ValidationError "nope"
          (.errorf "ent: invalid field %q for query" [.string "nope"])) ∧
    (((testClient.Table "test_aaa").Query.Select ["field1", "nope"]).Scan queryDriverTwo).calls
      = [] :=
  (prepareQuery_validates driverTwoRows queryDriverTwo (testClient.Table "test_aaa").Query
    tableTestAAA rfl).2.1 ["field1", "nope"] ["field1"] "nope" [] rfl (by decide) (by decide)

theorem assignRows_length (table : Dent.Table) (columns : List String) :
    ∀ (rows : List (List Value)) (nodes nodes' : List Dynamic),
      assignRows table columns rows nodes = .ok nodes' →
      nodes'.length = nodes.length + rows.length := by
  intro rows
  induction rows with
  | nil =>
    intro nodes nodes' h
    simp only [assignRows, Outcome.ok.injEq] at h
    subst h
    simp
  | cons values rows ih =>
    intro nodes nodes' h
    simp only [assignRows] at h
    split at h
    · cases h
    · cases h
    · split at h
      · cases h
      · cases h
      · have := ih _ _ h
        simp at this ⊢
        omega

theorem All_length (drv : Driver) (dq : DynamicQuery) (nodes : List Dynamic)
    (h : (dq.All drv).out = .ok nodes) :
    ∃ spec rows, (dq.All drv).log.head? = some spec ∧ drv spec = .ok rows ∧
      nodes.length = rows.rows.length := by
  unfold DynamicQuery.All at h ⊢
  rcases hp : dq.prepareQuery with ⟨dq1, out⟩
  rw [hp] at h
  cases out with
  | err e => simp at h
  | panic msg => simp at h
  | ok u =>
    simp only [DynamicQuery.sqlAll, DynamicQuery.sqlAllWith] at h ⊢
    cases hs : dq1.querySpec with
    | err e => simp [hs] at h
    | panic msg => simp [hs] at h
    | ok spec =>
      simp only [hs] at h ⊢
      cases hq : QueryNodes drv spec dq1.table with
      | err e => simp [hq] at h
      | panic msg => simp [hq] at h
      | ok nodes0 =>
        simp only [hq] at h ⊢
        have hrows : ∃ rows, drv spec = .ok rows ∧ nodes0.length = rows.rows.length := by
          unfold QueryNodes at hq
          cases hd : drv spec with
          | error e => simp [hd] at hq
          | ok rows =>
            simp only [hd] at hq
            exact ⟨rows, rfl, by simpa using assignRows_length _ _ _ _ _ hq⟩
        obtain ⟨rows, hd, hlen⟩ := hrows
        by_cases h0 : nodes0.length = 0
        · simp only [h0, if_true, Outcome.ok.injEq] at h ⊢
          subst h
          exact ⟨spec, rows, rfl, hd, hlen⟩
        · simp only [h0, if_false] at h ⊢
          have := (loadEdges_frame drv dq1.withData nodes0 nodes h).1
          exact ⟨spec, rows, rfl, hd, this.trans hlen⟩

theorem DynamicQuery.setSql_setSql (dq : DynamicQuery) (a b : Option Selector) :
    (dq.setSql a).setSql b = dq.setSql b := by
  cases dq
  rfl

theorem DynamicQuery.setSql_frame (dq : DynamicQuery) (s : Option Selector) :
    (dq.setSql s).fields = dq.fields ∧ (dq.setSql s).limit = dq.limit ∧
    (dq.setSql s).table = dq.table ∧ (dq.setSql s).unique = dq.unique ∧
    (dq.setSql s).predicates = dq.predicates ∧ (dq.setSql s).order = dq.order ∧
    (dq.setSql s).offset = dq.offset ∧ (dq.setSql s).sql = s := by
  cases dq
  exact ⟨rfl, rfl, rfl, rfl, rfl, rfl, rfl, rfl⟩

theorem ScanWith_shape {α : Type} (exec : Selector → Except Err α) (ds : DynamicSelect) :
    ∃ s, (ds.ScanWith exec).state.query = ds.query.setSql s := by
  obtain ⟨s, hs⟩ := DynamicQuery.prepareQuery_shape ds.query
  unfold DynamicSelect.ScanWith
  rcases hq : ds.query.prepareQuery with ⟨dq1, out⟩
  rw [hq] at hs
  simp only at hs
  subst hs
  cases out with
  | err e => exact ⟨s, rfl⟩
  | panic msg => exact ⟨s, rfl⟩
  | ok u =>
    simp only
    cases (ds.query.setSql s).sqlQuery with
    | err e => exact ⟨s, rfl⟩
    | panic msg => exact ⟨s, rfl⟩
    | ok selector =>
      simp only
      have hdq2 : ∃ s2, (match (ds.query.setSql s).sql with
          | some _ => (ds.query.setSql s).setSql (some selector)
          | none => ds.query.setSql s) = ds.query.setSql s2 := by
        split
        · exact ⟨_, DynamicQuery.setSql_setSql _ _ _⟩
        · exact ⟨s, rfl⟩
      obtain ⟨s2, hs2⟩ := hdq2
      cases exec selector with
      | error e => exact ⟨s2, hs2⟩
      | ok v => exact ⟨s2, hs2⟩

theorem IDs_shape (q : QueryDriver) (dq : DynamicQuery) :
    ∃ s, (dq.IDs q).state = (dq.setFields (dq.fields ++ [FieldID])).setSql s :=
  ScanWith_shape q.ScanInts (dq.Select [FieldID])

theorem IDs_frame (q : QueryDriver) (dq : DynamicQuery) :
    (dq.IDs q).state.fields = dq.fields ++ [FieldID] ∧ (dq.IDs q).state.limit = dq.limit ∧
    (dq.IDs q).state.table = dq.table := by
  obtain ⟨s, hs⟩ := IDs_shape q dq
  rw [hs]
  have h1 := DynamicQuery.setSql_frame (dq.setFields (dq.fields ++ [FieldID])) s
  have h2 := DynamicQuery.setFields_frame dq (dq.fields ++ [FieldID])
  exact ⟨h1.1.trans h2.1, h1.2.1.trans h2.2.2.1, h1.2.2.1.trans h2.2.1⟩

theorem FirstID_state (q : QueryDriver) (dq : DynamicQuery) :
    (dq.FirstID q).state = ((dq.Limit 1).IDs q).state := by
  rcases h : ((dq.Limit 1).IDs q).out with ids | e | msg
  · rcases ids with _ | ⟨n, rest⟩
    · simp only [DynamicQuery.FirstID, h]
      split <;> rfl
    · simp [DynamicQuery.FirstID, h]
  · simp [DynamicQuery.FirstID, h]
  · simp [DynamicQuery.FirstID, h]

theorem OnlyID_state (q : QueryDriver) (dq : DynamicQuery) :
    (dq.OnlyID q).state = ((dq.Limit 2).IDs q).state := by
  rcases h : ((dq.Limit 2).IDs q).out with ids | e | msg
  · rcases ids with _ | ⟨n, _ | ⟨n2, rest⟩⟩
    · simp only [DynamicQuery.OnlyID, h]
      split <;> rfl
    · simp [DynamicQuery.OnlyID, h]
    · simp only [DynamicQuery.OnlyID, h]
      split <;> rfl
  · simp [DynamicQuery.OnlyID, h]
  · simp [DynamicQuery.OnlyID, h]

theorem Only_state (drv : Driver) (dq : DynamicQuery) :
    (dq.Only drv).state = ((dq.Limit 2).All drv).state := by
  rcases h : ((dq.Limit 2).All drv).out with nodes | e | msg
  · rcases nodes with _ | ⟨n, _ | ⟨n2, rest⟩⟩
    · simp only [DynamicQuery.Only, h]
      split <;> rfl
    · simp [DynamicQuery.Only, h]
    · simp only [DynamicQuery.Only, h]
      split <;> rfl
  · simp [DynamicQuery.Only, h]
  · simp [DynamicQuery.Only, h]

theorem DynamicQuery.Limit_frame (dq : DynamicQuery) (n : Int) :
    (dq.Limit n).fields = dq.fields ∧ (dq.Limit n).table = dq.table ∧
    (dq.Limit n).limit = some n := by
  cases dq
  exact ⟨rfl, rfl, rfl⟩

theorem querySpec_Columns (dq : DynamicQuery) (spec : QuerySpec) (h : dq.querySpec = .ok spec)
    (hf : dq.fields.length > 0) :
    spec.Columns = FieldID :: dq.fields.filter (fun f => decide (f ≠ FieldID)) := by
  unfold DynamicQuery.querySpec at h
  cases ht : dq.table.Table with
  | none => simp [ht] at h
  | some t =>
    simp only [ht, hf, if_true, Outcome.ok.injEq] at h
    subst h
    split <;> split <;> split <;> split <;> rfl

theorem All_log_Columns (drv : Driver) (dq : DynamicQuery) (spec : QuerySpec)
    (hf : dq.fields.length > 0) (h : (dq.All drv).log.head? = some spec) :
    spec.Columns = FieldID :: dq.fields.filter (fun f => decide (f ≠ FieldID)) := by
  obtain ⟨s, hs⟩ := DynamicQuery.prepareQuery_shape dq
  unfold DynamicQuery.All at h
  rcases hq : dq.prepareQuery with ⟨dq1, out⟩
  rw [hq] at hs h
  simp only at hs
  cases out with
  | ok u =>
    simp only at h
    have hspec := (DynamicQuery.sqlAll_frame drv dq1).2.2 spec h
    have hfields : dq1.fields = dq.fields := by rw [hs]; exact (DynamicQuery.setSql_frame dq s).1
    have := querySpec_Columns dq1 spec hspec (by rw [hfields]; exact hf)
    rw [this, hfields]
  | err e => simp at h
  | panic msg => simp at h

/-- C28, counterexample. On the query of `test_aaa` with `field1` selected,
`IDs` leaves the selected fields `field1`, `id`, and the `All` run after it
asks the driver for the columns `id` and `field1`, not for the id column
only. -/
theorem All_after_IDs_counterexample :
    queryAAAField1.fields = ["field1"] ∧
    (queryAAAField1.IDs queryDriverTwo).state.fields = ["field1", "id"] ∧
    (((queryAAAField1.IDs queryDriverTwo).state.All driverTwoRows).log.map
      (fun spec => spec.Columns)) = [["id", "field1"]] :=
  ⟨rfl, rfl, rfl⟩

/-- C28, amended. After `First` or `FirstID` the limit of the builder is 1
and after `Only` or `OnlyID` it is 2, whatever it was before; `IDs`,
`FirstID` and `OnlyID` each append one `id` to the selected fields of the
builder. The primary query of an `All` run after `First` asks the driver for
1 row, so that the run returns at most 1 row on a driver that honours the
limit; the primary query of an `All` run after `IDs` selects `id` and the
fields that were selected before `IDs`, which is the id column only when
none were. -/
theorem terminal_ops_overwrite (drv : Driver) (q : QueryDriver) (dq : DynamicQuery) :
    (dq.First drv).state.limit = some 1 ∧ (dq.FirstID q).state.limit = some 1 ∧
    (dq.Only drv).state.limit = some 2 ∧ (dq.OnlyID q).state.limit = some 2 ∧
    (dq.IDs q).state.fields = dq.fields ++ [FieldID] ∧
    (dq.FirstID q).state.fields = dq.fields ++ [FieldID] ∧
    (dq.OnlyID q).state.fields = dq.fields ++ [FieldID] ∧
    (∀ spec, ((dq.First drv).state.All drv).log.head? = some spec → spec.Limit = 1) ∧
    (HonoursLimit drv → ∀ nodes, ((dq.First drv).state.All drv).out = .ok nodes →
      nodes.length ≤ 1) ∧
    (∀ spec, ((dq.IDs q).state.All drv).log.head? = some spec →
      spec.Columns = FieldID :: dq.fields.filter (fun f => decide (f ≠ FieldID))) ∧
    (dq.fields = [] → ∀ spec, ((dq.IDs q).state.All drv).log.head? = some spec →
      spec.Columns = [FieldID]) := by
  have hfirst : (dq.First drv).state.limit = some 1 := by
    rw [(First_state_log drv dq).1, (DynamicQuery.All_frame drv (dq.Limit 1)).1]
    exact (DynamicQuery.Limit_frame dq 1).2.2
  have honly : (dq.Only drv).state.limit = some 2 := by
    rw [Only_state drv dq, (DynamicQuery.All_frame drv (dq.Limit 2)).1]
    exact (DynamicQuery.Limit_frame dq 2).2.2
  have hids := IDs_frame q dq
  have hcols : ∀ spec, ((dq.IDs q).state.All drv).log.head? = some spec →
      spec.Columns = FieldID :: dq.fields.filter (fun f => decide (f ≠ FieldID)) := by
    intro spec h
    have := All_log_Columns drv (dq.IDs q).state spec (by rw [hids.1]; simp) h
    rw [this, hids.1]
    simp [List.filter_append, FieldID]
  refine ⟨hfirst, ?_, honly, ?_, hids.1, ?_, ?_, ?_, ?_, hcols, ?_⟩
  · rw [FirstID_state, (IDs_frame q (dq.Limit 1)).2.1]
    exact (DynamicQuery.Limit_frame dq 1).2.2
  · rw [OnlyID_state, (IDs_frame q (dq.Limit 2)).2.1]
    exact (DynamicQuery.Limit_frame dq 2).2.2
  · rw [FirstID_state, (IDs_frame q (dq.Limit 1)).1, (DynamicQuery.Limit_frame dq 1).1]
  · rw [OnlyID_state, (IDs_frame q (dq.Limit 2)).1, (DynamicQuery.Limit_frame dq 2).1]
  · intro spec h
    exact DynamicQuery.All_log_Limit drv _ 1 hfirst spec h
  · intro hl nodes h
    obtain ⟨spec, rows, hhead, hdrv, hlen⟩ := All_length drv _ nodes h
    have hlim := DynamicQuery.All_log_Limit drv _ 1 hfirst spec hhead
    have := hl spec rows hdrv (by rw [hlim]; decide)
    rw [hlim] at this
    omega
  · intro hnil spec h
    rw [hcols spec h, hnil]
    rfl

/-- Witness for C28, amended: `First` and then `IDs` on the query of
`test_aaa`. -/
theorem terminal_ops_overwrite_witness :
    ((testClient.Table "test_aaa").Query.First driverTwoRows).state.limit = some 1 ∧
    ((testClient.Table "test_aaa").Query.IDs queryDriverTwo).state.fields = ["id"] :=
  ⟨(terminal_ops_overwrite driverTwoRows queryDriverTwo (testClient.Table "test_aaa").Query).1,
    (terminal_ops_overwrite driverTwoRows queryDriverTwo
      (testClient.Table "test_aaa").Query).2.2.2.2.1⟩

theorem querySpec_Unique (dq : DynamicQuery) (spec : QuerySpec) (h : dq.querySpec = .ok spec) :
    spec.Unique = dq.unique.getD true := by
  cases dq with
  | mk l o u ord f p s pa w t =>
    unfold DynamicQuery.querySpec at h
    simp only [DynamicQuery.table, DynamicQuery.unique, DynamicQuery.fields,
      DynamicQuery.predicates, DynamicQuery.limit, DynamicQuery.offset, DynamicQuery.order,
      DynamicQuery.sql] at h ⊢
    cases ht : t.Table with
    | none => simp [ht] at h
    | some tt =>
      simp only [ht] at h
      injection h with h
      rw [← h]
      cases u <;> cases l <;> cases o <;> dsimp only <;>
        split <;> split <;> split <;> rfl

theorem foldl_keeps_distinct (ps : List (Selector → Selector))
    (h : ∀ p ∈ ps, KeepsDistinct p) :
    ∀ s : Selector, (ps.foldl (fun s p => p s) s).distinct = s.distinct := by
  induction ps with
  | nil => intro s; rfl
  | cons p rest ih =>
    intro s
    simp only [List.foldl_cons]
    rw [ih (fun p' hp' => h p' (List.mem_cons_of_mem _ hp')), h p (List.mem_cons_self _ _)]

theorem sqlQuery_distinct (dq : DynamicQuery) (s : Selector)
    (hp : ∀ p ∈ dq.predicates, KeepsDistinct p) (ho : ∀ p ∈ dq.order, KeepsDistinct p)
    (h : dq.sqlQuery = .ok s) :
    s.distinct = (decide (dq.unique = some true) ||
      (match dq.sql with
      | some sel => sel.distinct
      | none => false)) := by
  unfold DynamicQuery.sqlQuery at h
  cases ht : dq.table.Table with
  | none => simp [ht] at h
  | some t =>
    simp only [ht] at h
    injection h with h
    rw [← h]
    have hfold : ∀ s0 : Selector,
        (dq.order.foldl (fun s p => p s) (dq.predicates.foldl (fun s p => p s) s0)).distinct
          = s0.distinct := fun s0 =>
      (foldl_keeps_distinct dq.order ho _).trans (foldl_keeps_distinct dq.predicates hp s0)
    cases hoff : dq.offset <;> cases hlim : dq.limit <;> cases hsql : dq.sql <;>
      by_cases hu : dq.unique = some true <;> simp only [hfold, hu, if_true, if_false] <;> simp

theorem prepareQuery_no_path (dq : DynamicQuery) (h : dq.path = none) :
    dq.prepareQuery.1 = dq := by
  unfold DynamicQuery.prepareQuery
  split
  · rfl
  · rfl
  · simp [h]

theorem ScanWith_calls {α : Type} (exec : Selector → Except Err α) (ds : DynamicSelect)
    (s : Selector) (h : (ds.ScanWith exec).calls = [.Query s]) :
    ds.query.prepareQuery.1.sqlQuery = .ok s := by
  unfold DynamicSelect.ScanWith at h
  rcases hq : ds.query.prepareQuery with ⟨dq1, out⟩
  rw [hq] at h
  cases out with
  | err e => simp at h
  | panic msg => simp at h
  | ok u =>
    simp only at h ⊢
    cases hs : dq1.sqlQuery with
    | err e => simp [hs] at h
    | panic msg => simp [hs] at h
    | ok selector =>
      simp only [hs] at h
      cases he : exec selector with
      | error e =>
        simp only [he, List.cons.injEq, Call.Query.injEq, and_true] at h
        rw [h]
      | ok v =>
        simp only [he, List.cons.injEq, Call.Query.injEq, and_true] at h
        rw [h]

theorem aggregate_distinct :
    ∀ (fns : List AggregateFunc) (s : Selector), (∀ fn ∈ fns, AggregateKeepsDistinct fn) →
      (DynamicGroupBy.aggregate fns s).2.distinct = s.distinct := by
  intro fns
  induction fns with
  | nil => intro s _; rfl
  | cons fn rest ih =>
    intro s h
    simp only [DynamicGroupBy.aggregate]
    rw [ih _ (fun f hf => h f (List.mem_cons_of_mem _ hf)), h fn (List.mem_cons_self _ _)]

theorem GroupBy_sqlQuery_distinct (dgb : DynamicGroupBy) (sql sel : Selector)
    (hsql : dgb.sql = some sql) (hfns : ∀ fn ∈ dgb.fns, AggregateKeepsDistinct fn)
    (h : dgb.sqlQuery = .ok sel) : sel.distinct = sql.distinct := by
  unfold DynamicGroupBy.sqlQuery at h
  simp only [hsql] at h
  injection h with h
  rw [← h]
  have hagg := aggregate_distinct dgb.fns { sql with columns := [] } hfns
  simp only at hagg ⊢
  split <;> exact hagg

theorem GroupBy_Scan_calls (q : QueryDriver) (dgb : DynamicGroupBy) (s : Selector)
    (hfns : ∀ fn ∈ dgb.fns, AggregateKeepsDistinct fn)
    (h : (dgb.Scan q).calls = [.Query s]) :
    ∃ s0, dgb.path.prepareQuery.1.sqlQuery = .ok s0 ∧ s.distinct = s0.distinct := by
  unfold DynamicGroupBy.Scan at h
  rcases hq : dgb.path.prepareQuery with ⟨dq1, out⟩
  rw [hq] at h
  cases out with
  | err e => simp at h
  | panic msg => simp at h
  | ok u =>
    simp only at h ⊢
    cases hs : dq1.sqlQuery with
    | err e => simp [hs] at h
    | panic msg => simp [hs] at h
    | ok query =>
      simp only [hs] at h
      refine ⟨query, rfl, ?_⟩
      cases hc : DynamicGroupBy.checkFields dgb.table dgb.fields with
      | err e => simp [hc] at h
      | panic msg => simp [hc] at h
      | ok u2 =>
        simp only [hc] at h
        cases hg : ({ dgb with sql := some query, path := dq1 } : DynamicGroupBy).sqlQuery with
        | err e => simp [hg] at h
        | panic msg => simp [hg] at h
        | ok sel =>
          have hd := GroupBy_sqlQuery_distinct
            ({ dgb with sql := some query, path := dq1 } : DynamicGroupBy) query sel rfl hfns hg
          simp only [hg] at h
          cases hx : q.ScanRows sel with
          | error e =>
            simp only [hx, List.cons.injEq, Call.Query.injEq, and_true] at h
            rw [← h]
            exact hd
          | ok rows =>
            simp only [hx, List.cons.injEq, Call.Query.injEq, and_true] at h
            rw [← h]
            exact hd

theorem All_log_Unique (drv : Driver) (dq : DynamicQuery) (spec : QuerySpec)
    (h : (dq.All drv).log.head? = some spec) : spec.Unique = dq.unique.getD true := by
  obtain ⟨s, hs⟩ := DynamicQuery.prepareQuery_shape dq
  unfold DynamicQuery.All at h
  rcases hq : dq.prepareQuery with ⟨dq1, out⟩
  rw [hq] at hs h
  simp only at hs
  cases out with
  | ok u =>
    simp only at h
    have hspec := (DynamicQuery.sqlAll_frame drv dq1).2.2 spec h
    rw [querySpec_Unique dq1 spec hspec, hs, (DynamicQuery.setSql_frame dq s).2.2.2.1]
  | err e => simp at h
  | panic msg => simp at h

theorem Only_log (drv : Driver) (dq : DynamicQuery) :
    (dq.Only drv).log = ((dq.Limit 2).All drv).log := by
  rcases h : ((dq.Limit 2).All drv).out with nodes | e | msg
  · rcases nodes with _ | ⟨n, _ | ⟨n2, rest⟩⟩
    · simp only [DynamicQuery.Only, h]
      split <;> rfl
    · simp [DynamicQuery.Only, h]
    · simp only [DynamicQuery.Only, h]
      split <;> rfl
  · simp [DynamicQuery.Only, h]
  · simp [DynamicQuery.Only, h]

theorem DynamicQuery.Limit_unique (dq : DynamicQuery) (n : Int) :
    (dq.Limit n).unique = dq.unique := by
  cases dq
  rfl

theorem Count_calls_Unique (q : QueryDriver) (dq : DynamicQuery) (spec : QuerySpec)
    (h : (dq.Count q).calls = [.CountNodes spec]) :
    spec.Unique = if dq.fields.length > 0 then decide (dq.unique = some true)
      else dq.unique.getD true := by
  obtain ⟨s, hs⟩ := DynamicQuery.prepareQuery_shape dq
  unfold DynamicQuery.Count at h
  rcases hq : dq.prepareQuery with ⟨dq1, out⟩
  rw [hq] at hs h
  simp only at hs
  have hfr := DynamicQuery.setSql_frame dq s
  cases out with
  | err e => simp at h
  | panic msg => simp at h
  | ok u =>
    simp only [DynamicQuery.sqlCount] at h
    cases hspec : dq1.querySpec with
    | err e => simp [hspec] at h
    | panic msg => simp [hspec] at h
    | ok spec0 =>
      have hu := querySpec_Unique dq1 spec0 hspec
      have hfields : dq1.fields = dq.fields := by rw [hs]; exact hfr.1
      have hunique : dq1.unique = dq.unique := by rw [hs]; exact hfr.2.2.2.1
      simp only [hspec, hfields, hunique] at h
      rw [hunique] at hu
      by_cases hf : dq.fields.length > 0
      · simp only [hf, if_true] at h ⊢
        split at h <;>
          (simp only [List.cons.injEq, Call.CountNodes.injEq, and_true] at h; rw [← h])
      · simp only [hf, if_false] at h ⊢
        split at h <;>
          (simp only [List.cons.injEq, Call.CountNodes.injEq, and_true] at h; rw [← h]; exact hu)

/-- C24. What the builder does with the unique flag. The query specification
of `All`, `First` and `Only`, and of `Count` when no field is selected, has
`Unique = true` on a builder on which `Unique` was never called, and
`Unique = b` after `Unique(b)`. The specification of `Count` with selected
fields has `Unique = true` only after `Unique(true)`, and the select
statement of `Select(...).Scan`, `IDs` and `GroupBy(...).Scan` is DISTINCT
only after `Unique(true)`: on a builder on which `Unique` was never called
they do not filter duplicates, against the comment of `Unique` ("By default,
unique is set to true") and the default of `querySpec` (stated for a builder
without intermediate selector, whose predicates, order and aggregation
functions leave the DISTINCT flag alone). -/
theorem unique_default (drv : Driver) (q : QueryDriver) (dq : DynamicQuery) :
    (∀ spec, (dq.All drv).log.head? = some spec → spec.Unique = dq.unique.getD true) ∧
    (∀ spec, (dq.First drv).log.head? = some spec → spec.Unique = dq.unique.getD true) ∧
    (∀ spec, (dq.Only drv).log.head? = some spec → spec.Unique = dq.unique.getD true) ∧
    (∀ spec, (dq.Count q).calls = [.CountNodes spec] →
      spec.Unique = if dq.fields.length > 0 then decide (dq.unique = some true)
        else dq.unique.getD true) ∧
    (dq.path = none → dq.sql = none → (∀ p ∈ dq.predicates, KeepsDistinct p) →
      (∀ p ∈ dq.order, KeepsDistinct p) →
      (∀ fields s, ((dq.Select fields).Scan q).calls = [.Query s] →
        s.distinct = decide (dq.unique = some true)) ∧
      (∀ s, (dq.IDs q).calls = [.Query s] → s.distinct = decide (dq.unique = some true)) ∧
      (∀ f fs fns dgb s, dq.GroupBy f fs = .ok dgb →
        (∀ fn ∈ fns, AggregateKeepsDistinct fn) →
        ((dgb.Aggregate fns).Scan q).calls = [.Query s] →
        s.distinct = decide (dq.unique = some true))) ∧
    (∀ b, (dq.Unique b).unique = some b ∧ (dq.Unique b).fields = dq.fields ∧
      (dq.Unique b).path = dq.path ∧ (dq.Unique b).sql = dq.sql ∧
      (dq.Unique b).predicates = dq.predicates ∧ (dq.Unique b).order = dq.order) := by
  refine ⟨All_log_Unique drv dq, ?_, ?_, Count_calls_Unique q dq, ?_, ?_⟩
  · intro spec h
    rw [(First_state_log drv dq).2] at h
    rw [All_log_Unique drv _ spec h, DynamicQuery.Limit_unique]
  · intro spec h
    rw [Only_log drv dq] at h
    rw [All_log_Unique drv _ spec h, DynamicQuery.Limit_unique]
  · intro hpath hsql hp ho
    have hscan : ∀ (α : Type) (exec : Selector → Except Err α) (fields : List String)
        (s : Selector), ((dq.Select fields).ScanWith exec).calls = [.Query s] →
        s.distinct = decide (dq.unique = some true) := by
      intro α exec fields s h
      have hq := ScanWith_calls exec _ s h
      have hfr := DynamicQuery.setFields_frame dq (dq.fields ++ fields)
      have hprep : (dq.Select fields).query.prepareQuery.1 = dq.setFields (dq.fields ++ fields) :=
        prepareQuery_no_path _ (by simp only [DynamicQuery.Select]; rw [hfr.2.2.2.2.1, hpath])
      rw [hprep] at hq
      have := sqlQuery_distinct _ s (by rw [hfr.2.2.2.2.2.2.1]; exact hp)
        (by
          have : (dq.setFields (dq.fields ++ fields)).order = dq.order := by cases dq; rfl
          rw [this]; exact ho) hq
      rw [this, hfr.2.2.2.2.2.1, hsql, hfr.2.2.2.1]
      simp
    refine ⟨fun fields s h => hscan _ _ fields s h, fun s h => hscan _ _ [FieldID] s h, ?_⟩
    intro f fs fns dgb s hg hfns h
    have hdgb : dgb.path = dq ∧ dgb.fns = [] := by
      unfold DynamicQuery.GroupBy at hg
      split at hg
      · cases hg
      · cases hg
        exact ⟨rfl, rfl⟩
    obtain ⟨s0, hs0, hd⟩ := GroupBy_Scan_calls q (dgb.Aggregate fns) s
      (by simp only [DynamicGroupBy.Aggregate, hdgb.2, List.nil_append]; exact hfns) h
    have hpath2 : (dgb.Aggregate fns).path = dq := hdgb.1
    rw [hpath2, prepareQuery_no_path dq hpath] at hs0
    rw [hd, sqlQuery_distinct dq s0 hp ho hs0, hsql]
    simp
  · intro b
    cases dq
    exact ⟨rfl, rfl, rfl, rfl, rfl, rfl⟩

/-- Witness for C24: `Table("test_aaa").Query().IDs` with `Unique` never
called sends a select statement that is not DISTINCT, and `Count` with
`field1` selected sends a specification with `Unique = false`, while the
specification of `All` on the same builder has `Unique = true`. -/
theorem unique_default_witness :
    (testClient.Table "test_aaa").Query.unique = none ∧ queryAAAField1.unique = none ∧
    ((testClient.Table "test_aaa").Query.IDs queryDriverTwo).calls = [.Query idsSelectorAAA] ∧
    idsSelectorAAA.distinct = false ∧
    (match (queryAAAField1.Count queryDriverTwo).calls with
      | [.CountNodes spec] => some spec.Unique
      | _ => none) = some false ∧
    ((testClient.Table "test_aaa").Query.All driverTwoRows).log.map (fun spec => spec.Unique)
      = [true] :=
  ⟨rfl, rfl, rfl, ((unique_default driverTwoRows queryDriverTwo
    (testClient.Table "test_aaa").Query).2.2.2.2.1 rfl rfl
    (fun _ hp => nomatch hp) (fun _ hp => nomatch hp)).2.1 _ rfl, rfl, rfl⟩


/-! ## The predicate combinators -/

/-- C22. `Not(Not(p))` is `Not(p)`: the selector method `Not` sets the
pending flag, it does not toggle it, so the second `Not` adds nothing. On the
selector of `test_aaa` without conditions `Not(Not(IntEQ("field1", 1)))` adds
`NOT (field1 = 1)` where `IntEQ("field1", 1)` adds `field1 = 1`; a row with
`field1 = 1` satisfies the second and not the first. -/
theorem Not_Not_is_Not :
    (∀ (p : PredicateDynamic) (s : Selector), Dent.Not (Dent.Not p) s = Dent.Not p s) ∧
    (Dent.Not (Dent.Not (IntEQ "field1" 1)) (blankSelector "test_aaa")).where_
      = some (.Not (.EQ "test_aaa.field1" (.int 1))) ∧
    (IntEQ "field1" 1 (blankSelector "test_aaa")).where_
      = some (.EQ "test_aaa.field1" (.int 1)) ∧
    (SqlPredicate.Not (.EQ "test_aaa.field1" (.int 1))).holds [("test_aaa.field1", .int 1)]
      = false ∧
    (SqlPredicate.EQ "test_aaa.field1" (.int 1)).holds [("test_aaa.field1", .int 1)] = true :=
  ⟨fun _ _ => rfl, rfl, rfl, by decide, by decide⟩

theorem AddsOne_And_single (p : PredicateDynamic) (hp : AddsOne p) : Dent.And [p] = p := by
  obtain ⟨c, hc⟩ := hp
  funext s
  have h1 : (p (s.Clone.SetP none)).P = some (c s.table) := by
    rw [hc]
    simp [Selector.Clone, Selector.SetP, Selector.Where, Selector.P]
  simp only [Dent.And, List.foldl_cons, List.foldl_nil, h1, Selector.WhereP]
  rw [hc]

theorem AddsOne_IntEQ (f : String) (v : Int) : AddsOne (IntEQ f v) :=
  ⟨fun t => .EQ (t ++ "." ++ f) (.int v), fun _ => rfl⟩

theorem AddsOne_ID (id : Int) : AddsOne (ID id) :=
  ⟨fun t => .EQ (t ++ "." ++ FieldID) (.int id), fun _ => rfl⟩

theorem AddsOne_IDIn (ids : List Int) : AddsOne (IDIn ids) :=
  ⟨fun t => .In (t ++ "." ++ FieldID) (ids.map Value.int), fun _ => rfl⟩

/-- C23, counterexample. On the selector of `test_aaa` with a pending `Not`,
the predicate `Not(IntEQ("field1", 1))` adds `NOT (field1 = 1)` and `And` of
it adds `NOT (NOT (field1 = 1))`; a row with `field1 = 1` satisfies the
second and not the first. -/
theorem And_single_counterexample :
    (Dent.Not (IntEQ "field1" 1) (blankSelector "test_aaa").Not).where_
      = some (.Not (.EQ "test_aaa.field1" (.int 1))) ∧
    (Dent.And [Dent.Not (IntEQ "field1" 1)] (blankSelector "test_aaa").Not).where_
      = some (.Not (.Not (.EQ "test_aaa.field1" (.int 1)))) ∧
    (SqlPredicate.Not (.EQ "test_aaa.field1" (.int 1))).holds [("test_aaa.field1", .int 1)]
      = false ∧
    (SqlPredicate.Not (.Not (.EQ "test_aaa.field1" (.int 1)))).holds
      [("test_aaa.field1", .int 1)] = true :=
  ⟨rfl, rfl, by decide, by decide⟩

/-- C23, amended. For a predicate p that adds exactly one condition through
`Where`, depending on the selector through its table only (as `ID`, `IDIn`
and `IntEQ` do, and `And` of such a predicate again), `And(p)` is p: on every
selector, with a pending `Not` or `Or` or with conditions already, both leave
the same selector, so a query filtered by `And(p)` sends the statement of the
query filtered by p. -/
theorem And_single (p : PredicateDynamic) (hp : AddsOne p) :
    Dent.And [p] = p ∧ (∀ s : Selector, Dent.And [p] s = p s) ∧ AddsOne (Dent.And [p]) ∧
    (∀ (dq : DynamicQuery), (dq.Where [Dent.And [p]]) = dq.Where [p]) ∧
    (∀ (f : String) (v : Int), AddsOne (IntEQ f v)) ∧ (∀ id : Int, AddsOne (ID id)) ∧
    (∀ ids : List Int, AddsOne (IDIn ids)) := by
  have h := AddsOne_And_single p hp
  refine ⟨h, fun s => by rw [h], by rw [h]; exact hp, fun dq => by rw [h], AddsOne_IntEQ,
    AddsOne_ID, AddsOne_IDIn⟩

/-- Witness for C23, amended: the predicate `And(IntEQ("id", 1))` of the
test. -/
theorem And_single_witness :
    Dent.And [IntEQ "id" 1] (blankSelector "user") = IntEQ "id" 1 (blankSelector "user") ∧
    (IntEQ "id" 1 (blankSelector "user")).where_ = some (.EQ "user.id" (.int 1)) :=
  ⟨(And_single (IntEQ "id" 1) (AddsOne_IntEQ "id" 1)).2.1 (blankSelector "user"), rfl⟩


/-! ## The sub-queries after a run -/

theorem loadEntry_state (run : DynamicQuery → Run DynamicQuery (List Dynamic))
    (key fk : String) (single : Bool) (query : DynamicQuery) (nodes nodes' : List Dynamic)
    (h : (loadEntry run key fk single query nodes).out = .ok nodes') :
    ∃ filter, KeyFilter fk single nodes filter ∧
      (loadEntry run key fk single query nodes).state = (run (query.Where [filter])).state ∧
      (loadEntry run key fk single query nodes).log = (run (query.Where [filter])).log ∧
      ∃ children, (run (query.Where [filter])).out = .ok children := by
  cases single with
  | true =>
    simp only [loadEntry, if_true] at h ⊢
    cases hk : singleKeys fk nodes 0 [] [] with
    | err e => simp [hk] at h
    | panic msg => simp [hk] at h
    | ok r =>
      obtain ⟨ids, nodeids⟩ := r
      simp only [hk] at h ⊢
      obtain ⟨_, hb, hc, _⟩ := singleKeys_spec fk nodes 0 [] [] ids nodeids hk
      obtain ⟨hnd, hids⟩ := hb List.nodup_nil (by intro x; simp [GoMap.get])
      have hhas : ∀ x, (nodeids.get x).isSome = true ↔ ∃ p ∈ nodes, fkOf fk p = some x := by
        intro x
        rw [hc x]
        simp [GoMap.get]
      refine ⟨IDIn ids, ⟨fun _ => ⟨ids, rfl, hnd, fun x => (hids x).trans (hhas x)⟩,
        fun hf => (by cases hf)⟩, ?_⟩
      cases hr : (run (query.Where [IDIn ids])).out with
      | err e => simp [hr] at h
      | panic msg => simp [hr] at h
      | ok children => exact ⟨rfl, rfl, children, rfl⟩
  | false =>
    simp only [loadEntry, Bool.false_eq_true, if_false] at h ⊢
    refine ⟨listPredicate fk nodes, ⟨fun hf => (by cases hf), fun _ => rfl⟩, ?_⟩
    cases hr : (run (query.Where [listPredicate fk nodes])).out with
    | err e => simp [hr] at h
    | panic msg => simp [hr] at h
    | ok children => exact ⟨rfl, rfl, children, rfl⟩

theorem All_state_predicates (drv : Driver) (dq : DynamicQuery) :
    (dq.All drv).state.predicates = dq.predicates := by
  obtain ⟨s, w, h⟩ := DynamicQuery.All_shape drv dq
  rw [h]
  exact (DynamicQuery.setSql_setWithData_frame dq s w).2.2.2.2.2.1

theorem KeyFilter_congr (fk : String) (single : Bool) (nodes nodes1 : List Dynamic)
    (filter : PredicateDynamic) (hs : SameNodes nodes nodes1)
    (h : KeyFilter fk single nodes1 filter) : KeyFilter fk single nodes filter := by
  refine ⟨fun hsingle => ?_, fun hlist => ?_⟩
  · obtain ⟨ids, hf, hnd, hids⟩ := h.1 hsingle
    exact ⟨ids, hf, hnd, fun x => (hids x).trans (hs.exists_fk fk x)⟩
  · rw [h.2 hlist]
    exact listPredicate_congr fk nodes nodes1 hs.map_ID

theorem loadEdges_state (drv : Driver) :
    ∀ (m : WithDataMap) (nodes nodes' : List Dynamic),
      (loadEdges drv m nodes).out = .ok nodes' →
      (loadEdges drv m nodes).state.keys = m.keys ∧
      ∀ (key fk : String) (single : Bool) (sq : DynamicQuery), m.keys.Nodup →
        m.get key = some (.mk fk single sq) →
        ∃ filter sq', KeyFilter fk single nodes filter ∧
          (loadEdges drv m nodes).state.get key = some (.mk fk single sq') ∧
          sq'.predicates = sq.predicates ++ [filter] := by
  intro m
  refine WithDataMap.induct
    (fun m => ∀ (nodes nodes' : List Dynamic),
      (loadEdges drv m nodes).out = .ok nodes' →
      (loadEdges drv m nodes).state.keys = m.keys ∧
      ∀ (key fk : String) (single : Bool) (sq : DynamicQuery), m.keys.Nodup →
        m.get key = some (.mk fk single sq) →
        ∃ filter sq', KeyFilter fk single nodes filter ∧
          (loadEdges drv m nodes).state.get key = some (.mk fk single sq') ∧
          sq'.predicates = sq.predicates ++ [filter]) ?_ ?_ m
  · intro nodes nodes' _
    refine ⟨rfl, ?_⟩
    intro key fk single sq _ hget
    simp [WithDataMap.get] at hget
  · intro k w rest ih nodes nodes' h
    cases w with
    | mk fk0 single0 q0 =>
      rw [loadEdges_cons] at h ⊢
      cases hout : (loadEntry (DynamicQuery.All drv) k fk0 single0 q0 nodes).out with
      | err e => simp [hout] at h
      | panic msg => simp [hout] at h
      | ok nodes1 =>
        simp only [hout] at h ⊢
        obtain ⟨hkeys, hall⟩ := ih nodes1 nodes' h
        refine ⟨by simp [WithDataMap.keys, hkeys], ?_⟩
        intro key fk single sq hnd hget
        simp only [WithDataMap.keys, List.nodup_cons] at hnd
        simp only [WithDataMap.get] at hget ⊢
        by_cases hk : k = key
        · subst hk
          simp only [if_true, Option.some.injEq, WithQuery.mk.injEq] at hget ⊢
          obtain ⟨h1, h2, h3⟩ := hget
          subst h1
          subst h2
          subst h3
          obtain ⟨filter, hf, hstate, _, _⟩ :=
            loadEntry_state (DynamicQuery.All drv) k fk0 single0 q0 nodes nodes1 hout
          refine ⟨filter, _, hf, ⟨rfl, rfl, rfl⟩, ?_⟩
          rw [hstate, All_state_predicates, DynamicQuery.predicates_Where]
        · simp only [hk, if_false] at hget ⊢
          obtain ⟨filter, sq', hf, hg, hp⟩ := hall key fk single sq hnd.2 hget
          exact ⟨filter, sq', KeyFilter_congr fk single nodes nodes1 filter
            (loadEntry_sameNodes _ k fk0 single0 q0 nodes nodes1 hout) hf, hg, hp⟩

theorem All_state_of_primary (drv : Driver) (dq : DynamicQuery) (nodes0 : List Dynamic)
    (hprim : dq.primary drv = .ok nodes0) (hne : nodes0 ≠ []) :
    (dq.All drv).state.withData = (loadEdges drv dq.withData nodes0).state := by
  unfold DynamicQuery.primary at hprim
  unfold DynamicQuery.All
  have hw := (DynamicQuery.prepareQuery_frame dq).2.2
  rcases hq : dq.prepareQuery with ⟨dq1, out⟩
  rw [hq] at hprim hw
  simp only at hw
  cases out with
  | err e => simp at hprim
  | panic msg => simp at hprim
  | ok u =>
    simp only at hprim ⊢
    unfold DynamicQuery.sqlAll DynamicQuery.sqlAllWith
    cases hs : dq1.querySpec with
    | err e => simp [hs] at hprim
    | panic msg => simp [hs] at hprim
    | ok spec =>
      simp only [hs] at hprim ⊢
      have hlen : ¬ nodes0.length = 0 := fun e => hne (List.length_eq_zero.mp e)
      simp only [hprim, hlen, if_false, hw, DynamicQuery.withData_setWithData]

theorem All_primary_empty (drv : Driver) (dq : DynamicQuery)
    (hprim : dq.primary drv = .ok []) :
    (dq.All drv).out = .ok [] ∧ (dq.All drv).state.withData = dq.withData ∧
    (dq.All drv).log.length = 1 := by
  unfold DynamicQuery.primary at hprim
  unfold DynamicQuery.All
  have hw := (DynamicQuery.prepareQuery_frame dq).2.2
  rcases hq : dq.prepareQuery with ⟨dq1, out⟩
  rw [hq] at hprim hw
  simp only at hw
  cases out with
  | err e => simp at hprim
  | panic msg => simp at hprim
  | ok u =>
    simp only at hprim ⊢
    unfold DynamicQuery.sqlAll DynamicQuery.sqlAllWith
    cases hs : dq1.querySpec with
    | err e => simp [hs] at hprim
    | panic msg => simp [hs] at hprim
    | ok spec =>
      simp only [hs] at hprim ⊢
      simp [hprim, hw]

theorem All_ok_primary (drv : Driver) (dq : DynamicQuery) (nodes : List Dynamic)
    (h : (dq.All drv).out = .ok nodes) :
    ∃ nodes0, dq.primary drv = .ok nodes0 ∧ nodes.length = nodes0.length := by
  unfold DynamicQuery.All at h
  unfold DynamicQuery.primary
  rcases hp : dq.prepareQuery with ⟨dq1, out⟩
  rw [hp] at h
  cases out with
  | err e => simp at h
  | panic msg => simp at h
  | ok u =>
    simp only [DynamicQuery.sqlAll, DynamicQuery.sqlAllWith] at h ⊢
    cases hs : dq1.querySpec with
    | err e => simp [hs] at h
    | panic msg => simp [hs] at h
    | ok spec =>
      simp only [hs] at h ⊢
      cases hq : QueryNodes drv spec dq1.table with
      | err e => simp [hq] at h
      | panic msg => simp [hq] at h
      | ok nodes0 =>
        simp only [hq] at h ⊢
        refine ⟨nodes0, rfl, ?_⟩
        by_cases h0 : nodes0.length = 0
        · simp only [h0, if_true, Outcome.ok.injEq] at h
          rw [← h]
        · simp only [h0, if_false] at h
          exact (loadEdges_frame drv dq1.withData nodes0 nodes h).1

/-- C27. A run of `All` whose primary result is empty dispatches the primary
query only and leaves every sub-query as it is. A run that returns entities
from a primary result that is not empty leaves, for every entry of the
eager-load map, the sub-query with exactly one more predicate at the end of
its list, the key filter for the parents of this run (`ID IN` their foreign
keys for a single edge, `fromkey IN` their ids for a list edge). The filter
stays: after k such runs of the same builder the sub-query of an entry
carries its original predicates followed by k filters, all of which filter
the follow-up query of a later run. -/
theorem All_appends_key_filters (drv : Driver) (dq : DynamicQuery) (nodes0 : List Dynamic)
    (hkeys : dq.withData.keys.Nodup) (hprim : dq.primary drv = .ok nodes0) :
    (nodes0 = [] →
      (dq.All drv).out = .ok [] ∧ (dq.All drv).state.withData = dq.withData ∧
      (dq.All drv).log.length = 1) ∧
    (nodes0 ≠ [] → ∀ nodes', (dq.All drv).out = .ok nodes' →
      (dq.All drv).state.withData.keys = dq.withData.keys ∧
      ∀ (key fk : String) (single : Bool) (sq : DynamicQuery),
        dq.withData.get key = some (.mk fk single sq) →
        ∃ filter sq', KeyFilter fk single nodes0 filter ∧
          (dq.All drv).state.withData.get key = some (.mk fk single sq') ∧
          sq'.predicates = sq.predicates ++ [filter]) ∧
    (∀ k : Nat, AllReturns drv k dq →
      ∀ (key fk : String) (single : Bool) (sq : DynamicQuery),
        dq.withData.get key = some (.mk fk single sq) →
        ∃ (fs : List PredicateDynamic) (sq' : DynamicQuery),
          (allTimes drv k dq).withData.get key = some (.mk fk single sq') ∧
          sq'.predicates = sq.predicates ++ fs ∧ fs.length = k) := by
  have hstep : ∀ (dq : DynamicQuery) (nodes0 nodes' : List Dynamic),
      dq.withData.keys.Nodup → dq.primary drv = .ok nodes0 → nodes0 ≠ [] →
      (dq.All drv).out = .ok nodes' →
      (dq.All drv).state.withData.keys = dq.withData.keys ∧
      ∀ (key fk : String) (single : Bool) (sq : DynamicQuery),
        dq.withData.get key = some (.mk fk single sq) →
        ∃ filter sq', KeyFilter fk single nodes0 filter ∧
          (dq.All drv).state.withData.get key = some (.mk fk single sq') ∧
          sq'.predicates = sq.predicates ++ [filter] := by
    intro dq nodes0 nodes' hkeys hprim hne hok
    have hout := All_of_primary drv dq nodes0 hprim hne
    rw [hok] at hout
    obtain ⟨hk, hall⟩ := loadEdges_state drv dq.withData nodes0 nodes' hout.symm
    rw [All_state_of_primary drv dq nodes0 hprim hne]
    exact ⟨hk, fun key fk single sq hget => hall key fk single sq hkeys hget⟩
  refine ⟨?_, ?_, ?_⟩
  · intro h0
    subst h0
    exact All_primary_empty drv dq hprim
  · intro hne nodes' hok
    exact hstep dq nodes0 nodes' hkeys hprim hne hok
  · intro k
    clear hprim
    induction k generalizing dq with
    | zero =>
      intro _ key fk single sq hget
      exact ⟨[], sq, hget, by simp, rfl⟩
    | succ k ih =>
      intro hret key fk single sq hget
      obtain ⟨⟨nodes, hok, hnn⟩, hrest⟩ := hret
      obtain ⟨nodes1, hp1, hlen⟩ := All_ok_primary drv dq nodes hok
      have hne1 : nodes1 ≠ [] := by
        intro e
        subst e
        exact hnn (List.length_eq_zero.mp hlen)
      obtain ⟨hk, hall⟩ := hstep dq nodes1 nodes hkeys hp1 hne1 hok
      obtain ⟨filter, sq1, _, hg1, hpred1⟩ := hall key fk single sq hget
      obtain ⟨fs, sq', hg, hpred, hlenfs⟩ :=
        ih (dq.All drv).state (by rw [hk]; exact hkeys) hrest key fk single sq1 hg1
      refine ⟨filter :: fs, sq', hg, ?_, by simp [hlenfs]⟩
      rw [hpred, hpred1]
      simp

/-- Witness for C27: two runs of the query of users with their creator; after
the second the sub-query carries the key filter twice. -/
theorem All_appends_key_filters_witness :
    (queryUsersWithCreator.All driverUsersDB).state.withData.keys = ["creator"] ∧
    ((allTimes driverUsersDB 2 queryUsersWithCreator).withData.get "creator").map
        (fun w => (w.query.predicates.foldl (fun s p => p s) (blankSelector "user")).where_)
      = some (some (.And (.In "user.id" [.int 2, .int 0]) (.In "user.id" [.int 2, .int 0]))) :=
  ⟨((All_appends_key_filters driverUsersDB queryUsersWithCreator
      [userNode 1 "ann" 2, userNode 2 "bob" 2, userNode 3 "cy" 0] (by decide) rfl).2.1
      (by simp) _ rfl).1, rfl⟩


/-! ## Nested eager loading -/

theorem attachList_mem (key fk : String) (nodeids : GoMap Int Nat) :
    ∀ (children nodes nodes' : List Dynamic),
      attachList key fk nodeids children nodes = .ok nodes' →
      ∀ (j : Nat) (p : Dynamic), nodes[j]? = some p →
        ∃ p', nodes'[j]? = some p' ∧ p'.SingleMap = p.SingleMap ∧
          ∀ c ∈ (p'.ListMap.get key).getD [],
            c ∈ (p.ListMap.get key).getD [] ∨ c ∈ children := by
  intro children
  induction children with
  | nil =>
    intro nodes nodes' h
    simp [attachList] at h
    subst h
    exact fun j p hj => ⟨p, hj, rfl, fun c hc => Or.inl hc⟩
  | cons n rest ih =>
    intro nodes nodes' h
    cases hx : fkOf fk n with
    | none =>
      rw [attachList_cons_none key fk nodeids n rest nodes hx] at h
      cases h
    | some x =>
      rw [attachList_cons_some key fk nodeids n rest nodes x hx] at h
      cases hg : nodeids.get x with
      | none => simp [hg] at h
      | some i =>
        simp only [hg] at h
        have hall := ih _ nodes' h
        intro j p hj
        have hu := getElem?_updateAt (fun p => p.appendList key n) nodes i j
        by_cases hji : j = i
        · rw [if_pos hji, hj] at hu
          obtain ⟨p', h1, hsm, hmem⟩ := hall j (p.appendList key n) hu
          refine ⟨p', h1, by simpa using hsm, ?_⟩
          intro c hc
          rcases hmem c hc with h2 | h2
          · have e : ((p.appendList key n).ListMap.get key).getD [] =
                (p.ListMap.get key).getD [] ++ [n] := by
              cases p
              simp [Dynamic.appendList, Dynamic.ListMap, GoMap.get_set_self]
            rw [e] at h2
            rcases List.mem_append.mp h2 with h3 | h3
            · exact Or.inl h3
            · right
              have h4 : c = n := by simpa using h3
              rw [h4]
              exact List.mem_cons_self _ _
          · exact Or.inr (List.mem_cons_of_mem _ h2)
        · rw [if_neg hji, hj] at hu
          obtain ⟨p', h1, hsm, hmem⟩ := hall j p hu
          exact ⟨p', h1, hsm, fun c hc => (hmem c hc).imp id (List.mem_cons_of_mem _)⟩

theorem lastMatch_mem (P : Dynamic → Prop) [DecidablePred P] (children : List Dynamic)
    (init : Option Dynamic) (c : Dynamic) (h : lastMatch P children init = some c) :
    init = some c ∨ c ∈ children := by
  rw [lastMatch_eq] at h
  cases hl : (children.filter (fun c => decide (P c))).getLast? with
  | none => rw [hl] at h; exact Or.inl h
  | some d =>
    rw [hl] at h
    cases h
    right
    exact (List.mem_filter.mp (List.mem_of_getLast?_eq_some hl)).1

theorem loadEntry_run (run : DynamicQuery → Run DynamicQuery (List Dynamic))
    (key fk : String) (single : Bool) (query : DynamicQuery) (nodes nodes' : List Dynamic)
    (h : (loadEntry run key fk single query nodes).out = .ok nodes') :
    ∃ (filter : PredicateDynamic) (children : List Dynamic),
      KeyFilter fk single nodes filter ∧
      (run (query.Where [filter])).out = .ok children ∧
      (loadEntry run key fk single query nodes).log = (run (query.Where [filter])).log ∧
      ∀ (j : Nat) (p : Dynamic), nodes[j]? = some p →
        ∃ p', nodes'[j]? = some p' ∧
          (∀ c, p'.SingleMap.get key = some c → p.SingleMap.get key = some c ∨ c ∈ children) ∧
          ∀ c ∈ (p'.ListMap.get key).getD [],
            c ∈ (p.ListMap.get key).getD [] ∨ c ∈ children := by
  cases single with
  | true =>
    simp only [loadEntry, if_true] at h ⊢
    cases hk : singleKeys fk nodes 0 [] [] with
    | err e => simp [hk] at h
    | panic msg => simp [hk] at h
    | ok r =>
      obtain ⟨ids, nodeids⟩ := r
      simp only [hk] at h ⊢
      obtain ⟨_, hb, hc, _⟩ := singleKeys_spec fk nodes 0 [] [] ids nodeids hk
      obtain ⟨hnd, hids⟩ := hb List.nodup_nil (by intro x; simp [GoMap.get])
      have hhas : ∀ x, (nodeids.get x).isSome = true ↔ ∃ p ∈ nodes, fkOf fk p = some x := by
        intro x
        rw [hc x]
        simp [GoMap.get]
      cases hr : (run (query.Where [IDIn ids])).out with
      | err e => simp [hr] at h
      | panic msg => simp [hr] at h
      | ok children =>
        simp only [hr] at h
        obtain ⟨_, _, hall⟩ := attachSingle_spec key nodeids children nodes nodes' h
        refine ⟨IDIn ids, children,
          ⟨fun _ => ⟨ids, rfl, hnd, fun x => (hids x).trans (hhas x)⟩,
            fun hf => (by cases hf)⟩, hr, by simp [hr], ?_⟩
        intro j p hj
        obtain ⟨p', h1, _, _, hlm, _, hkey⟩ := hall j p hj
        refine ⟨p', h1, ?_, ?_⟩
        · intro c hc
          rw [hkey] at hc
          exact lastMatch_mem _ children _ c hc
        · intro c hc
          rw [hlm] at hc
          exact Or.inl hc
  | false =>
    simp only [loadEntry, Bool.false_eq_true, if_false] at h ⊢
    cases hr : (run (query.Where [listPredicate fk nodes])).out with
    | err e => simp [hr] at h
    | panic msg => simp [hr] at h
    | ok children =>
      simp only [hr] at h
      have hall := attachList_mem key fk (listKeys nodes 0 []) children nodes nodes' h
      refine ⟨listPredicate fk nodes, children,
        ⟨fun hf => (by cases hf), fun _ => rfl⟩, hr, by simp [hr], ?_⟩
      intro j p hj
      obtain ⟨p', h1, hsm, hmem⟩ := hall j p hj
      refine ⟨p', h1, ?_, hmem⟩
      intro c hc
      rw [hsm] at hc
      exact Or.inl hc

theorem loadEdges_run (drv : Driver) :
    ∀ (m : WithDataMap) (nodes nodes' : List Dynamic) (key fk : String) (single : Bool)
      (sq : DynamicQuery),
      m.keys.Nodup → m.get key = some (.mk fk single sq) →
      (loadEdges drv m nodes).out = .ok nodes' →
      ∃ (filter : PredicateDynamic) (children : List Dynamic),
        KeyFilter fk single nodes filter ∧
        ((sq.Where [filter]).All drv).out = .ok children ∧
        ((sq.Where [filter]).All drv).log <:+: (loadEdges drv m nodes).log ∧
        ∀ (j : Nat) (p : Dynamic), nodes[j]? = some p →
          ∃ p', nodes'[j]? = some p' ∧
            (∀ c, p'.SingleMap.get key = some c →
              p.SingleMap.get key = some c ∨ c ∈ children) ∧
            ∀ c ∈ (p'.ListMap.get key).getD [],
              c ∈ (p.ListMap.get key).getD [] ∨ c ∈ children := by
  intro m
  refine WithDataMap.induct
    (fun m => ∀ (nodes nodes' : List Dynamic) (key fk : String) (single : Bool)
      (sq : DynamicQuery),
      m.keys.Nodup → m.get key = some (.mk fk single sq) →
      (loadEdges drv m nodes).out = .ok nodes' →
      ∃ (filter : PredicateDynamic) (children : List Dynamic),
        KeyFilter fk single nodes filter ∧
        ((sq.Where [filter]).All drv).out = .ok children ∧
        ((sq.Where [filter]).All drv).log <:+: (loadEdges drv m nodes).log ∧
        ∀ (j : Nat) (p : Dynamic), nodes[j]? = some p →
          ∃ p', nodes'[j]? = some p' ∧
            (∀ c, p'.SingleMap.get key = some c →
              p.SingleMap.get key = some c ∨ c ∈ children) ∧
            ∀ c ∈ (p'.ListMap.get key).getD [],
              c ∈ (p.ListMap.get key).getD [] ∨ c ∈ children)
    ?_ ?_ m
  · intro nodes nodes' key fk single sq _ hget _
    simp [WithDataMap.get] at hget
  · intro k w rest ih nodes nodes' key fk single sq hnd hget h
    cases w with
    | mk fk0 single0 q0 =>
      have hnd' : k ∉ rest.keys ∧ rest.keys.Nodup := by
        simpa [WithDataMap.keys] using hnd
      rw [loadEdges_cons] at h ⊢
      cases hout : (loadEntry (DynamicQuery.All drv) k fk0 single0 q0 nodes).out with
      | err e => simp [hout] at h
      | panic msg => simp [hout] at h
      | ok nodes1 =>
        simp only [hout] at h ⊢
        by_cases hk : k = key
        · subst hk
          simp only [WithDataMap.get, if_true, Option.some.injEq, WithQuery.mk.injEq] at hget
          obtain ⟨h1, h2, h3⟩ := hget
          subst h1; subst h2; subst h3
          obtain ⟨filter, children, hf, hrun, hlog, hall1⟩ :=
            loadEntry_run _ k fk0 single0 q0 nodes nodes1 hout
          obtain ⟨_, hall⟩ := loadEdges_frame drv rest nodes1 nodes' h
          refine ⟨filter, children, hf, hrun, ?_, ?_⟩
          · rw [hlog]
            exact (List.prefix_append _ _).isInfix
          · intro j p hj
            obtain ⟨p1, hp1, hs1, hl1⟩ := hall1 j p hj
            obtain ⟨p', hp', _, _, hs, hl⟩ := hall j p1 hp1
            refine ⟨p', hp', ?_, ?_⟩
            · rw [hs k hnd'.1]; exact hs1
            · rw [hl k hnd'.1]; exact hl1
        · simp only [WithDataMap.get, if_neg hk] at hget
          have hsame := loadEntry_sameNodes _ k fk0 single0 q0 nodes nodes1 hout
          obtain ⟨_, hall1⟩ := loadEntry_frame _ k fk0 single0 q0 nodes nodes1 hout
          obtain ⟨filter, children, hf, hrun, hlog, hall⟩ :=
            ih nodes1 nodes' key fk single sq hnd'.2 hget h
          refine ⟨filter, children, KeyFilter_congr fk single nodes nodes1 filter hsame hf,
            hrun, hlog.trans (List.suffix_append _ _).isInfix, ?_⟩
          intro j p hj
          obtain ⟨p1, hp1, _, _, hs1, hl1⟩ := hall1 j p hj
          obtain ⟨p', hp', hs, hl⟩ := hall j p1 hp1
          refine ⟨p', hp', ?_, ?_⟩
          · rw [← hs1 key (fun e => hk e.symm)]; exact hs
          · rw [← hl1 key (fun e => hk e.symm)]; exact hl

theorem All_log_of_primary (drv : Driver) (dq : DynamicQuery) (nodes0 : List Dynamic)
    (hprim : dq.primary drv = .ok nodes0) (hne : nodes0 ≠ []) :
    ∃ spec, (dq.All drv).log = spec :: (loadEdges drv dq.withData nodes0).log := by
  unfold DynamicQuery.primary at hprim
  unfold DynamicQuery.All
  have hw := (DynamicQuery.prepareQuery_frame dq).2.2
  rcases hq : dq.prepareQuery with ⟨dq1, out⟩
  rw [hq] at hprim hw
  simp only at hw
  cases out with
  | err e => simp at hprim
  | panic msg => simp at hprim
  | ok u =>
    simp only at hprim ⊢
    unfold DynamicQuery.sqlAll DynamicQuery.sqlAllWith
    cases hs : dq1.querySpec with
    | err e => simp [hs] at hprim
    | panic msg => simp [hs] at hprim
    | ok spec =>
      simp only [hs] at hprim ⊢
      have hlen : ¬ nodes0.length = 0 := fun e => hne (List.length_eq_zero.mp e)
      simp only [hprim, hlen, if_false, hw]
      exact ⟨spec, rfl⟩

theorem All_log_leaf (drv : Driver) (dq : DynamicQuery) (nodes : List Dynamic)
    (hw : dq.withData = .nil) (h : (dq.All drv).out = .ok nodes) :
    (dq.All drv).log.length = 1 := by
  obtain ⟨nodes0, hprim, _⟩ := All_ok_primary drv dq nodes h
  by_cases hne : nodes0 = []
  · rw [hne] at hprim
    exact (All_primary_empty drv dq hprim).2.2
  · obtain ⟨spec, hlog⟩ := All_log_of_primary drv dq nodes0 hprim hne
    rw [hlog, hw]
    simp [loadEdges]

theorem loadEdges_log_leaves (drv : Driver) :
    ∀ (m : WithDataMap) (nodes nodes' : List Dynamic), m.Leaves →
      (loadEdges drv m nodes).out = .ok nodes' →
      (loadEdges drv m nodes).log.length = m.keys.length := by
  intro m
  refine WithDataMap.induct
    (fun m => ∀ (nodes nodes' : List Dynamic), m.Leaves →
      (loadEdges drv m nodes).out = .ok nodes' →
      (loadEdges drv m nodes).log.length = m.keys.length) ?_ ?_ m
  · intro nodes nodes' _ _
    simp [loadEdges, WithDataMap.keys]
  · intro k w rest ih nodes nodes' hl h
    cases w with
    | mk fk0 single0 q0 =>
      obtain ⟨hq, hrest⟩ := hl
      simp only [WithQuery.query] at hq
      rw [loadEdges_cons] at h ⊢
      cases hout : (loadEntry (DynamicQuery.All drv) k fk0 single0 q0 nodes).out with
      | err e => simp [hout] at h
      | panic msg => simp [hout] at h
      | ok nodes1 =>
        simp only [hout] at h ⊢
        obtain ⟨filter, _, _, hlog, children, hrun⟩ :=
          loadEntry_state (DynamicQuery.All drv) k fk0 single0 q0 nodes nodes1 hout
        have h1 := All_log_leaf drv (q0.Where [filter]) children
          (by rw [DynamicQuery.withData_Where]; exact hq) hrun
        rw [List.length_append, hlog, h1, ih nodes1 nodes' hrest h]
        simp [WithDataMap.keys]
        omega

theorem All_list_core (drv : Driver) (dq : DynamicQuery) (nodes0 nodes' : List Dynamic)
    (key fk : String) (sq : DynamicQuery)
    (hkeys : dq.withData.keys.Nodup) (hids : (nodes0.map Dynamic.ID).Nodup)
    (hentry : dq.withData.get key = some (.mk fk false sq))
    (hprim : dq.primary drv = .ok nodes0) (hne : nodes0 ≠ [])
    (hok : (dq.All drv).out = .ok nodes') :
    ∃ children : List Dynamic,
      ((sq.Where [listPredicate fk nodes0]).All drv).out = .ok children ∧
      nodes'.length = nodes0.length ∧
      ∀ (j : Nat) (p : Dynamic), nodes0[j]? = some p →
        ∃ p', nodes'[j]? = some p' ∧ p'.ID = p.ID ∧ p'.Row = p.Row ∧
          p'.edgesList key =
            children.filter (fun c => decide (c.Row.get fk = some (.int64 p.ID))) := by
  rw [All_of_primary drv dq nodes0 hprim hne] at hok
  obtain ⟨children, hrun, _, hlen, hall⟩ :=
    loadEdges_list drv dq.withData nodes0 nodes' key fk sq hkeys hids hentry hok
  refine ⟨children, hrun, hlen, ?_⟩
  intro j p hj
  obtain ⟨p', hp', hid, hrow, hkey⟩ := hall j p hj
  refine ⟨p', hp', hid, hrow, ?_⟩
  have hfresh := (primary_fresh drv dq nodes0 hprim p (List.getElem?_mem hj)).2
  unfold Dynamic.edgesList
  rw [hkey, hfresh]
  simp only [GoMap.get, Option.getD_none, List.nil_append]
  apply List.filter_congr
  intro c _
  have := fkOf_eq_some fk c p.ID
  by_cases h : fkOf fk c = some p.ID
  · simp [h, this.mp h]
  · have h2 : ¬ c.Row.get fk = some (.int64 p.ID) := fun e => h (this.mpr e)
    simp [h, h2]

theorem getElem?_of_length_eq {α : Type} (l l' : List α) (h : l'.length = l.length)
    (j : Nat) (x' : α) (hj : l'[j]? = some x') : ∃ x, l[j]? = some x := by
  have hlt : j < l'.length := by
    by_contra hc
    rw [List.getElem?_eq_none (by omega)] at hj
    cases hj
  exact ⟨l[j], List.getElem?_eq_getElem (by omega)⟩

/-- C21. Nested eager loading. When `All` succeeds on a query with a
non-empty primary result and an entry `key -> (fk, single, sq)`, the loop of
`sqlAll` runs `All` on the sub-query with the key filter of the entry; the
queries of that run are part of the queries of the whole run, and every child
attached under `key` to a returned parent is an entity that this run of the
sub-query returned. That run is itself a run of `All`: when it returns
children, it sends the sub-query's own query and then runs the loop over the
sub-query's own entries on them, so that for every nested entry `key2` the
children carry under `key2` the result of one follow-up run (for a single
entry the last neighbor whose id is the child's foreign key, for a list entry
the neighbors whose foreign key is the child's id, children with distinct
ids), and when the nested sub-queries have no entries of their own the run
sends exactly one query per nested entry after the sub-query's own. -/
theorem All_loads_nested (drv : Driver) (dq : DynamicQuery) (nodes0 nodes' : List Dynamic)
    (key fk : String) (single : Bool) (sq : DynamicQuery)
    (hkeys : dq.withData.keys.Nodup)
    (hentry : dq.withData.get key = some (.mk fk single sq))
    (hprim : dq.primary drv = .ok nodes0) (hne : nodes0 ≠ [])
    (hok : (dq.All drv).out = .ok nodes') :
    ∃ (filter : PredicateDynamic) (children : List Dynamic),
      KeyFilter fk single nodes0 filter ∧
      ((sq.Where [filter]).All drv).out = .ok children ∧
      ((sq.Where [filter]).All drv).log <:+: (dq.All drv).log ∧
      (∀ p' ∈ nodes', (∀ c, p'.edgesGet key = some c → c ∈ children) ∧
        ∀ c ∈ p'.edgesList key, c ∈ children) ∧
      (sq.withData.keys.Nodup → children ≠ [] →
        (sq.withData.Leaves →
          ((sq.Where [filter]).All drv).log.length = 1 + sq.withData.keys.length) ∧
        (∀ (key2 fk2 : String) (sq2 : DynamicQuery),
          sq.withData.get key2 = some (.mk fk2 true sq2) →
          ∃ (ids2 : List Int) (children2 : List Dynamic),
            (∀ x, x ∈ ids2 ↔ ∃ c ∈ children, c.Row.get fk2 = some (.int64 x)) ∧
            ((sq2.Where [IDIn ids2]).All drv).out = .ok children2 ∧
            ∀ c ∈ children, ∃ x, c.Row.get fk2 = some (.int64 x) ∧
              c.edgesGet key2 = (children2.filter (fun c2 => decide (c2.ID = x))).getLast?) ∧
        (∀ (key2 fk2 : String) (sq2 : DynamicQuery),
          sq.withData.get key2 = some (.mk fk2 false sq2) →
          (children.map Dynamic.ID).Nodup →
          ∃ children2 : List Dynamic,
            ((sq2.Where [listPredicate fk2 children]).All drv).out = .ok children2 ∧
            ∀ c ∈ children, c.edgesList key2 =
              children2.filter (fun c2 => decide (c2.Row.get fk2 = some (.int64 c.ID))))) := by
  have hload : (loadEdges drv dq.withData nodes0).out = .ok nodes' := by
    rw [← All_of_primary drv dq nodes0 hprim hne]; exact hok
  obtain ⟨filter, children, hf, hrun, hlog, hall⟩ :=
    loadEdges_run drv dq.withData nodes0 nodes' key fk single sq hkeys hentry hload
  obtain ⟨spec, hl⟩ := All_log_of_primary drv dq nodes0 hprim hne
  refine ⟨filter, children, hf, hrun, ?_, ?_, ?_⟩
  · rw [hl]
    exact hlog.trans (List.suffix_cons _ _).isInfix
  · intro p' hp'
    obtain ⟨j, hj⟩ := List.getElem?_of_mem hp'
    obtain ⟨p, hp⟩ := getElem?_of_length_eq nodes0 nodes'
      (loadEdges_frame drv _ nodes0 nodes' hload).1 j p' hj
    obtain ⟨p1, hp1, hs, hlm⟩ := hall j p hp
    rw [hj] at hp1
    cases hp1
    obtain ⟨hfs, hfl⟩ := primary_fresh drv dq nodes0 hprim p (List.getElem?_mem hp)
    refine ⟨?_, ?_⟩
    · intro c hc
      rcases hs c hc with h1 | h1
      · rw [hfs] at h1
        simp [GoMap.get] at h1
      · exact h1
    · intro c hc
      rcases hlm c hc with h1 | h1
      · rw [hfl] at h1
        simp [GoMap.get] at h1
      · exact h1
  · intro hk2 hcne
    have hwd : (sq.Where [filter]).withData = sq.withData :=
      DynamicQuery.withData_Where sq [filter]
    obtain ⟨children0, hprim2, hlen2⟩ := All_ok_primary drv (sq.Where [filter]) children hrun
    have hne2 : children0 ≠ [] := by
      intro e
      rw [e] at hlen2
      exact hcne (List.length_eq_zero.mp hlen2)
    have hload2 : (loadEdges drv sq.withData children0).out = .ok children := by
      rw [← hwd, ← All_of_primary drv (sq.Where [filter]) children0 hprim2 hne2]; exact hrun
    have hsame := loadEdges_sameNodes drv _ children0 children hload2
    refine ⟨?_, ?_, ?_⟩
    · intro hleaves
      obtain ⟨spec2, hl2⟩ := All_log_of_primary drv (sq.Where [filter]) children0 hprim2 hne2
      rw [hl2, hwd, List.length_cons, loadEdges_log_leaves drv _ _ _ hleaves hload2]
      omega
    · intro key2 fk2 sq2 he
      obtain ⟨ids2, children2, _, hids, hrun2, hlen, hall2⟩ :=
        All_single_core drv (sq.Where [filter]) children0 children key2 fk2 sq2
          (by rw [hwd]; exact hk2) (by rw [hwd]; exact he) hprim2 hne2 hrun
      refine ⟨ids2, children2, ?_, hrun2, ?_⟩
      · intro x
        rw [hids x]
        have := hsame.exists_fk fk2 x
        simp only [fkOf_eq_some] at this
        exact this.symm
      · intro c hc
        obtain ⟨j, hj⟩ := List.getElem?_of_mem hc
        obtain ⟨c0, hc0⟩ := getElem?_of_length_eq children0 children hlen j c hj
        obtain ⟨p', x, hp', hx, _, hrow, hkey⟩ := hall2 j c0 hc0
        rw [hj] at hp'
        cases hp'
        exact ⟨x, by rw [hrow]; exact hx, hkey⟩
    · intro key2 fk2 sq2 he hnd
      have hmap := hsame.map_ID
      obtain ⟨children2, hrun2, hlen, hall2⟩ :=
        All_list_core drv (sq.Where [filter]) children0 children key2 fk2 sq2
          (by rw [hwd]; exact hk2) (by rw [← hmap]; exact hnd) (by rw [hwd]; exact he)
          hprim2 hne2 hrun
      refine ⟨children2, ?_, ?_⟩
      · rw [listPredicate_congr fk2 children0 children hmap]; exact hrun2
      · intro c hc
        obtain ⟨j, hj⟩ := List.getElem?_of_mem hc
        obtain ⟨c0, hc0⟩ := getElem?_of_length_eq children0 children hlen j c hj
        obtain ⟨p', hp', hid, _, hkey⟩ := hall2 j c0 hc0
        rw [hj] at hp'
        cases hp'
        rw [hkey, hid]

/-- Witness for C21: every user with its creator, loaded with the users the
creator created. The run sends three queries, two of them by the run of the
sub-query; users 1 and 2 carry creator 2 with its created users 1 and 2. -/
theorem All_loads_nested_witness :
    (∃ (filter : PredicateDynamic) (children : List Dynamic),
      ((queryUsersCreated.Where [filter]).All driverUsersDB).out = .ok children ∧
      ((queryUsersCreated.Where [filter]).All driverUsersDB).log <:+:
        (queryUsersNested.All driverUsersDB).log ∧
      (children ≠ [] →
        ((queryUsersCreated.Where [filter]).All driverUsersDB).log.length = 2)) ∧
    (queryUsersNested.All driverUsersDB).log.length = 3 ∧
    (match (queryUsersNested.All driverUsersDB).out with
      | .ok nodes => nodes.map (fun (n : Dynamic) =>
          (n.ID, edgeSummary "created" (.ok (n.edgesGet "creator").toList)))
      | _ => [])
      = [(1, [(2, none, [1, 2])]), (2, [(2, none, [1, 2])]), (3, [])] := by
  refine ⟨?_, by decide, by decide⟩
  obtain ⟨filter, children, _, h1, h2, _, h3⟩ := All_loads_nested driverUsersDB queryUsersNested
    [userNode 1 "ann" 2, userNode 2 "bob" 2, userNode 3 "cy" 0] _
    "creator" "creator_id" true queryUsersCreated (by decide) rfl rfl (by simp) rfl
  refine ⟨filter, children, h1, h2, fun hne => ?_⟩
  have hk : queryUsersCreated.withData.keys.Nodup := by decide
  have hl : queryUsersCreated.withData.Leaves := ⟨rfl, trivial⟩
  rw [(h3 hk hne).1 hl]
  rfl

/-! ## The flag `done` -/

theorem bulkFinish_op (b : DynamicCreate) (node : Dynamic) (v : Value) :
    (bulkFinish b node v).1.mutation.op = b.mutation.op := by
  unfold bulkFinish
  split
  · split <;> rfl
  · rfl

theorem bulkMutate_op (g : GraphDriver) :
    ∀ (bs : List DynamicCreate) (i : Nat) (specs : List CreateSpec),
      (bulkMutate g i bs specs).builders.map (fun b => b.mutation.op)
        = bs.map (fun b => b.mutation.op) := by
  intro bs
  induction bs with
  | nil =>
    intro i specs
    simp [bulkMutate]
  | cons b rest ih =>
    intro i specs
    cases hcs : b.createSpec with
    | err e1 => simp [bulkMutate, hcs]
    | panic msg => simp [bulkMutate, hcs]
    | ok p =>
      obtain ⟨node, spec⟩ := p
      have hrest : (bulkNext g i rest (specs ++ [spec])).builders.map (fun b => b.mutation.op)
          = rest.map (fun b => b.mutation.op) := by
        cases rest with
        | nil =>
          rw [bulkNext_nil]
          cases g.BatchCreate (specs ++ [spec]) <;> rfl
        | cons b2 rest2 =>
          rw [bulkNext_cons]
          exact ih (i + 1) (specs ++ [spec])
      rw [bulkMutate_cons g i b rest specs node spec hcs]
      cases hn : (bulkNext g i rest (specs ++ [spec])).out with
      | err e1 => simp [hrest]
      | panic msg => simp [hrest]
      | ok nodes1 =>
        simp only
        cases hf : (bulkFinish b node
            ((bulkNext g i rest (specs ++ [spec])).ids.getD i spec.IDValue)).2 <;>
          simp [hrest, bulkFinish_op]

theorem CreateBulk_Save_op (g : GraphDriver) (dcb : DynamicCreateBulk) :
    (dcb.Save g).builders.map (fun b => b.mutation.op)
      = dcb.builders.map (fun b => b.mutation.op) := by
  unfold DynamicCreateBulk.Save
  split
  · exact bulkMutate_op g _ _ _
  · rfl
theorem withField_op_done (cols : List Column) (m : DynamicMutation) :
    (withField cols m).op = m.op ∧ (withField cols m).done = m.done := by
  unfold withField
  induction cols generalizing m with
  | nil => exact ⟨rfl, rfl⟩
  | cons c rest ih =>
    simp only [List.foldl_cons]
    rw [(ih _).1, (ih _).2]
    split <;> exact ⟨rfl, rfl⟩

theorem mutation_methods_op (drv : Driver) (m : DynamicMutation) (f : String) (v : Value)
    (i id : Int) (ps : List PredicateDynamic) :
    (m.SetValue f v).1.op = m.op ∧ (m.AddValue f i).1.op = m.op ∧
    (m.AddField f v).1.op = m.op ∧ (m.ClearValue f).op = m.op ∧ (m.ResetValue f).op = m.op ∧
    (m.SetID id).op = m.op ∧ (m.Where ps).op = m.op ∧ (m.OldValue drv f).state.op = m.op := by
  have hadd : ∀ j, (m.AddValue f j).1.op = m.op := by
    intro j
    unfold DynamicMutation.AddValue
    split
    · rfl
    · split
      · split
        · dsimp only
          split <;> split <;> rfl
        · rfl
      · rfl
  refine ⟨?_, hadd i, ?_, rfl, rfl, rfl, rfl, ?_⟩
  · unfold DynamicMutation.SetValue
    split
    · rfl
    · split <;> rfl
  · unfold DynamicMutation.AddField
    split
    · exact hadd _
    · rfl
  · unfold DynamicMutation.OldValue
    split
    · rfl
    · split
      · rfl
      · split
        · rfl
        · rfl
        · rfl
        · split
          · rfl
          · split
            · rfl
            · dsimp only
              split <;> rfl

theorem UpdateOne_Save_op_done (g : GraphDriver) (duo : DynamicUpdateOne) :
    (duo.Save g).state.mutation.op = duo.mutation.op ∧
    (duo.Save g).state.mutation.done = duo.mutation.done := by
  unfold DynamicUpdateOne.Save DynamicUpdateOne.sqlSave
  split
  · exact ⟨rfl, rfl⟩
  · exact ⟨rfl, rfl⟩
  · split
    · exact ⟨rfl, rfl⟩
    · split
      · exact ⟨rfl, rfl⟩
      · exact ⟨rfl, rfl⟩
      · dsimp only
        split <;> exact ⟨rfl, rfl⟩

/-- C11, counterexample. The two Create builders of `test_aaa` after a bulk
save that succeeded: the flag `done` of both mutations is true, and the
old-value load of `field1` fails on both with the error of the operation
check, which is neither the error "querying old values post mutation is not
allowed" nor an error that wraps it. -/
theorem done_flag_counterexample :
    ((((testClient.Table "test_aaa").CreateBulk [createAAA 1, createAAA 2]).Save
        graphNoRows).builders.map
      (fun b => (b.mutation.op, b.mutation.done,
        (b.mutation.OldValue driverTwoRows "field1").out)))
      = [(.OpCreate, true,
            .err (.errorf "OldCreatorID is only allowed on UpdateOne operations" [])),
          (.OpCreate, true,
            .err (.errorf "OldCreatorID is only allowed on UpdateOne operations" []))] ∧
    Err.errorf "OldCreatorID is only allowed on UpdateOne operations" []
      ≠ .errorf "querying old values post mutation is not allowed" [] ∧
    Err.errorf "OldCreatorID is only allowed on UpdateOne operations" []
      ≠ .wrapf "querying old value for OldCreatorID: %w"
        (.errorf "querying old values post mutation is not allowed" []) :=
  ⟨rfl, by decide, by decide⟩

/-- C11, amended. The flag `done` is set by a bulk save that succeeds, on
the mutation of each of its builders, which are Create mutations (the
mutation of every builder of `Table.Create` is one, with `done = false`): on
such a mutation the old-value load of every column fails with the error of
the operation check, "OldCreatorID is only allowed on UpdateOne operations",
without a database load and without a change of the mutation. The mutations
of `Table.UpdateOne` (built with `withEntity`) and `Table.UpdateOneID` (built
with `withID`) start with `done = false`, and neither a method of the
mutation nor `Save` of the update-one builder changes `done` or the
operation: the flag of an UpdateOne mutation stays false, and a flag that is
true stays true. -/
theorem done_flag_spec (g : GraphDriver) (drv : Driver) (dcb : DynamicCreateBulk)
    (nodes : List Dynamic) (hop : ∀ b ∈ dcb.builders, b.mutation.op = .OpCreate)
    (hok : (dcb.Save g).out = .ok nodes) :
    (∀ b ∈ (dcb.Save g).builders, b.mutation.done = true ∧ b.mutation.op = .OpCreate ∧
      ∀ c, (b.mutation.OldValue drv c).out
          = .err (.errorf "OldCreatorID is only allowed on UpdateOne operations" []) ∧
        (b.mutation.OldValue drv c).loads = 0 ∧ (b.mutation.OldValue drv c).log = [] ∧
        (b.mutation.OldValue drv c).state = b.mutation) ∧
    (∀ (t : Dent.Table) (b : DynamicCreate), t.Create = .ok b →
      b.mutation.op = .OpCreate ∧ b.mutation.done = false) ∧
    (∀ (t : Dent.Table) (e : Dynamic) (id : Int),
      (t.UpdateOne e).mutation.op = .OpUpdateOne ∧ (t.UpdateOne e).mutation.done = false ∧
      (t.UpdateOneID id).mutation.op = .OpUpdateOne ∧
      (t.UpdateOneID id).mutation.done = false) ∧
    (∀ duo : DynamicUpdateOne, (duo.Save g).state.mutation.op = duo.mutation.op ∧
      (duo.Save g).state.mutation.done = duo.mutation.done) ∧
    (∀ (m : DynamicMutation) (f : String) (v : Value) (i id : Int) (ps : List PredicateDynamic),
      ((m.SetValue f v).1.op = m.op ∧ (m.AddValue f i).1.op = m.op ∧
        (m.AddField f v).1.op = m.op ∧ (m.ClearValue f).op = m.op ∧
        (m.ResetValue f).op = m.op ∧ (m.SetID id).op = m.op ∧ (m.Where ps).op = m.op ∧
        (m.OldValue drv f).state.op = m.op) ∧
      (m.SetValue f v).1.done = m.done ∧ (m.AddValue f i).1.done = m.done ∧
      (m.AddField f v).1.done = m.done ∧ (m.ClearValue f).done = m.done ∧
      (m.ResetValue f).done = m.done ∧ (m.SetID id).done = m.done ∧
      (m.Where ps).done = m.done ∧ (m.OldValue drv f).state.done = m.done) := by
  refine ⟨?_, ?_, ?_, UpdateOne_Save_op_done g, ?_⟩
  · intro b hb
    have hdone : b.mutation.done = true := by
      by_cases hne : dcb.builders.length > 0
      · have hsave : dcb.Save g = bulkMutate g 0 dcb.builders [] := by
          simp [DynamicCreateBulk.Save, hne]
        rw [hsave] at hok hb
        exact Forall₂_left (bulkMutate_ok_done g dcb.builders 0 [] nodes hok).1
          (fun a _ hab => hab.2) b hb
      · have hsave : (dcb.Save g).builders = dcb.builders := by
          simp [DynamicCreateBulk.Save, hne]
        rw [hsave] at hb
        have : dcb.builders = [] := by
          cases hl : dcb.builders with
          | nil => rfl
          | cons x xs => rw [hl] at hne; simp at hne
        rw [this] at hb
        cases hb
    have hcreate : b.mutation.op = .OpCreate := by
      have hm : b.mutation.op ∈ (dcb.Save g).builders.map (fun b => b.mutation.op) :=
        List.mem_map.mpr ⟨b, hb, rfl⟩
      rw [CreateBulk_Save_op] at hm
      obtain ⟨b0, hb0, h0⟩ := List.mem_map.mp hm
      rw [← h0]
      exact hop b0 hb0
    refine ⟨hdone, hcreate, ?_⟩
    intro c
    simp [DynamicMutation.OldValue, hcreate, Op.Is]
  · intro t b h
    unfold Table.Create at h
    split at h
    · cases h
    · cases h
      exact ⟨(withField_op_done _ _).1, (withField_op_done _ _).2⟩
  · intro t e id
    exact ⟨rfl, rfl, rfl, rfl⟩
  · intro m f v i id ps
    exact ⟨mutation_methods_op drv m f v i id ps, SetValue_done m f v, AddValue_done m f i,
      AddField_done m f v, rfl, rfl, rfl, rfl, OldValue_done drv m f⟩

/-- Witness for C11, amended: the bulk save of two Create builders of
`test_aaa`; afterwards both mutations have `done = true` and the old-value
load of `field1` fails on both with the error of the operation check. -/
theorem done_flag_spec_witness :
    ((((testClient.Table "test_aaa").CreateBulk [createAAA 1, createAAA 2]).Save
        graphNoRows).builders.map (fun b => b.mutation.done)) = [true, true] ∧
    ∀ b ∈ (((testClient.Table "test_aaa").CreateBulk [createAAA 1, createAAA 2]).Save
        graphNoRows).builders,
      (b.mutation.OldValue driverTwoRows "field1").out
        = .err (.errorf "OldCreatorID is only allowed on UpdateOne operations" []) := by
  refine ⟨rfl, fun b hb => ?_⟩
  have hop : ∀ b ∈ ((testClient.Table "test_aaa").CreateBulk
      [createAAA 1, createAAA 2]).builders, b.mutation.op = .OpCreate := by
    intro b hb
    simp only [Table.CreateBulk, List.mem_cons, List.mem_singleton, List.not_mem_nil,
      or_false] at hb
    rcases hb with rfl | rfl <;> rfl
  exact (((done_flag_spec graphNoRows driverTwoRows
    ((testClient.Table "test_aaa").CreateBulk [createAAA 1, createAAA 2]) _ hop rfl).1
    b hb).2.2 "field1").1

end Dent
